import Mathlib

/-! # go-faster: a verification development

`faster.go` reads one Go file, turns every receiver-less function whose result list
has exactly one entry into a function that starts its original body in a goroutine
and returns a channel, and rewrites the direct calls of such functions into channel
receives.

This file embeds the program in Lean:

* the part of `go/ast` the program touches (syntax trees, `ast.Walk`);
* the functions of `faster.go`: `callToReceiveCall`, `typeToChanType`,
  `increaseSpeed`, `wrapInReceive`, `improveCallExprs`, the visitor closure of
  `main`, and the two loops of `main`.

Conventions of the embedding.

* Syntax trees are values. The program mutates a pointer graph in place; here every
  mutation `n.X = e` becomes the construction of a node with the new child. The only
  sharing the program creates is in `increaseSpeed`, which puts the declared result
  type under three parents; the unfolding into a tree is exact as long as that one
  node is not itself a call that gets wrapped, and no type expression produced by
  `go/parser` is a call expression.
* The node kinds are those of `go/ast` before type parameters were added to the
  language. A field that can be `nil`, in the output of `go/parser` or in a node built
  by the program, is an `Option`.
* Source positions are left out, except `CallExpr.Lparen` (read and written by
  `wrapInReceive`) and `CallExpr.Ellipsis`. `token.NoPos` is `0`.
* `ast.Walk` recurses on the tree it is mutating, so it is embedded with a fuel
  argument; running out of fuel is the failure `Failure.outOfFuel`, a Go run-time
  panic is one of the other failures.
-/

namespace GoFaster

/-! ## go/token -/

/-- A source position (`token.Pos`). -/
abbrev Pos := Nat

/-- The zero position `token.NoPos`. -/
def NoPos : Pos := 0

/-- The lexical tokens of Go (`token.Token`). -/
inductive Token
  | ILLEGAL | EOF | COMMENT
  | IDENT | INT | FLOAT | IMAG | CHAR | STRING
  | ADD | SUB | MUL | QUO | REM
  | AND | OR | XOR | SHL | SHR | AND_NOT
  | ADD_ASSIGN | SUB_ASSIGN | MUL_ASSIGN | QUO_ASSIGN | REM_ASSIGN
  | AND_ASSIGN | OR_ASSIGN | XOR_ASSIGN | SHL_ASSIGN | SHR_ASSIGN | AND_NOT_ASSIGN
  | LAND | LOR | ARROW | INC | DEC
  | EQL | LSS | GTR | ASSIGN | NOT
  | NEQ | LEQ | GEQ | DEFINE | ELLIPSIS
  | LPAREN | LBRACK | LBRACE | COMMA | PERIOD
  | RPAREN | RBRACK | RBRACE | SEMICOLON | COLON
  | BREAK | CASE | CHAN | CONST | CONTINUE
  | DEFAULT | DEFER | ELSE | FALLTHROUGH | FOR
  | FUNC | GO | GOTO | IF | IMPORT
  | INTERFACE | MAP | PACKAGE | RANGE | RETURN
  | SELECT | STRUCT | SWITCH | TYPE | VAR
  deriving DecidableEq, Repr

/-! ## go/ast -/

/-- The kind of a resolved object (`ast.ObjKind`). -/
inductive ObjKind
  | Bad | Pkg | Con | Typ | Var | Fun | Lbl
  deriving DecidableEq, Repr

/-- A resolved language entity (`ast.Object`). `Decl` stands for the declaration the
object denotes (`0` when there is none); it is what tells two objects of the same
name apart. -/
structure Object where
  Kind : ObjKind
  Name : String
  Decl : Nat
  deriving DecidableEq, Repr

/-- The constructor `ast.NewObj`. -/
def NewObj (kind : ObjKind) (name : String) : Object :=
  { Kind := kind, Name := name, Decl := 0 }

/-- An identifier node (`ast.Ident`). -/
structure Ident where
  Name : String
  Obj : Option Object
  deriving DecidableEq, Repr

/-- The constructor `ast.NewIdent`: an identifier without an object. -/
def NewIdent (name : String) : Ident :=
  { Name := name, Obj := none }

/-- A literal of basic type (`ast.BasicLit`). -/
structure BasicLit where
  Kind : Token
  Value : String
  deriving DecidableEq, Repr

/-- A sequence of comments (`ast.CommentGroup`), one string per comment. -/
abbrev CommentGroup := List String

/-- The direction of a channel type (`ast.ChanDir`), a bit set. -/
abbrev ChanDir := Nat

/-- The bit `ast.SEND`. -/
def SEND : ChanDir := 1

/-- The bit `ast.RECV`. -/
def RECV : ChanDir := 2

mutual

/-- Expression and type nodes (`ast.Expr`). -/
inductive Expr
  | BadExpr
  | Ident (id : Ident)
  | Ellipsis (Elt : Option Expr)
  | BasicLit (lit : BasicLit)
  | FuncLit (Type_ : FuncType) (Body : Option BlockStmt)
  | CompositeLit (Type_ : Option Expr) (Elts : List Expr)
  | ParenExpr (X : Expr)
  | SelectorExpr (X : Expr) (Sel : GoFaster.Ident)
  | IndexExpr (X : Expr) (Index : Expr)
  | SliceExpr (X : Expr) (Low : Option Expr) (High : Option Expr) (Max : Option Expr)
      (Slice3 : Bool)
  | TypeAssertExpr (X : Expr) (Type_ : Option Expr)
  | CallExpr (call : CallExpr)
  | StarExpr (X : Expr)
  | UnaryExpr (Op : Token) (X : Expr)
  | BinaryExpr (X : Expr) (Op : Token) (Y : Expr)
  | KeyValueExpr (Key : Expr) (Value : Expr)
  | ArrayType (Len : Option Expr) (Elt : Expr)
  | StructType (Fields : FieldList) (Incomplete : Bool)
  | FuncType (type : FuncType)
  | InterfaceType (Methods : FieldList) (Incomplete : Bool)
  | MapType (Key : Expr) (Value : Expr)
  | ChanType (Dir : ChanDir) (Value : Expr)

/-- A call node (`ast.CallExpr`): `Fun(Args)`. `Lparen` is the position of the
opening parenthesis, `Ellipsis` the position of a final `...`. -/
inductive CallExpr
  | mk (Fun : Expr) (Lparen : Pos) (Args : List Expr) (Ellipsis : Pos)

/-- A function type node (`ast.FuncType`): parameters and results. -/
inductive FuncType
  | mk (Params : Option FieldList) (Results : Option FieldList)

/-- A list of fields (`ast.FieldList`). -/
inductive FieldList
  | mk (List_ : List Field)

/-- A field, method or parameter declaration (`ast.Field`): several names may share
one type. -/
inductive Field
  | mk (Doc : Option CommentGroup) (Names : List GoFaster.Ident) (Type_ : Expr)
      (Tag : Option GoFaster.BasicLit) (Comment : Option CommentGroup)

/-- A braced statement list (`ast.BlockStmt`). -/
inductive BlockStmt
  | mk (List_ : List Stmt)

/-- Statement nodes (`ast.Stmt`). -/
inductive Stmt
  | BadStmt
  | DeclStmt (Decl : Decl)
  | EmptyStmt (Implicit : Bool)
  | LabeledStmt (Label : GoFaster.Ident) (Stmt : Stmt)
  | ExprStmt (X : Expr)
  | SendStmt (Chan : Expr) (Value : Expr)
  | IncDecStmt (X : Expr) (Tok : Token)
  | AssignStmt (Lhs : List Expr) (Tok : Token) (Rhs : List Expr)
  | GoStmt (Call : CallExpr)
  | DeferStmt (Call : CallExpr)
  | ReturnStmt (Results : List Expr)
  | BranchStmt (Tok : Token) (Label : Option GoFaster.Ident)
  | BlockStmt (block : BlockStmt)
  | IfStmt (Init : Option Stmt) (Cond : Expr) (Body : BlockStmt) (Else : Option Stmt)
  | CaseClause (List_ : List Expr) (Body : List Stmt)
  | SwitchStmt (Init : Option Stmt) (Tag : Option Expr) (Body : BlockStmt)
  | TypeSwitchStmt (Init : Option Stmt) (Assign : Stmt) (Body : BlockStmt)
  | CommClause (Comm : Option Stmt) (Body : List Stmt)
  | SelectStmt (Body : BlockStmt)
  | ForStmt (Init : Option Stmt) (Cond : Option Expr) (Post : Option Stmt)
      (Body : BlockStmt)
  | RangeStmt (Key : Option Expr) (Value : Option Expr) (Tok : Token) (X : Expr)
      (Body : BlockStmt)

/-- Import, constant/variable and type specifications (`ast.Spec`). -/
inductive Spec
  | ImportSpec (Doc : Option CommentGroup) (Name : Option GoFaster.Ident)
      (Path : GoFaster.BasicLit) (Comment : Option CommentGroup)
  | ValueSpec (Doc : Option CommentGroup) (Names : List GoFaster.Ident)
      (Type_ : Option Expr) (Values : List Expr) (Comment : Option CommentGroup)
  | TypeSpec (Doc : Option CommentGroup) (Name : GoFaster.Ident) (Type_ : Expr)
      (Comment : Option CommentGroup)

/-- A function declaration node (`ast.FuncDecl`). `Recv` is `none` for a function,
`Body` is `none` for a declaration without a body. -/
inductive FuncDecl
  | mk (Doc : Option CommentGroup) (Recv : Option FieldList) (Name : GoFaster.Ident)
      (Type_ : FuncType) (Body : Option BlockStmt)

/-- Declaration nodes (`ast.Decl`). -/
inductive Decl
  | BadDecl
  | GenDecl (Doc : Option CommentGroup) (Tok : Token) (Specs : List Spec)
  | FuncDecl (decl : FuncDecl)

end

/-- A parsed source file (`ast.File`), reduced to its top-level declarations. -/
structure File where
  Decls : List Decl

/-! ### Field selectors -/

/-- The callee `Fun` of a call node. -/
def CallExpr.Fun : CallExpr → Expr
  | .mk f _ _ _ => f

/-- The position `Lparen` of a call node. -/
def CallExpr.Lparen : CallExpr → Pos
  | .mk _ l _ _ => l

/-- The arguments `Args` of a call node. -/
def CallExpr.Args : CallExpr → List Expr
  | .mk _ _ a _ => a

/-- The position `Ellipsis` of a call node. -/
def CallExpr.Ellipsis : CallExpr → Pos
  | .mk _ _ _ e => e

/-- The assignment `callExpr.Lparen = p`. -/
def CallExpr.setLparen : CallExpr → Pos → CallExpr
  | .mk f _ a e, p => .mk f p a e

/-- The field `Params` of a function type. -/
def FuncType.Params : FuncType → Option FieldList
  | .mk p _ => p

/-- The field `Results` of a function type. -/
def FuncType.Results : FuncType → Option FieldList
  | .mk _ r => r

/-- The field `List` of a field list. -/
def FieldList.List_ : FieldList → List Field
  | .mk l => l

/-- The field `Type` of a field. -/
def Field.Type_ : Field → Expr
  | .mk _ _ t _ _ => t

/-- The field `Names` of a field. -/
def Field.Names : Field → List Ident
  | .mk _ n _ _ _ => n

/-- The field `List` of a block. -/
def BlockStmt.List_ : BlockStmt → List Stmt
  | .mk l => l

/-- The field `Doc` of a function declaration. -/
def FuncDecl.Doc : FuncDecl → Option CommentGroup
  | .mk d _ _ _ _ => d

/-- The field `Recv` of a function declaration. -/
def FuncDecl.Recv : FuncDecl → Option FieldList
  | .mk _ r _ _ _ => r

/-- The field `Name` of a function declaration. -/
def FuncDecl.Name : FuncDecl → Ident
  | .mk _ _ n _ _ => n

/-- The field `Type` of a function declaration. -/
def FuncDecl.Type_ : FuncDecl → FuncType
  | .mk _ _ _ t _ => t

/-- The field `Body` of a function declaration. -/
def FuncDecl.Body : FuncDecl → Option BlockStmt
  | .mk _ _ _ _ b => b

/-! ## Failures -/

/-- The ways a run of the embedded program can stop without a result. -/
inductive Failure
  | outOfFuel
  | nilDereference
  | indexOutOfRange
  deriving DecidableEq, Repr

/-! ## faster.go -/

/-- The global `modifiedFunctions`, a `map[string]bool`: a lookup of a missing key
yields `false`. -/
abbrev Registry := String → Bool

/-- The initial registry `make(map[string]bool)`. -/
def Registry.empty : Registry := fun _ => false

/-- The assignment `modifiedFunctions[name] = true`. -/
def Registry.setTrue (reg : Registry) (name : String) : Registry :=
  fun s => if s = name then true else reg s

/-- Source `callToReceiveCall` (lines 14-16): the receive `<-expr`. -/
def callToReceiveCall (expr : CallExpr) : Expr :=
  .UnaryExpr .ARROW (.CallExpr expr)

/-- Source `typeToChanType` (lines 18-20): the channel type `chan t`. -/
def typeToChanType (t : Expr) : Expr :=
  .ChanType (SEND ||| RECV) t

/-- The identifier `resultIdent` of `increaseSpeed` (lines 42-47). -/
def resultIdent : Ident :=
  { Name := "result", Obj := some (NewObj .Var "result") }

/-- Source `increaseSpeed` (lines 22-88). The first line dereferences
`f.Type.Results` and takes element `0` of its list. -/
def increaseSpeed (f : FuncDecl) : Except Failure FuncDecl :=
  match f.Type_.Results with
  | none => .error .nilDereference
  | some results =>
    match results.List_ with
    | [] => .error .indexOutOfRange
    | field0 :: _ =>
      let returnType := field0.Type_
      let innerFunc : Expr := .FuncLit (.mk none f.Type_.Results) f.Body
      .ok (.mk f.Doc f.Recv f.Name
        (.mk f.Type_.Params
          (some (.mk [.mk none [] (typeToChanType returnType) none none])))
        (some (.mk [
          .AssignStmt [.Ident resultIdent] .DEFINE
            [.CallExpr (.mk (.Ident (NewIdent "make")) NoPos
              [typeToChanType returnType] NoPos)],
          .GoStmt (.mk
            (.FuncLit (.mk (some (.mk [])) none)
              (some (.mk [
                .SendStmt (.Ident resultIdent)
                  (.CallExpr (.mk innerFunc NoPos [] NoPos))])))
            NoPos [] NoPos),
          .ReturnStmt [.Ident resultIdent]])))

/-- Source `wrapInReceive` (lines 97-105). -/
def wrapInReceive (reg : Registry) (expr : Expr) : Expr :=
  match expr with
  | .CallExpr callExpr =>
    if callExpr.Lparen ≠ NoPos then
      match callExpr.Fun with
      | .Ident ident =>
        if reg ident.Name then callToReceiveCall (callExpr.setLparen NoPos) else expr
      | _ => expr
    else expr
  | _ => expr

/-- Source `improveCallExprs` (lines 107-111). -/
def improveCallExprs (reg : Registry) (list : List Expr) : List Expr :=
  list.map (wrapInReceive reg)

/-! ### The visitor closure of `main` (lines 137-265)

The closure switches on the dynamic type of the node; it is split here by the
syntactic class of the node. Node kinds without a case are returned as they are. -/

/-- Visitor, case `*ast.Field` (lines 139-140). -/
def visitorField (reg : Registry) : Field → Field
  | .mk doc names t tag comment => .mk doc names (wrapInReceive reg t) tag comment

/-- Visitor, case `*ast.CallExpr` (lines 183-185). -/
def visitorCallExpr (reg : Registry) : CallExpr → CallExpr
  | .mk f lparen args ellipsis =>
    .mk (wrapInReceive reg f) lparen (improveCallExprs reg args) ellipsis

/-- Visitor, the cases for expression and type nodes (lines 142-213). A guard
`if n.X != nil` is the `Option.map`. -/
def visitorExpr (reg : Registry) : Expr → Expr
  | .Ellipsis elt => .Ellipsis (elt.map (wrapInReceive reg))
  | .FuncLit t body => .FuncLit t body
  | .CompositeLit t elts =>
    .CompositeLit (t.map (wrapInReceive reg)) (improveCallExprs reg elts)
  | .ParenExpr x => .ParenExpr (wrapInReceive reg x)
  | .SelectorExpr x sel => .SelectorExpr (wrapInReceive reg x) sel
  | .IndexExpr x index => .IndexExpr (wrapInReceive reg x) (wrapInReceive reg index)
  | .SliceExpr x low high max slice3 =>
    .SliceExpr (wrapInReceive reg x) (low.map (wrapInReceive reg))
      (high.map (wrapInReceive reg)) (max.map (wrapInReceive reg)) slice3
  | .TypeAssertExpr x t => .TypeAssertExpr (wrapInReceive reg x) (t.map (wrapInReceive reg))
  | .CallExpr call => .CallExpr (visitorCallExpr reg call)
  | .StarExpr x => .StarExpr (wrapInReceive reg x)
  | .UnaryExpr op x => .UnaryExpr op (wrapInReceive reg x)
  | .BinaryExpr x op y => .BinaryExpr (wrapInReceive reg x) op (wrapInReceive reg y)
  | .KeyValueExpr key value => .KeyValueExpr (wrapInReceive reg key) (wrapInReceive reg value)
  | .ArrayType len elt => .ArrayType (len.map (wrapInReceive reg)) (wrapInReceive reg elt)
  | .MapType key value => .MapType (wrapInReceive reg key) (wrapInReceive reg value)
  | .ChanType dir value => .ChanType dir (wrapInReceive reg value)
  | node => node

/-- Visitor, the cases for statement nodes (lines 215-253). In the `RangeStmt` case
the source assigns `n.Key = wrapInReceive(n.Key)` without a guard; on a `nil` key the
type assertion in `wrapInReceive` fails and `nil` is returned, which is the
`Option.map` again. -/
def visitorStmt (reg : Registry) : Stmt → Stmt
  | .ExprStmt x => .ExprStmt (wrapInReceive reg x)
  | .SendStmt chan value => .SendStmt (wrapInReceive reg chan) (wrapInReceive reg value)
  | .IncDecStmt x tok => .IncDecStmt (wrapInReceive reg x) tok
  | .AssignStmt lhs tok rhs => .AssignStmt (improveCallExprs reg lhs) tok (improveCallExprs reg rhs)
  | .ReturnStmt results => .ReturnStmt (improveCallExprs reg results)
  | .IfStmt init cond body els => .IfStmt init (wrapInReceive reg cond) body els
  | .CaseClause list body => .CaseClause (improveCallExprs reg list) body
  | .SwitchStmt init tag body => .SwitchStmt init (tag.map (wrapInReceive reg)) body
  | .ForStmt init cond post body => .ForStmt init (cond.map (wrapInReceive reg)) post body
  | .RangeStmt key value tok x body =>
    .RangeStmt (key.map (wrapInReceive reg)) (value.map (wrapInReceive reg)) tok
      (wrapInReceive reg x) body
  | node => node

/-- Visitor, the cases for specification nodes (lines 255-262). -/
def visitorSpec (reg : Registry) : Spec → Spec
  | .ValueSpec doc names t values comment =>
    .ValueSpec doc names (t.map (wrapInReceive reg)) (improveCallExprs reg values) comment
  | .TypeSpec doc name t comment => .TypeSpec doc name (wrapInReceive reg t) comment
  | node => node

/-! ### ast.Walk

`Walk(v, node)` calls the visitor on `node`, which replaces children of `node`, and
then walks the children `node` has at that moment. Children that are identifiers,
basic literals or comments are leaves on which the visitor does nothing. -/

/-- Walking a child that may be `nil`: `if n.X != nil \x7b Walk(v, n.X) \x7d`. -/
def walkOpt {α : Type} (walk : α → Except Failure α) : Option α → Except Failure (Option α)
  | none => .ok none
  | some x => do
    let x ← walk x
    pure (some x)

/-- Walking a list of children in order (`walkExprList`, `walkStmtList`, and the loops
over fields and specifications). -/
def walkList {α : Type} (walk : α → Except Failure α) : List α → Except Failure (List α)
  | [] => .ok []
  | x :: xs => do
    let x ← walk x
    let xs ← walkList walk xs
    pure (x :: xs)

mutual

/-- `ast.Walk` with the visitor of `main` on an expression node. A function literal
whose `Body` is `nil` makes `Walk` dereference a nil `*ast.BlockStmt`. -/
def walkExpr (reg : Registry) : Nat → Expr → Except Failure Expr
  | 0, _ => .error .outOfFuel
  | fuel + 1, node =>
    match visitorExpr reg node with
    | .BadExpr => pure .BadExpr
    | .Ident id => pure (.Ident id)
    | .Ellipsis elt => do
      let elt ← walkOpt (walkExpr reg fuel) elt
      pure (.Ellipsis elt)
    | .BasicLit lit => pure (.BasicLit lit)
    | .FuncLit t body => do
      let t ← walkFuncType reg fuel t
      match body with
      | none => .error .nilDereference
      | some body =>
        let body ← walkBlockStmt reg fuel body
        pure (.FuncLit t (some body))
    | .CompositeLit t elts => do
      let t ← walkOpt (walkExpr reg fuel) t
      let elts ← walkList (walkExpr reg fuel) elts
      pure (.CompositeLit t elts)
    | .ParenExpr x => do
      let x ← walkExpr reg fuel x
      pure (.ParenExpr x)
    | .SelectorExpr x sel => do
      let x ← walkExpr reg fuel x
      pure (.SelectorExpr x sel)
    | .IndexExpr x index => do
      let x ← walkExpr reg fuel x
      let index ← walkExpr reg fuel index
      pure (.IndexExpr x index)
    | .SliceExpr x low high max slice3 => do
      let x ← walkExpr reg fuel x
      let low ← walkOpt (walkExpr reg fuel) low
      let high ← walkOpt (walkExpr reg fuel) high
      let max ← walkOpt (walkExpr reg fuel) max
      pure (.SliceExpr x low high max slice3)
    | .TypeAssertExpr x t => do
      let x ← walkExpr reg fuel x
      let t ← walkOpt (walkExpr reg fuel) t
      pure (.TypeAssertExpr x t)
    | .CallExpr (.mk f lparen args ellipsis) => do
      let f ← walkExpr reg fuel f
      let args ← walkList (walkExpr reg fuel) args
      pure (.CallExpr (.mk f lparen args ellipsis))
    | .StarExpr x => do
      let x ← walkExpr reg fuel x
      pure (.StarExpr x)
    | .UnaryExpr op x => do
      let x ← walkExpr reg fuel x
      pure (.UnaryExpr op x)
    | .BinaryExpr x op y => do
      let x ← walkExpr reg fuel x
      let y ← walkExpr reg fuel y
      pure (.BinaryExpr x op y)
    | .KeyValueExpr key value => do
      let key ← walkExpr reg fuel key
      let value ← walkExpr reg fuel value
      pure (.KeyValueExpr key value)
    | .ArrayType len elt => do
      let len ← walkOpt (walkExpr reg fuel) len
      let elt ← walkExpr reg fuel elt
      pure (.ArrayType len elt)
    | .StructType fields incomplete => do
      let fields ← walkFieldList reg fuel fields
      pure (.StructType fields incomplete)
    | .FuncType (.mk params results) => do
      let params ← walkOpt (walkFieldList reg fuel) params
      let results ← walkOpt (walkFieldList reg fuel) results
      pure (.FuncType (.mk params results))
    | .InterfaceType methods incomplete => do
      let methods ← walkFieldList reg fuel methods
      pure (.InterfaceType methods incomplete)
    | .MapType key value => do
      let key ← walkExpr reg fuel key
      let value ← walkExpr reg fuel value
      pure (.MapType key value)
    | .ChanType dir value => do
      let value ← walkExpr reg fuel value
      pure (.ChanType dir value)

/-- `ast.Walk` on a node of static type `*ast.CallExpr` (the operand of a `go` or
`defer` statement). -/
def walkCallExpr (reg : Registry) : Nat → CallExpr → Except Failure CallExpr
  | 0, _ => .error .outOfFuel
  | fuel + 1, node =>
    match visitorCallExpr reg node with
    | .mk f lparen args ellipsis => do
      let f ← walkExpr reg fuel f
      let args ← walkList (walkExpr reg fuel) args
      pure (.mk f lparen args ellipsis)

/-- `ast.Walk` on a `*ast.FuncType`. -/
def walkFuncType (reg : Registry) : Nat → FuncType → Except Failure FuncType
  | 0, _ => .error .outOfFuel
  | fuel + 1, .mk params results => do
    let params ← walkOpt (walkFieldList reg fuel) params
    let results ← walkOpt (walkFieldList reg fuel) results
    pure (.mk params results)

/-- `ast.Walk` on a `*ast.FieldList`. -/
def walkFieldList (reg : Registry) : Nat → FieldList → Except Failure FieldList
  | 0, _ => .error .outOfFuel
  | fuel + 1, .mk list => do
    let list ← walkList (walkField reg fuel) list
    pure (.mk list)

/-- `ast.Walk` on a `*ast.Field`. -/
def walkField (reg : Registry) : Nat → Field → Except Failure Field
  | 0, _ => .error .outOfFuel
  | fuel + 1, node =>
    match visitorField reg node with
    | .mk doc names t tag comment => do
      let t ← walkExpr reg fuel t
      pure (.mk doc names t tag comment)

/-- `ast.Walk` on a `*ast.BlockStmt`. -/
def walkBlockStmt (reg : Registry) : Nat → BlockStmt → Except Failure BlockStmt
  | 0, _ => .error .outOfFuel
  | fuel + 1, .mk list => do
    let list ← walkList (walkStmt reg fuel) list
    pure (.mk list)

/-- `ast.Walk` with the visitor of `main` on a statement node. -/
def walkStmt (reg : Registry) : Nat → Stmt → Except Failure Stmt
  | 0, _ => .error .outOfFuel
  | fuel + 1, node =>
    match visitorStmt reg node with
    | .BadStmt => pure .BadStmt
    | .DeclStmt decl => do
      let decl ← walkDecl reg fuel decl
      pure (.DeclStmt decl)
    | .EmptyStmt implicit => pure (.EmptyStmt implicit)
    | .LabeledStmt label stmt => do
      let stmt ← walkStmt reg fuel stmt
      pure (.LabeledStmt label stmt)
    | .ExprStmt x => do
      let x ← walkExpr reg fuel x
      pure (.ExprStmt x)
    | .SendStmt chan value => do
      let chan ← walkExpr reg fuel chan
      let value ← walkExpr reg fuel value
      pure (.SendStmt chan value)
    | .IncDecStmt x tok => do
      let x ← walkExpr reg fuel x
      pure (.IncDecStmt x tok)
    | .AssignStmt lhs tok rhs => do
      let lhs ← walkList (walkExpr reg fuel) lhs
      let rhs ← walkList (walkExpr reg fuel) rhs
      pure (.AssignStmt lhs tok rhs)
    | .GoStmt call => do
      let call ← walkCallExpr reg fuel call
      pure (.GoStmt call)
    | .DeferStmt call => do
      let call ← walkCallExpr reg fuel call
      pure (.DeferStmt call)
    | .ReturnStmt results => do
      let results ← walkList (walkExpr reg fuel) results
      pure (.ReturnStmt results)
    | .BranchStmt tok label => pure (.BranchStmt tok label)
    | .BlockStmt (.mk list) => do
      let list ← walkList (walkStmt reg fuel) list
      pure (.BlockStmt (.mk list))
    | .IfStmt init cond body els => do
      let init ← walkOpt (walkStmt reg fuel) init
      let cond ← walkExpr reg fuel cond
      let body ← walkBlockStmt reg fuel body
      let els ← walkOpt (walkStmt reg fuel) els
      pure (.IfStmt init cond body els)
    | .CaseClause list body => do
      let list ← walkList (walkExpr reg fuel) list
      let body ← walkList (walkStmt reg fuel) body
      pure (.CaseClause list body)
    | .SwitchStmt init tag body => do
      let init ← walkOpt (walkStmt reg fuel) init
      let tag ← walkOpt (walkExpr reg fuel) tag
      let body ← walkBlockStmt reg fuel body
      pure (.SwitchStmt init tag body)
    | .TypeSwitchStmt init assign body => do
      let init ← walkOpt (walkStmt reg fuel) init
      let assign ← walkStmt reg fuel assign
      let body ← walkBlockStmt reg fuel body
      pure (.TypeSwitchStmt init assign body)
    | .CommClause comm body => do
      let comm ← walkOpt (walkStmt reg fuel) comm
      let body ← walkList (walkStmt reg fuel) body
      pure (.CommClause comm body)
    | .SelectStmt body => do
      let body ← walkBlockStmt reg fuel body
      pure (.SelectStmt body)
    | .ForStmt init cond post body => do
      let init ← walkOpt (walkStmt reg fuel) init
      let cond ← walkOpt (walkExpr reg fuel) cond
      let post ← walkOpt (walkStmt reg fuel) post
      let body ← walkBlockStmt reg fuel body
      pure (.ForStmt init cond post body)
    | .RangeStmt key value tok x body => do
      let key ← walkOpt (walkExpr reg fuel) key
      let value ← walkOpt (walkExpr reg fuel) value
      let x ← walkExpr reg fuel x
      let body ← walkBlockStmt reg fuel body
      pure (.RangeStmt key value tok x body)

/-- `ast.Walk` with the visitor of `main` on a specification node. -/
def walkSpec (reg : Registry) : Nat → Spec → Except Failure Spec
  | 0, _ => .error .outOfFuel
  | fuel + 1, node =>
    match visitorSpec reg node with
    | .ImportSpec doc name path comment => pure (.ImportSpec doc name path comment)
    | .ValueSpec doc names t values comment => do
      let t ← walkOpt (walkExpr reg fuel) t
      let values ← walkList (walkExpr reg fuel) values
      pure (.ValueSpec doc names t values comment)
    | .TypeSpec doc name t comment => do
      let t ← walkExpr reg fuel t
      pure (.TypeSpec doc name t comment)

/-- `ast.Walk` on a `*ast.FuncDecl`: receiver, type and, when present, body. -/
def walkFuncDecl (reg : Registry) : Nat → FuncDecl → Except Failure FuncDecl
  | 0, _ => .error .outOfFuel
  | fuel + 1, .mk doc recv name t body => do
    let recv ← walkOpt (walkFieldList reg fuel) recv
    let t ← walkFuncType reg fuel t
    let body ← walkOpt (walkBlockStmt reg fuel) body
    pure (.mk doc recv name t body)

/-- `ast.Walk` on a declaration node. -/
def walkDecl (reg : Registry) : Nat → Decl → Except Failure Decl
  | 0, _ => .error .outOfFuel
  | _ + 1, .BadDecl => pure .BadDecl
  | fuel + 1, .GenDecl doc tok specs => do
    let specs ← walkList (walkSpec reg fuel) specs
    pure (.GenDecl doc tok specs)
  | fuel + 1, .FuncDecl (.mk doc recv name t body) => do
    let recv ← walkOpt (walkFieldList reg fuel) recv
    let t ← walkFuncType reg fuel t
    let body ← walkOpt (walkBlockStmt reg fuel) body
    pure (.FuncDecl (.mk doc recv name t body))

end

/-! ### The two loops of `main` -/

/-- One iteration of the scan loop (lines 126-133): a function declaration without
receiver whose result list is present and has length one is entered in the registry
and replaced by `increaseSpeed` of it. -/
def scanStep (reg : Registry) (decl : Decl) : Except Failure (Registry × Decl) :=
  match decl with
  | .FuncDecl funcDecl =>
    if funcDecl.Recv.isNone then
      match funcDecl.Type_.Results with
      | some results =>
        if results.List_.length = 1 then do
          let res ← increaseSpeed funcDecl
          pure (reg.setTrue funcDecl.Name.Name, .FuncDecl res)
        else pure (reg, decl)
      | none => pure (reg, decl)
    else pure (reg, decl)
  | _ => pure (reg, decl)

/-- The scan loop (lines 126-133) over `inputFile.Decls`, started with registry
`reg`. -/
def scanPhase (reg : Registry) : List Decl → Except Failure (Registry × List Decl)
  | [] => pure (reg, [])
  | decl :: decls => do
    let (reg, decl) ← scanStep reg decl
    let (reg, decls) ← scanPhase reg decls
    pure (reg, decl :: decls)

/-- One iteration of the rewrite loop (lines 135-267): only a function declaration
is walked. -/
def rewriteStep (reg : Registry) (fuel : Nat) (decl : Decl) : Except Failure Decl :=
  match decl with
  | .FuncDecl funcDecl => do
    let funcDecl ← walkFuncDecl reg fuel funcDecl
    pure (.FuncDecl funcDecl)
  | _ => pure decl

/-- The rewrite loop (lines 135-267) over `inputFile.Decls`; every `Walk` gets the
same `fuel`. -/
def rewritePhase (reg : Registry) (fuel : Nat) : List Decl → Except Failure (List Decl)
  | [] => pure []
  | decl :: decls => do
    let decl ← rewriteStep reg fuel decl
    let decls ← rewritePhase reg fuel decls
    pure (decl :: decls)

/-- Source `main` after parsing (lines 126-267): the scan loop from the empty
registry, then the rewrite loop with the registry the scan loop produced. -/
def main (fuel : Nat) (inputFile : File) : Except Failure File := do
  let (reg, decls) ← scanPhase Registry.empty inputFile.Decls
  let decls ← rewritePhase reg fuel decls
  pure { Decls := decls }

/-! ## The rewrite as the specification words it

The specification describes the call-site rewrite bottom-up: the parts of a node are
rewritten first, and then a part that is a direct, parenthesized call of a
registered name is replaced by the receive over it. `receiveOver` is that
replacement, written out; `rewriteExpr` and its companions follow these words and use
no function of the program. The operand of a `go` or `defer` statement has the static
type `*ast.CallExpr` and cannot hold a receive, so only its parts are rewritten. -/

/-- The replacement the specification prescribes for a part that holds an expression:
a call `f(args)` written with parentheses (its `Lparen` is a position) whose callee is
the bare identifier `f` of a registered name becomes the receive `<-f(args)` over the
same call, the parenthesis mark of the call cleared; every other expression stays as
it is. -/
def receiveOver (reg : Registry) (e : Expr) : Expr :=
  match e with
  | .CallExpr (.mk (.Ident ident) lparen args ellipsis) =>
    if lparen ≠ NoPos ∧ reg ident.Name = true then
      .UnaryExpr .ARROW (.CallExpr (.mk (.Ident ident) NoPos args ellipsis))
    else e
  | _ => e

mutual

/-- Specification-side rewrite of the parts of an expression node. -/
def rewriteExpr (reg : Registry) : Expr → Expr
  | .BadExpr => .BadExpr
  | .Ident id => .Ident id
  | .Ellipsis elt => .Ellipsis (rewriteOptExpr reg elt)
  | .BasicLit lit => .BasicLit lit
  | .FuncLit t body => .FuncLit (rewriteFuncType reg t) (rewriteOptBlockStmt reg body)
  | .CompositeLit t elts => .CompositeLit (rewriteOptExpr reg t) (rewriteExprs reg elts)
  | .ParenExpr x => .ParenExpr (receiveOver reg (rewriteExpr reg x))
  | .SelectorExpr x sel => .SelectorExpr (receiveOver reg (rewriteExpr reg x)) sel
  | .IndexExpr x index =>
    .IndexExpr (receiveOver reg (rewriteExpr reg x)) (receiveOver reg (rewriteExpr reg index))
  | .SliceExpr x low high max slice3 =>
    .SliceExpr (receiveOver reg (rewriteExpr reg x)) (rewriteOptExpr reg low)
      (rewriteOptExpr reg high) (rewriteOptExpr reg max) slice3
  | .TypeAssertExpr x t =>
    .TypeAssertExpr (receiveOver reg (rewriteExpr reg x)) (rewriteOptExpr reg t)
  | .CallExpr call => .CallExpr (rewriteCallExpr reg call)
  | .StarExpr x => .StarExpr (receiveOver reg (rewriteExpr reg x))
  | .UnaryExpr op x => .UnaryExpr op (receiveOver reg (rewriteExpr reg x))
  | .BinaryExpr x op y =>
    .BinaryExpr (receiveOver reg (rewriteExpr reg x)) op (receiveOver reg (rewriteExpr reg y))
  | .KeyValueExpr key value =>
    .KeyValueExpr (receiveOver reg (rewriteExpr reg key))
      (receiveOver reg (rewriteExpr reg value))
  | .ArrayType len elt => .ArrayType (rewriteOptExpr reg len) (receiveOver reg (rewriteExpr reg elt))
  | .StructType fields incomplete => .StructType (rewriteFieldList reg fields) incomplete
  | .FuncType t => .FuncType (rewriteFuncType reg t)
  | .InterfaceType methods incomplete => .InterfaceType (rewriteFieldList reg methods) incomplete
  | .MapType key value =>
    .MapType (receiveOver reg (rewriteExpr reg key)) (receiveOver reg (rewriteExpr reg value))
  | .ChanType dir value => .ChanType dir (receiveOver reg (rewriteExpr reg value))

/-- Specification-side rewrite of an optional expression part: rewritten inside,
then wrapped if it is a registered call. -/
def rewriteOptExpr (reg : Registry) : Option Expr → Option Expr
  | none => none
  | some x => some (receiveOver reg (rewriteExpr reg x))

/-- Specification-side rewrite of a list of expression parts. -/
def rewriteExprs (reg : Registry) : List Expr → List Expr
  | [] => []
  | x :: xs => receiveOver reg (rewriteExpr reg x) :: rewriteExprs reg xs

/-- Specification-side rewrite of the parts of a call node: callee and arguments. -/
def rewriteCallExpr (reg : Registry) : CallExpr → CallExpr
  | .mk f lparen args ellipsis =>
    .mk (receiveOver reg (rewriteExpr reg f)) lparen (rewriteExprs reg args) ellipsis

/-- Specification-side rewrite of a function type. -/
def rewriteFuncType (reg : Registry) : FuncType → FuncType
  | .mk params results => .mk (rewriteOptFieldList reg params) (rewriteOptFieldList reg results)

/-- Specification-side rewrite of an optional field list. -/
def rewriteOptFieldList (reg : Registry) : Option FieldList → Option FieldList
  | none => none
  | some l => some (rewriteFieldList reg l)

/-- Specification-side rewrite of a field list. -/
def rewriteFieldList (reg : Registry) : FieldList → FieldList
  | .mk list => .mk (rewriteFields reg list)

/-- Specification-side rewrite of a list of fields. -/
def rewriteFields (reg : Registry) : List Field → List Field
  | [] => []
  | f :: fs => rewriteField reg f :: rewriteFields reg fs

/-- Specification-side rewrite of a field: its type expression is a part. -/
def rewriteField (reg : Registry) : Field → Field
  | .mk doc names t tag comment => .mk doc names (receiveOver reg (rewriteExpr reg t)) tag comment

/-- Specification-side rewrite of a block. -/
def rewriteBlockStmt (reg : Registry) : BlockStmt → BlockStmt
  | .mk list => .mk (rewriteStmts reg list)

/-- Specification-side rewrite of an optional block. -/
def rewriteOptBlockStmt (reg : Registry) : Option BlockStmt → Option BlockStmt
  | none => none
  | some b => some (rewriteBlockStmt reg b)

/-- Specification-side rewrite of a statement list. -/
def rewriteStmts (reg : Registry) : List Stmt → List Stmt
  | [] => []
  | s :: ss => rewriteStmt reg s :: rewriteStmts reg ss

/-- Specification-side rewrite of an optional statement. -/
def rewriteOptStmt (reg : Registry) : Option Stmt → Option Stmt
  | none => none
  | some s => some (rewriteStmt reg s)

/-- Specification-side rewrite of a statement node. -/
def rewriteStmt (reg : Registry) : Stmt → Stmt
  | .BadStmt => .BadStmt
  | .DeclStmt decl => .DeclStmt (rewriteDecl reg decl)
  | .EmptyStmt implicit => .EmptyStmt implicit
  | .LabeledStmt label stmt => .LabeledStmt label (rewriteStmt reg stmt)
  | .ExprStmt x => .ExprStmt (receiveOver reg (rewriteExpr reg x))
  | .SendStmt chan value =>
    .SendStmt (receiveOver reg (rewriteExpr reg chan)) (receiveOver reg (rewriteExpr reg value))
  | .IncDecStmt x tok => .IncDecStmt (receiveOver reg (rewriteExpr reg x)) tok
  | .AssignStmt lhs tok rhs => .AssignStmt (rewriteExprs reg lhs) tok (rewriteExprs reg rhs)
  | .GoStmt call => .GoStmt (rewriteCallExpr reg call)
  | .DeferStmt call => .DeferStmt (rewriteCallExpr reg call)
  | .ReturnStmt results => .ReturnStmt (rewriteExprs reg results)
  | .BranchStmt tok label => .BranchStmt tok label
  | .BlockStmt block => .BlockStmt (rewriteBlockStmt reg block)
  | .IfStmt init cond body els =>
    .IfStmt (rewriteOptStmt reg init) (receiveOver reg (rewriteExpr reg cond))
      (rewriteBlockStmt reg body) (rewriteOptStmt reg els)
  | .CaseClause list body => .CaseClause (rewriteExprs reg list) (rewriteStmts reg body)
  | .SwitchStmt init tag body =>
    .SwitchStmt (rewriteOptStmt reg init) (rewriteOptExpr reg tag) (rewriteBlockStmt reg body)
  | .TypeSwitchStmt init assign body =>
    .TypeSwitchStmt (rewriteOptStmt reg init) (rewriteStmt reg assign) (rewriteBlockStmt reg body)
  | .CommClause comm body => .CommClause (rewriteOptStmt reg comm) (rewriteStmts reg body)
  | .SelectStmt body => .SelectStmt (rewriteBlockStmt reg body)
  | .ForStmt init cond post body =>
    .ForStmt (rewriteOptStmt reg init) (rewriteOptExpr reg cond) (rewriteOptStmt reg post)
      (rewriteBlockStmt reg body)
  | .RangeStmt key value tok x body =>
    .RangeStmt (rewriteOptExpr reg key) (rewriteOptExpr reg value) tok
      (receiveOver reg (rewriteExpr reg x)) (rewriteBlockStmt reg body)

/-- Specification-side rewrite of a specification node. -/
def rewriteSpec (reg : Registry) : Spec → Spec
  | .ImportSpec doc name path comment => .ImportSpec doc name path comment
  | .ValueSpec doc names t values comment =>
    .ValueSpec doc names (rewriteOptExpr reg t) (rewriteExprs reg values) comment
  | .TypeSpec doc name t comment =>
    .TypeSpec doc name (receiveOver reg (rewriteExpr reg t)) comment

/-- Specification-side rewrite of a list of specifications. -/
def rewriteSpecs (reg : Registry) : List Spec → List Spec
  | [] => []
  | s :: ss => rewriteSpec reg s :: rewriteSpecs reg ss

/-- Specification-side rewrite of a function declaration. -/
def rewriteFuncDecl (reg : Registry) : FuncDecl → FuncDecl
  | .mk doc recv name t body =>
    .mk doc (rewriteOptFieldList reg recv) name (rewriteFuncType reg t)
      (rewriteOptBlockStmt reg body)

/-- Specification-side rewrite of a declaration node. -/
def rewriteDecl (reg : Registry) : Decl → Decl
  | .BadDecl => .BadDecl
  | .GenDecl doc tok specs => .GenDecl doc tok (rewriteSpecs reg specs)
  | .FuncDecl decl => .FuncDecl (rewriteFuncDecl reg decl)

end

/-! ## Measures and predicates on trees -/

mutual

/-- Fuel that suffices to walk an expression node: one unit per node, and one more
per call node for the receive that may be put above it. -/
def costExpr : Expr → Nat
  | .BadExpr => 1
  | .Ident _ => 1
  | .Ellipsis elt => 1 + costOptExpr elt
  | .BasicLit _ => 1
  | .FuncLit t body => 1 + costFuncType t + costOptBlockStmt body
  | .CompositeLit t elts => 1 + costOptExpr t + costExprs elts
  | .ParenExpr x => 1 + costExpr x
  | .SelectorExpr x _ => 1 + costExpr x
  | .IndexExpr x index => 1 + costExpr x + costExpr index
  | .SliceExpr x low high max _ =>
    1 + costExpr x + costOptExpr low + costOptExpr high + costOptExpr max
  | .TypeAssertExpr x t => 1 + costExpr x + costOptExpr t
  | .CallExpr call => 1 + costCallExpr call
  | .StarExpr x => 1 + costExpr x
  | .UnaryExpr _ x => 1 + costExpr x
  | .BinaryExpr x _ y => 1 + costExpr x + costExpr y
  | .KeyValueExpr key value => 1 + costExpr key + costExpr value
  | .ArrayType len elt => 1 + costOptExpr len + costExpr elt
  | .StructType fields _ => 1 + costFieldList fields
  | .FuncType t => costFuncType t
  | .InterfaceType methods _ => 1 + costFieldList methods
  | .MapType key value => 1 + costExpr key + costExpr value
  | .ChanType _ value => 1 + costExpr value

/-- Fuel for an optional expression. -/
def costOptExpr : Option Expr → Nat
  | none => 0
  | some x => costExpr x

/-- Fuel for a list of expressions. -/
def costExprs : List Expr → Nat
  | [] => 0
  | x :: xs => costExpr x + costExprs xs

/-- Fuel for a call node. -/
def costCallExpr : CallExpr → Nat
  | .mk f _ args _ => 1 + costExpr f + costExprs args

/-- Fuel for a function type. -/
def costFuncType : FuncType → Nat
  | .mk params results => 1 + costOptFieldList params + costOptFieldList results

/-- Fuel for an optional field list. -/
def costOptFieldList : Option FieldList → Nat
  | none => 0
  | some l => costFieldList l

/-- Fuel for a field list. -/
def costFieldList : FieldList → Nat
  | .mk list => 1 + costFields list

/-- Fuel for a list of fields. -/
def costFields : List Field → Nat
  | [] => 0
  | f :: fs => costField f + costFields fs

/-- Fuel for a field. -/
def costField : Field → Nat
  | .mk _ _ t _ _ => 1 + costExpr t

/-- Fuel for a block. -/
def costBlockStmt : BlockStmt → Nat
  | .mk list => 1 + costStmts list

/-- Fuel for an optional block. -/
def costOptBlockStmt : Option BlockStmt → Nat
  | none => 0
  | some b => costBlockStmt b

/-- Fuel for a statement list. -/
def costStmts : List Stmt → Nat
  | [] => 0
  | s :: ss => costStmt s + costStmts ss

/-- Fuel for an optional statement. -/
def costOptStmt : Option Stmt → Nat
  | none => 0
  | some s => costStmt s

/-- Fuel for a statement node. -/
def costStmt : Stmt → Nat
  | .BadStmt => 1
  | .DeclStmt decl => 1 + costDecl decl
  | .EmptyStmt _ => 1
  | .LabeledStmt _ stmt => 1 + costStmt stmt
  | .ExprStmt x => 1 + costExpr x
  | .SendStmt chan value => 1 + costExpr chan + costExpr value
  | .IncDecStmt x _ => 1 + costExpr x
  | .AssignStmt lhs _ rhs => 1 + costExprs lhs + costExprs rhs
  | .GoStmt call => 1 + costCallExpr call
  | .DeferStmt call => 1 + costCallExpr call
  | .ReturnStmt results => 1 + costExprs results
  | .BranchStmt _ _ => 1
  | .BlockStmt block => costBlockStmt block
  | .IfStmt init cond body els =>
    1 + costOptStmt init + costExpr cond + costBlockStmt body + costOptStmt els
  | .CaseClause list body => 1 + costExprs list + costStmts body
  | .SwitchStmt init tag body => 1 + costOptStmt init + costOptExpr tag + costBlockStmt body
  | .TypeSwitchStmt init assign body =>
    1 + costOptStmt init + costStmt assign + costBlockStmt body
  | .CommClause comm body => 1 + costOptStmt comm + costStmts body
  | .SelectStmt body => 1 + costBlockStmt body
  | .ForStmt init cond post body =>
    1 + costOptStmt init + costOptExpr cond + costOptStmt post + costBlockStmt body
  | .RangeStmt key value _ x body =>
    1 + costOptExpr key + costOptExpr value + costExpr x + costBlockStmt body

/-- Fuel for a specification node. -/
def costSpec : Spec → Nat
  | .ImportSpec _ _ _ _ => 1
  | .ValueSpec _ _ t values _ => 1 + costOptExpr t + costExprs values
  | .TypeSpec _ _ t _ => 1 + costExpr t

/-- Fuel for a list of specifications. -/
def costSpecs : List Spec → Nat
  | [] => 0
  | s :: ss => costSpec s + costSpecs ss

/-- Fuel for a function declaration. -/
def costFuncDecl : FuncDecl → Nat
  | .mk _ recv _ t body => 1 + costOptFieldList recv + costFuncType t + costOptBlockStmt body

/-- Fuel for a declaration node. -/
def costDecl : Decl → Nat
  | .BadDecl => 1
  | .GenDecl _ _ specs => 1 + costSpecs specs
  | .FuncDecl decl => costFuncDecl decl

end

mutual

/-- The test `pe` holds at every expression node of the tree and the test `pc` at
every operand of a `go` or `defer` statement (a call node that is not held in an
expression position). -/
def everyExpr (pe : Expr → Bool) (pc : CallExpr → Bool) : Expr → Bool
  | .BadExpr => pe .BadExpr
  | .Ident id => pe (.Ident id)
  | .Ellipsis elt => pe (.Ellipsis elt) && everyOptExpr pe pc elt
  | .BasicLit lit => pe (.BasicLit lit)
  | .FuncLit t body =>
    pe (.FuncLit t body) && everyFuncType pe pc t && everyOptBlockStmt pe pc body
  | .CompositeLit t elts =>
    pe (.CompositeLit t elts) && everyOptExpr pe pc t && everyExprs pe pc elts
  | .ParenExpr x => pe (.ParenExpr x) && everyExpr pe pc x
  | .SelectorExpr x sel => pe (.SelectorExpr x sel) && everyExpr pe pc x
  | .IndexExpr x index => pe (.IndexExpr x index) && everyExpr pe pc x && everyExpr pe pc index
  | .SliceExpr x low high max slice3 =>
    pe (.SliceExpr x low high max slice3) && everyExpr pe pc x && everyOptExpr pe pc low &&
      everyOptExpr pe pc high && everyOptExpr pe pc max
  | .TypeAssertExpr x t => pe (.TypeAssertExpr x t) && everyExpr pe pc x && everyOptExpr pe pc t
  | .CallExpr call => pe (.CallExpr call) && everyCallExpr pe pc call
  | .StarExpr x => pe (.StarExpr x) && everyExpr pe pc x
  | .UnaryExpr op x => pe (.UnaryExpr op x) && everyExpr pe pc x
  | .BinaryExpr x op y => pe (.BinaryExpr x op y) && everyExpr pe pc x && everyExpr pe pc y
  | .KeyValueExpr key value =>
    pe (.KeyValueExpr key value) && everyExpr pe pc key && everyExpr pe pc value
  | .ArrayType len elt => pe (.ArrayType len elt) && everyOptExpr pe pc len && everyExpr pe pc elt
  | .StructType fields incomplete =>
    pe (.StructType fields incomplete) && everyFieldList pe pc fields
  | .FuncType t => pe (.FuncType t) && everyFuncType pe pc t
  | .InterfaceType methods incomplete =>
    pe (.InterfaceType methods incomplete) && everyFieldList pe pc methods
  | .MapType key value => pe (.MapType key value) && everyExpr pe pc key && everyExpr pe pc value
  | .ChanType dir value => pe (.ChanType dir value) && everyExpr pe pc value

/-- The tests hold throughout an optional expression. -/
def everyOptExpr (pe : Expr → Bool) (pc : CallExpr → Bool) : Option Expr → Bool
  | none => true
  | some x => everyExpr pe pc x

/-- The tests hold throughout a list of expressions. -/
def everyExprs (pe : Expr → Bool) (pc : CallExpr → Bool) : List Expr → Bool
  | [] => true
  | x :: xs => everyExpr pe pc x && everyExprs pe pc xs

/-- The tests hold throughout the callee and the arguments of a call node. -/
def everyCallExpr (pe : Expr → Bool) (pc : CallExpr → Bool) : CallExpr → Bool
  | .mk f _ args _ => everyExpr pe pc f && everyExprs pe pc args

/-- The tests hold throughout a function type. -/
def everyFuncType (pe : Expr → Bool) (pc : CallExpr → Bool) : FuncType → Bool
  | .mk params results => everyOptFieldList pe pc params && everyOptFieldList pe pc results

/-- The tests hold throughout an optional field list. -/
def everyOptFieldList (pe : Expr → Bool) (pc : CallExpr → Bool) : Option FieldList → Bool
  | none => true
  | some l => everyFieldList pe pc l

/-- The tests hold throughout a field list. -/
def everyFieldList (pe : Expr → Bool) (pc : CallExpr → Bool) : FieldList → Bool
  | .mk list => everyFields pe pc list

/-- The tests hold throughout a list of fields. -/
def everyFields (pe : Expr → Bool) (pc : CallExpr → Bool) : List Field → Bool
  | [] => true
  | f :: fs => everyField pe pc f && everyFields pe pc fs

/-- The tests hold throughout the type of a field. -/
def everyField (pe : Expr → Bool) (pc : CallExpr → Bool) : Field → Bool
  | .mk _ _ t _ _ => everyExpr pe pc t

/-- The tests hold throughout a block. -/
def everyBlockStmt (pe : Expr → Bool) (pc : CallExpr → Bool) : BlockStmt → Bool
  | .mk list => everyStmts pe pc list

/-- The tests hold throughout an optional block. -/
def everyOptBlockStmt (pe : Expr → Bool) (pc : CallExpr → Bool) : Option BlockStmt → Bool
  | none => true
  | some b => everyBlockStmt pe pc b

/-- The tests hold throughout a statement list. -/
def everyStmts (pe : Expr → Bool) (pc : CallExpr → Bool) : List Stmt → Bool
  | [] => true
  | s :: ss => everyStmt pe pc s && everyStmts pe pc ss

/-- The tests hold throughout an optional statement. -/
def everyOptStmt (pe : Expr → Bool) (pc : CallExpr → Bool) : Option Stmt → Bool
  | none => true
  | some s => everyStmt pe pc s

/-- The tests hold throughout a statement. -/
def everyStmt (pe : Expr → Bool) (pc : CallExpr → Bool) : Stmt → Bool
  | .BadStmt => true
  | .DeclStmt decl => everyDecl pe pc decl
  | .EmptyStmt _ => true
  | .LabeledStmt _ stmt => everyStmt pe pc stmt
  | .ExprStmt x => everyExpr pe pc x
  | .SendStmt chan value => everyExpr pe pc chan && everyExpr pe pc value
  | .IncDecStmt x _ => everyExpr pe pc x
  | .AssignStmt lhs _ rhs => everyExprs pe pc lhs && everyExprs pe pc rhs
  | .GoStmt call => pc call && everyCallExpr pe pc call
  | .DeferStmt call => pc call && everyCallExpr pe pc call
  | .ReturnStmt results => everyExprs pe pc results
  | .BranchStmt _ _ => true
  | .BlockStmt block => everyBlockStmt pe pc block
  | .IfStmt init cond body els =>
    everyOptStmt pe pc init && everyExpr pe pc cond && everyBlockStmt pe pc body &&
      everyOptStmt pe pc els
  | .CaseClause list body => everyExprs pe pc list && everyStmts pe pc body
  | .SwitchStmt init tag body =>
    everyOptStmt pe pc init && everyOptExpr pe pc tag && everyBlockStmt pe pc body
  | .TypeSwitchStmt init assign body =>
    everyOptStmt pe pc init && everyStmt pe pc assign && everyBlockStmt pe pc body
  | .CommClause comm body => everyOptStmt pe pc comm && everyStmts pe pc body
  | .SelectStmt body => everyBlockStmt pe pc body
  | .ForStmt init cond post body =>
    everyOptStmt pe pc init && everyOptExpr pe pc cond && everyOptStmt pe pc post &&
      everyBlockStmt pe pc body
  | .RangeStmt key value _ x body =>
    everyOptExpr pe pc key && everyOptExpr pe pc value && everyExpr pe pc x &&
      everyBlockStmt pe pc body

/-- The tests hold throughout a specification. -/
def everySpec (pe : Expr → Bool) (pc : CallExpr → Bool) : Spec → Bool
  | .ImportSpec _ _ _ _ => true
  | .ValueSpec _ _ t values _ => everyOptExpr pe pc t && everyExprs pe pc values
  | .TypeSpec _ _ t _ => everyExpr pe pc t

/-- The tests hold throughout a list of specifications. -/
def everySpecs (pe : Expr → Bool) (pc : CallExpr → Bool) : List Spec → Bool
  | [] => true
  | s :: ss => everySpec pe pc s && everySpecs pe pc ss

/-- The tests hold throughout a function declaration. -/
def everyFuncDecl (pe : Expr → Bool) (pc : CallExpr → Bool) : FuncDecl → Bool
  | .mk _ recv _ t body =>
    everyOptFieldList pe pc recv && everyFuncType pe pc t && everyOptBlockStmt pe pc body

/-- The tests hold throughout a declaration. -/
def everyDecl (pe : Expr → Bool) (pc : CallExpr → Bool) : Decl → Bool
  | .BadDecl => true
  | .GenDecl _ _ specs => everySpecs pe pc specs
  | .FuncDecl decl => everyFuncDecl pe pc decl

end

/-- The condition under which `wrapInReceive` wraps (lines 98-99): a call node whose
`Lparen` is a real position and whose callee is an identifier with a registry
entry. -/
def isRegisteredCall (reg : Registry) : Expr → Bool
  | .CallExpr (.mk (.Ident ident) lparen _ _) => decide (lparen ≠ NoPos) && reg ident.Name
  | _ => false

/-- An expression node that is not a function literal without body. -/
def hasBody : Expr → Bool
  | .FuncLit _ none => false
  | _ => true

/-- Every function literal of the expression has a body. -/
def bodiedExpr (x : Expr) : Bool := everyExpr hasBody (fun _ => true) x

/-- Every function literal of the function declaration has a body. -/
def bodiedFuncDecl (f : FuncDecl) : Bool := everyFuncDecl hasBody (fun _ => true) f

/-! ## Statement of the agreement between `ast.Walk` and the specification -/

/-- The statement, at fuel `n`: walking a node whose cost fits in `n` and whose function
literals all have a body succeeds and gives the specification-side rewrite of the
node. The field `slot` is the same for a child position, which the visitor first
passes through `wrapInReceive`. -/
structure WalkSpec (reg : Registry) (n : Nat) : Prop where
  expr : ∀ x, costExpr x ≤ n → everyExpr hasBody (fun _ => true) x = true →
    walkExpr reg n x = .ok (rewriteExpr reg x)
  slot : ∀ x, costExpr x ≤ n → everyExpr hasBody (fun _ => true) x = true →
    walkExpr reg n (wrapInReceive reg x) = .ok (wrapInReceive reg (rewriteExpr reg x))
  call : ∀ x, costCallExpr x ≤ n → everyCallExpr hasBody (fun _ => true) x = true →
    walkCallExpr reg n x = .ok (rewriteCallExpr reg x)
  funcType : ∀ x, costFuncType x ≤ n → everyFuncType hasBody (fun _ => true) x = true →
    walkFuncType reg n x = .ok (rewriteFuncType reg x)
  fieldList : ∀ x, costFieldList x ≤ n → everyFieldList hasBody (fun _ => true) x = true →
    walkFieldList reg n x = .ok (rewriteFieldList reg x)
  field : ∀ x, costField x ≤ n → everyField hasBody (fun _ => true) x = true →
    walkField reg n x = .ok (rewriteField reg x)
  block : ∀ x, costBlockStmt x ≤ n → everyBlockStmt hasBody (fun _ => true) x = true →
    walkBlockStmt reg n x = .ok (rewriteBlockStmt reg x)
  stmt : ∀ x, costStmt x ≤ n → everyStmt hasBody (fun _ => true) x = true →
    walkStmt reg n x = .ok (rewriteStmt reg x)
  spec : ∀ x, costSpec x ≤ n → everySpec hasBody (fun _ => true) x = true →
    walkSpec reg n x = .ok (rewriteSpec reg x)
  funcDecl : ∀ x, costFuncDecl x ≤ n → everyFuncDecl hasBody (fun _ => true) x = true →
    walkFuncDecl reg n x = .ok (rewriteFuncDecl reg x)
  decl : ∀ x, costDecl x ≤ n → everyDecl hasBody (fun _ => true) x = true →
    walkDecl reg n x = .ok (rewriteDecl reg x)

/-! ## Closed forms of the scan loop -/

/-- The guard of the scan loop (lines 127-128) as a predicate on a function
declaration: no receiver, a result list, and exactly one entry in it. -/
def eligible (f : FuncDecl) : Bool :=
  f.Recv.isNone &&
    match f.Type_.Results with
    | some results => decide (results.List_.length = 1)
    | none => false

/-- The declaration the scan loop leaves in the place of `decl`. -/
def scanDecl (decl : Decl) : Decl :=
  match decl with
  | .FuncDecl f =>
    if eligible f then
      match increaseSpeed f with
      | .ok res => .FuncDecl res
      | .error _ => decl
    else decl
  | _ => decl

/-- The registry after the scan loop has run over `decls`, started with `reg`. -/
def scanRegistry (reg : Registry) : List Decl → Registry
  | [] => reg
  | .FuncDecl f :: decls =>
    scanRegistry (if eligible f then reg.setTrue f.Name.Name else reg) decls
  | _ :: decls => scanRegistry reg decls

/-- Method `NumFields` of `ast.FieldList`: the number of parameters or results a
field list declares; a field without names counts once, a field with names once per
name, and a `nil` list declares none. -/
def NumFields : Option FieldList → Nat
  | none => 0
  | some (.mk list) =>
    (list.map (fun g => if g.Names.length = 0 then 1 else g.Names.length)).sum

/-! ## Example inputs -/

/-- The type name `int`. -/
def intType : Expr := .Ident (NewIdent "int")

/-- The declaration `func f() (a, b int) { return 1, 2 }`: one result field, two
results. -/
def twoNamedResults : FuncDecl :=
  .mk none none (NewIdent "f")
    (.mk (some (.mk [])) (some (.mk [.mk none [NewIdent "a", NewIdent "b"] intType none none])))
    (some (.mk [.ReturnStmt [.BasicLit ⟨.INT, "1"⟩, .BasicLit ⟨.INT, "2"⟩]]))

/-- The declaration `func Add(a, b int) int { return a + b }` of scenario A. -/
def addDecl : FuncDecl :=
  .mk none none (NewIdent "Add")
    (.mk (some (.mk [.mk none [NewIdent "a", NewIdent "b"] intType none none]))
      (some (.mk [.mk none [] intType none none])))
    (some (.mk [.ReturnStmt [.BinaryExpr (.Ident (NewIdent "a")) .ADD (.Ident (NewIdent "b"))]]))

/-! ## Calls that are still to be wrapped -/

/-- The test "this expression node is not a parenthesized direct call of a registered
name", that is, `wrapInReceive` would leave it alone. -/
def notRegistered (reg : Registry) (e : Expr) : Bool := !isRegisteredCall reg e

/-- The statement, for trees of cost at most `n`: after the specification-side
rewrite no expression node is a parenthesized direct call of a registered name any
more. The operands of `go` and `defer` statements are not tested. -/
structure Covered (reg : Registry) (n : Nat) : Prop where
  slot : ∀ x, costExpr x ≤ n →
    everyExpr (notRegistered reg) (fun _ => true) (wrapInReceive reg (rewriteExpr reg x)) = true
  call : ∀ x, costCallExpr x ≤ n →
    everyCallExpr (notRegistered reg) (fun _ => true) (rewriteCallExpr reg x) = true
  funcType : ∀ x, costFuncType x ≤ n →
    everyFuncType (notRegistered reg) (fun _ => true) (rewriteFuncType reg x) = true
  fieldList : ∀ x, costFieldList x ≤ n →
    everyFieldList (notRegistered reg) (fun _ => true) (rewriteFieldList reg x) = true
  field : ∀ x, costField x ≤ n →
    everyField (notRegistered reg) (fun _ => true) (rewriteField reg x) = true
  block : ∀ x, costBlockStmt x ≤ n →
    everyBlockStmt (notRegistered reg) (fun _ => true) (rewriteBlockStmt reg x) = true
  stmt : ∀ x, costStmt x ≤ n →
    everyStmt (notRegistered reg) (fun _ => true) (rewriteStmt reg x) = true
  spec : ∀ x, costSpec x ≤ n →
    everySpec (notRegistered reg) (fun _ => true) (rewriteSpec reg x) = true
  funcDecl : ∀ x, costFuncDecl x ≤ n →
    everyFuncDecl (notRegistered reg) (fun _ => true) (rewriteFuncDecl reg x) = true
  decl : ∀ x, costDecl x ≤ n →
    everyDecl (notRegistered reg) (fun _ => true) (rewriteDecl reg x) = true

/-- The declaration `func F(x int) int { return x }`. -/
def identityDecl : FuncDecl :=
  .mk none none (NewIdent "F")
    (.mk (some (.mk [.mk none [NewIdent "x"] intType none none]))
      (some (.mk [.mk none [] intType none none])))
    (some (.mk [.ReturnStmt [.Ident (NewIdent "x")]]))

/-- The call `F(1)` as the parser yields it, with its opening parenthesis at a real
position. -/
def callF1 : CallExpr :=
  .mk (.Ident (NewIdent "F")) 1 [.BasicLit ⟨.INT, "1"⟩] NoPos

/-- The declaration `func g() { go F(1) }`. -/
def goCaller : FuncDecl :=
  .mk none none (NewIdent "g") (.mk (some (.mk [])) none) (some (.mk [.GoStmt callF1]))

/-- The file that declares `F` and then `g`. -/
def goFile : File :=
  { Decls := [.FuncDecl identityDecl, .FuncDecl goCaller] }

/-- The registry in which `Add` is the only key. -/
def addRegistry : Registry := Registry.empty.setTrue "Add"

/-- The call `Add(2, 3)` as the parser yields it. -/
def callAdd23 : CallExpr :=
  .mk (.Ident (NewIdent "Add")) 1 [.BasicLit ⟨.INT, "2"⟩, .BasicLit ⟨.INT, "3"⟩] NoPos

/-- The declaration `func use() { Add(2, 3) }` of scenario A. -/
def addCaller : FuncDecl :=
  .mk none none (NewIdent "use") (.mk (some (.mk [])) none)
    (some (.mk [.ExprStmt (.CallExpr callAdd23)]))

/-- The dynamic type of an expression node, by the name of its `go/ast` type. -/
def nodeKind : Expr → String
  | .BadExpr => "BadExpr"
  | .Ident _ => "Ident"
  | .Ellipsis _ => "Ellipsis"
  | .BasicLit _ => "BasicLit"
  | .FuncLit _ _ => "FuncLit"
  | .CompositeLit _ _ => "CompositeLit"
  | .ParenExpr _ => "ParenExpr"
  | .SelectorExpr _ _ => "SelectorExpr"
  | .IndexExpr _ _ => "IndexExpr"
  | .SliceExpr _ _ _ _ _ => "SliceExpr"
  | .TypeAssertExpr _ _ => "TypeAssertExpr"
  | .CallExpr _ => "CallExpr"
  | .StarExpr _ => "StarExpr"
  | .UnaryExpr _ _ => "UnaryExpr"
  | .BinaryExpr _ _ _ => "BinaryExpr"
  | .KeyValueExpr _ _ => "KeyValueExpr"
  | .ArrayType _ _ => "ArrayType"
  | .StructType _ _ => "StructType"
  | .FuncType _ => "FuncType"
  | .InterfaceType _ _ => "InterfaceType"
  | .MapType _ _ => "MapType"
  | .ChanType _ _ => "ChanType"

/-- The method call `r.M()` of scenario B, as the parser yields it. -/
def callMethodM : Expr :=
  .CallExpr (.mk (.SelectorExpr (.Ident (NewIdent "r")) (NewIdent "M")) 1 [] NoPos)

/-! ## Erasure of the receives the rewrite inserts

Two trees that become equal when the inserted receive wrappers and the `Lparen`
marks of the direct calls of registered names are forgotten differ only by such
wrappers. -/

/-- The callee is a bare identifier with a registry entry. -/
def isRegisteredIdent (reg : Registry) : Expr → Bool
  | .Ident ident => reg ident.Name
  | _ => false

/-- A call of a registered identifier whose `Lparen` is `token.NoPos`: the state in
which `wrapInReceive` leaves the call it has put under a receive. -/
def isClearedCall (reg : Registry) : Expr → Bool
  | .CallExpr (.mk (.Ident ident) lparen _ _) => decide (lparen = NoPos) && reg ident.Name
  | _ => false

mutual

/-- Erasure in an expression: a receive whose operand is a call of a registered
identifier without `Lparen` is replaced by its operand. -/
def unwrapExpr (reg : Registry) : Expr → Expr
  | .BadExpr => .BadExpr
  | .Ident id => .Ident id
  | .Ellipsis elt => .Ellipsis (unwrapOptExpr reg elt)
  | .BasicLit lit => .BasicLit lit
  | .FuncLit t body => .FuncLit (unwrapFuncType reg t) (unwrapOptBlockStmt reg body)
  | .CompositeLit t elts => .CompositeLit (unwrapOptExpr reg t) (unwrapExprs reg elts)
  | .ParenExpr x => .ParenExpr (unwrapExpr reg x)
  | .SelectorExpr x sel => .SelectorExpr (unwrapExpr reg x) sel
  | .IndexExpr x index =>
    .IndexExpr (unwrapExpr reg x) (unwrapExpr reg index)
  | .SliceExpr x low high max slice3 =>
    .SliceExpr (unwrapExpr reg x) (unwrapOptExpr reg low)
      (unwrapOptExpr reg high) (unwrapOptExpr reg max) slice3
  | .TypeAssertExpr x t =>
    .TypeAssertExpr (unwrapExpr reg x) (unwrapOptExpr reg t)
  | .CallExpr call => .CallExpr (unwrapCallExpr reg call)
  | .StarExpr x => .StarExpr (unwrapExpr reg x)
  | .UnaryExpr op x =>
    if op = .ARROW && isClearedCall reg x then unwrapExpr reg x
    else .UnaryExpr op (unwrapExpr reg x)
  | .BinaryExpr x op y =>
    .BinaryExpr (unwrapExpr reg x) op (unwrapExpr reg y)
  | .KeyValueExpr key value =>
    .KeyValueExpr (unwrapExpr reg key)
      (unwrapExpr reg value)
  | .ArrayType len elt => .ArrayType (unwrapOptExpr reg len) (unwrapExpr reg elt)
  | .StructType fields incomplete => .StructType (unwrapFieldList reg fields) incomplete
  | .FuncType t => .FuncType (unwrapFuncType reg t)
  | .InterfaceType methods incomplete => .InterfaceType (unwrapFieldList reg methods) incomplete
  | .MapType key value =>
    .MapType (unwrapExpr reg key) (unwrapExpr reg value)
  | .ChanType dir value => .ChanType dir (unwrapExpr reg value)

/-- Erasure in an optional expression. -/
def unwrapOptExpr (reg : Registry) : Option Expr → Option Expr
  | none => none
  | some x => some (unwrapExpr reg x)

/-- Erasure in a list of expressions. -/
def unwrapExprs (reg : Registry) : List Expr → List Expr
  | [] => []
  | x :: xs => unwrapExpr reg x :: unwrapExprs reg xs

/-- Erasure in a call node: the `Lparen` of a call of a registered identifier is
forgotten. -/
def unwrapCallExpr (reg : Registry) : CallExpr → CallExpr
  | .mk f lparen args ellipsis =>
    .mk (unwrapExpr reg f) (if isRegisteredIdent reg f then NoPos else lparen)
      (unwrapExprs reg args) ellipsis

/-- Erasure in a function type. -/
def unwrapFuncType (reg : Registry) : FuncType → FuncType
  | .mk params results => .mk (unwrapOptFieldList reg params) (unwrapOptFieldList reg results)

/-- Erasure in an optional field list. -/
def unwrapOptFieldList (reg : Registry) : Option FieldList → Option FieldList
  | none => none
  | some l => some (unwrapFieldList reg l)

/-- Erasure in a field list. -/
def unwrapFieldList (reg : Registry) : FieldList → FieldList
  | .mk list => .mk (unwrapFields reg list)

/-- Erasure in a list of fields. -/
def unwrapFields (reg : Registry) : List Field → List Field
  | [] => []
  | f :: fs => unwrapField reg f :: unwrapFields reg fs

/-- Erasure in a field. -/
def unwrapField (reg : Registry) : Field → Field
  | .mk doc names t tag comment => .mk doc names (unwrapExpr reg t) tag comment

/-- Erasure in a block. -/
def unwrapBlockStmt (reg : Registry) : BlockStmt → BlockStmt
  | .mk list => .mk (unwrapStmts reg list)

/-- Erasure in an optional block. -/
def unwrapOptBlockStmt (reg : Registry) : Option BlockStmt → Option BlockStmt
  | none => none
  | some b => some (unwrapBlockStmt reg b)

/-- Erasure in a statement list. -/
def unwrapStmts (reg : Registry) : List Stmt → List Stmt
  | [] => []
  | s :: ss => unwrapStmt reg s :: unwrapStmts reg ss

/-- Erasure in an optional statement. -/
def unwrapOptStmt (reg : Registry) : Option Stmt → Option Stmt
  | none => none
  | some s => some (unwrapStmt reg s)

/-- Erasure in a statement node. -/
def unwrapStmt (reg : Registry) : Stmt → Stmt
  | .BadStmt => .BadStmt
  | .DeclStmt decl => .DeclStmt (unwrapDecl reg decl)
  | .EmptyStmt implicit => .EmptyStmt implicit
  | .LabeledStmt label stmt => .LabeledStmt label (unwrapStmt reg stmt)
  | .ExprStmt x => .ExprStmt (unwrapExpr reg x)
  | .SendStmt chan value =>
    .SendStmt (unwrapExpr reg chan) (unwrapExpr reg value)
  | .IncDecStmt x tok => .IncDecStmt (unwrapExpr reg x) tok
  | .AssignStmt lhs tok rhs => .AssignStmt (unwrapExprs reg lhs) tok (unwrapExprs reg rhs)
  | .GoStmt call => .GoStmt (unwrapCallExpr reg call)
  | .DeferStmt call => .DeferStmt (unwrapCallExpr reg call)
  | .ReturnStmt results => .ReturnStmt (unwrapExprs reg results)
  | .BranchStmt tok label => .BranchStmt tok label
  | .BlockStmt block => .BlockStmt (unwrapBlockStmt reg block)
  | .IfStmt init cond body els =>
    .IfStmt (unwrapOptStmt reg init) (unwrapExpr reg cond)
      (unwrapBlockStmt reg body) (unwrapOptStmt reg els)
  | .CaseClause list body => .CaseClause (unwrapExprs reg list) (unwrapStmts reg body)
  | .SwitchStmt init tag body =>
    .SwitchStmt (unwrapOptStmt reg init) (unwrapOptExpr reg tag) (unwrapBlockStmt reg body)
  | .TypeSwitchStmt init assign body =>
    .TypeSwitchStmt (unwrapOptStmt reg init) (unwrapStmt reg assign) (unwrapBlockStmt reg body)
  | .CommClause comm body => .CommClause (unwrapOptStmt reg comm) (unwrapStmts reg body)
  | .SelectStmt body => .SelectStmt (unwrapBlockStmt reg body)
  | .ForStmt init cond post body =>
    .ForStmt (unwrapOptStmt reg init) (unwrapOptExpr reg cond) (unwrapOptStmt reg post)
      (unwrapBlockStmt reg body)
  | .RangeStmt key value tok x body =>
    .RangeStmt (unwrapOptExpr reg key) (unwrapOptExpr reg value) tok
      (unwrapExpr reg x) (unwrapBlockStmt reg body)

/-- Erasure in a specification node. -/
def unwrapSpec (reg : Registry) : Spec → Spec
  | .ImportSpec doc name path comment => .ImportSpec doc name path comment
  | .ValueSpec doc names t values comment =>
    .ValueSpec doc names (unwrapOptExpr reg t) (unwrapExprs reg values) comment
  | .TypeSpec doc name t comment =>
    .TypeSpec doc name (unwrapExpr reg t) comment

/-- Erasure in a list of specifications. -/
def unwrapSpecs (reg : Registry) : List Spec → List Spec
  | [] => []
  | s :: ss => unwrapSpec reg s :: unwrapSpecs reg ss

/-- Erasure in a function declaration. -/
def unwrapFuncDecl (reg : Registry) : FuncDecl → FuncDecl
  | .mk doc recv name t body =>
    .mk doc (unwrapOptFieldList reg recv) name (unwrapFuncType reg t)
      (unwrapOptBlockStmt reg body)

/-- Erasure in a declaration node. -/
def unwrapDecl (reg : Registry) : Decl → Decl
  | .BadDecl => .BadDecl
  | .GenDecl doc tok specs => .GenDecl doc tok (unwrapSpecs reg specs)
  | .FuncDecl decl => .FuncDecl (unwrapFuncDecl reg decl)

end

/-- The statement, for trees of cost at most `n`: the specification-side rewrite and
its argument have the same erasure. -/
structure Erased (reg : Registry) (n : Nat) : Prop where
  slot : ∀ x, costExpr x ≤ n →
    unwrapExpr reg (wrapInReceive reg (rewriteExpr reg x)) = unwrapExpr reg x
  call : ∀ x, costCallExpr x ≤ n → unwrapCallExpr reg (rewriteCallExpr reg x) = unwrapCallExpr reg x
  funcType : ∀ x, costFuncType x ≤ n → unwrapFuncType reg (rewriteFuncType reg x) = unwrapFuncType reg x
  fieldList : ∀ x, costFieldList x ≤ n → unwrapFieldList reg (rewriteFieldList reg x) = unwrapFieldList reg x
  field : ∀ x, costField x ≤ n → unwrapField reg (rewriteField reg x) = unwrapField reg x
  block : ∀ x, costBlockStmt x ≤ n → unwrapBlockStmt reg (rewriteBlockStmt reg x) = unwrapBlockStmt reg x
  stmt : ∀ x, costStmt x ≤ n → unwrapStmt reg (rewriteStmt reg x) = unwrapStmt reg x
  spec : ∀ x, costSpec x ≤ n → unwrapSpec reg (rewriteSpec reg x) = unwrapSpec reg x
  funcDecl : ∀ x, costFuncDecl x ≤ n → unwrapFuncDecl reg (rewriteFuncDecl reg x) = unwrapFuncDecl reg x
  decl : ∀ x, costDecl x ≤ n → unwrapDecl reg (rewriteDecl reg x) = unwrapDecl reg x

/-- The statement, for trees of cost at most `n`: the specification-side rewrite
returns a tree without parenthesized direct call of a registered name in an
expression position as it is. -/
structure Fixed (reg : Registry) (n : Nat) : Prop where
  slot : ∀ x, costExpr x ≤ n → everyExpr (notRegistered reg) (fun _ => true) x = true →
    wrapInReceive reg (rewriteExpr reg x) = x
  call : ∀ x, costCallExpr x ≤ n → everyCallExpr (notRegistered reg) (fun _ => true) x = true →
    rewriteCallExpr reg x = x
  funcType : ∀ x, costFuncType x ≤ n → everyFuncType (notRegistered reg) (fun _ => true) x = true →
    rewriteFuncType reg x = x
  fieldList : ∀ x, costFieldList x ≤ n → everyFieldList (notRegistered reg) (fun _ => true) x = true →
    rewriteFieldList reg x = x
  field : ∀ x, costField x ≤ n → everyField (notRegistered reg) (fun _ => true) x = true →
    rewriteField reg x = x
  block : ∀ x, costBlockStmt x ≤ n → everyBlockStmt (notRegistered reg) (fun _ => true) x = true →
    rewriteBlockStmt reg x = x
  stmt : ∀ x, costStmt x ≤ n → everyStmt (notRegistered reg) (fun _ => true) x = true →
    rewriteStmt reg x = x
  spec : ∀ x, costSpec x ≤ n → everySpec (notRegistered reg) (fun _ => true) x = true →
    rewriteSpec reg x = x
  funcDecl : ∀ x, costFuncDecl x ≤ n → everyFuncDecl (notRegistered reg) (fun _ => true) x = true →
    rewriteFuncDecl reg x = x
  decl : ∀ x, costDecl x ≤ n → everyDecl (notRegistered reg) (fun _ => true) x = true →
    rewriteDecl reg x = x

/-- The file of scenario A: `func Add(a, b int) int { return a + b }` and
`func use() { Add(2, 3) }`. -/
def scenarioA : File :=
  { Decls := [.FuncDecl addDecl, .FuncDecl addCaller] }

/-- The declaration of `Add` expected in scenario A: the parameters of `Add`, the
result type `chan int` and the body `result := make(chan int); go func() { result <-
func() int { return a + b }() }(); return result`. -/
def addFaster : FuncDecl :=
  .mk none none (NewIdent "Add")
    (.mk (some (.mk [.mk none [NewIdent "a", NewIdent "b"] intType none none]))
      (some (.mk [.mk none [] (.ChanType (SEND ||| RECV) intType) none none])))
    (some (.mk [
      .AssignStmt [.Ident resultIdent] .DEFINE
        [.CallExpr (.mk (.Ident (NewIdent "make")) NoPos
          [.ChanType (SEND ||| RECV) intType] NoPos)],
      .GoStmt (.mk
        (.FuncLit (.mk (some (.mk [])) none)
          (some (.mk [
            .SendStmt (.Ident resultIdent)
              (.CallExpr (.mk
                (.FuncLit (.mk none (some (.mk [.mk none [] intType none none])))
                  (some (.mk [.ReturnStmt
                    [.BinaryExpr (.Ident (NewIdent "a")) .ADD (.Ident (NewIdent "b"))]])))
                NoPos [] NoPos))])))
        NoPos [] NoPos),
      .ReturnStmt [.Ident resultIdent]]))

/-- The declaration of `use` expected in scenario A: `func use() { <-Add(2, 3) }`. -/
def useFaster : FuncDecl :=
  .mk none none (NewIdent "use") (.mk (some (.mk [])) none)
    (some (.mk [.ExprStmt (.UnaryExpr .ARROW
      (.CallExpr (.mk (.Ident (NewIdent "Add")) NoPos
        [.BasicLit ⟨.INT, "2"⟩, .BasicLit ⟨.INT, "3"⟩] NoPos)))]))

/-- The output expected in scenario A. -/
def scenarioAOut : File :=
  { Decls := [.FuncDecl addFaster, .FuncDecl useFaster] }

/-- The registry in which `F` is the only key. -/
def fRegistry : Registry := Registry.empty.setTrue "F"

/-- The call `F()` as the parser yields it. -/
def callF : CallExpr :=
  .mk (.Ident (NewIdent "F")) 1 [] NoPos

/-- The body `{ return F() + 1 }` of scenario C. -/
def selfCallBody : BlockStmt :=
  .mk [.ReturnStmt [.BinaryExpr (.CallExpr callF) .ADD (.BasicLit ⟨.INT, "1"⟩)]]

/-- The declaration `func F() int { return F() + 1 }` of scenario C. -/
def selfCallDecl : FuncDecl :=
  .mk none none (NewIdent "F")
    (.mk (some (.mk [])) (some (.mk [.mk none [] intType none none])))
    (some selfCallBody)

/-- The declaration `func F(x int) int { defer F(1); return x }`. -/
def deferSelfDecl : FuncDecl :=
  .mk none none (NewIdent "F")
    (.mk (some (.mk [.mk none [NewIdent "x"] intType none none]))
      (some (.mk [.mk none [] intType none none])))
    (some (.mk [.DeferStmt callF1, .ReturnStmt [.Ident (NewIdent "x")]]))

/-- The declaration `var x = F(1)`. -/
def varXDecl : Decl :=
  .GenDecl none .VAR [.ValueSpec none [NewIdent "x"] none [.CallExpr callF1] none]

/-- The file that declares `F` and then, at package level, `var x = F(1)`. -/
def packageVarFile : File :=
  { Decls := [.FuncDecl identityDecl, varXDecl] }

/-- The declaration `func h() { var x = F(1) }`. -/
def localVarDecl : FuncDecl :=
  .mk none none (NewIdent "h") (.mk (some (.mk [])) none) (some (.mk [.DeclStmt varXDecl]))

/-! ## Observers and inputs for the second group of claims -/

/-- The identifier `Add` resolved to the top-level function of that name. -/
def addFuncIdent : Ident :=
  { Name := "Add", Obj := some { Kind := .Fun, Name := "Add", Decl := 1 } }

/-- The identifier `Add` resolved to a local variable that shadows the function. -/
def addVarIdent : Ident :=
  { Name := "Add", Obj := some { Kind := .Var, Name := "Add", Decl := 2 } }

/-- The first statement of the body of a function declaration. -/
def firstStmt (f : FuncDecl) : Option Stmt :=
  match f.Body with
  | some (.mk (s :: _)) => some s
  | _ => none

/-- The body of the inner function literal in a declaration of the shape that
`increaseSpeed` builds: the literal that is invoked in the send statement of the
literal that the `go` statement calls. -/
def embeddedBody (f : FuncDecl) : Option BlockStmt :=
  match f.Body with
  | some (.mk [_, .GoStmt (.mk (.FuncLit _ (some (.mk
      [.SendStmt _ (.CallExpr (.mk (.FuncLit _ body) _ _ _))]))) _ _ _), _]) => body
  | _ => none

/-- The body `{ return result }`. -/
def returnResultBody : BlockStmt :=
  .mk [.ReturnStmt [.Ident (NewIdent "result")]]

/-- The declaration `func id(result int) int { return result }`, whose parameter has
the name of the holder. -/
def resultParamDecl : FuncDecl :=
  .mk none none (NewIdent "id")
    (.mk (some (.mk [.mk none [NewIdent "result"] intType none none]))
      (some (.mk [.mk none [] intType none none])))
    (some returnResultBody)

/-- The forward declaration `func f() int`, without body. -/
def forwardDecl : FuncDecl :=
  .mk none none (NewIdent "f")
    (.mk (some (.mk [])) (some (.mk [.mk none [] intType none none])))
    none

/-- The file that consists of the forward declaration `func f() int`. -/
def forwardFile : File :=
  { Decls := [.FuncDecl forwardDecl] }

/-- What `increaseSpeed` makes of `func f() int`: the inner function literal has no
body. -/
def forwardFaster : FuncDecl :=
  .mk none none (NewIdent "f")
    (.mk (some (.mk []))
      (some (.mk [.mk none [] (.ChanType (SEND ||| RECV) intType) none none])))
    (some (.mk [
      .AssignStmt [.Ident resultIdent] .DEFINE
        [.CallExpr (.mk (.Ident (NewIdent "make")) NoPos
          [.ChanType (SEND ||| RECV) intType] NoPos)],
      .GoStmt (.mk
        (.FuncLit (.mk (some (.mk [])) none)
          (some (.mk [
            .SendStmt (.Ident resultIdent)
              (.CallExpr (.mk
                (.FuncLit (.mk none (some (.mk [.mk none [] intType none none]))) none)
                NoPos [] NoPos))])))
        NoPos [] NoPos),
      .ReturnStmt [.Ident resultIdent]]))

/-- The statement, for trees of cost at most `n`: if every function literal of a tree
has a body, so has every function literal of its specification-side rewrite. -/
structure Bodied (reg : Registry) (n : Nat) : Prop where
  slot : ∀ x, costExpr x ≤ n → everyExpr hasBody (fun _ => true) x = true →
    everyExpr hasBody (fun _ => true) (wrapInReceive reg (rewriteExpr reg x)) = true
  call : ∀ x, costCallExpr x ≤ n → everyCallExpr hasBody (fun _ => true) x = true →
    everyCallExpr hasBody (fun _ => true) (rewriteCallExpr reg x) = true
  funcType : ∀ x, costFuncType x ≤ n → everyFuncType hasBody (fun _ => true) x = true →
    everyFuncType hasBody (fun _ => true) (rewriteFuncType reg x) = true
  fieldList : ∀ x, costFieldList x ≤ n → everyFieldList hasBody (fun _ => true) x = true →
    everyFieldList hasBody (fun _ => true) (rewriteFieldList reg x) = true
  field : ∀ x, costField x ≤ n → everyField hasBody (fun _ => true) x = true →
    everyField hasBody (fun _ => true) (rewriteField reg x) = true
  block : ∀ x, costBlockStmt x ≤ n → everyBlockStmt hasBody (fun _ => true) x = true →
    everyBlockStmt hasBody (fun _ => true) (rewriteBlockStmt reg x) = true
  stmt : ∀ x, costStmt x ≤ n → everyStmt hasBody (fun _ => true) x = true →
    everyStmt hasBody (fun _ => true) (rewriteStmt reg x) = true
  spec : ∀ x, costSpec x ≤ n → everySpec hasBody (fun _ => true) x = true →
    everySpec hasBody (fun _ => true) (rewriteSpec reg x) = true
  funcDecl : ∀ x, costFuncDecl x ≤ n → everyFuncDecl hasBody (fun _ => true) x = true →
    everyFuncDecl hasBody (fun _ => true) (rewriteFuncDecl reg x) = true
  decl : ∀ x, costDecl x ≤ n → everyDecl hasBody (fun _ => true) x = true →
    everyDecl hasBody (fun _ => true) (rewriteDecl reg x) = true

/-- The registry with the keys `f` and `g`. -/
def fgRegistry : Registry := (Registry.empty.setTrue "f").setTrue "g"

/-- The call `g(x)` as the parser yields it. -/
def callGx : CallExpr :=
  .mk (.Ident (NewIdent "g")) 1 [.Ident (NewIdent "x")] NoPos

/-- The call `f(g(x))` as the parser yields it. -/
def callFGx : CallExpr :=
  .mk (.Ident (NewIdent "f")) 1 [.CallExpr callGx] NoPos

/-- The function literal `func() { go g(x) }`. -/
def goClosure : Expr :=
  .FuncLit (.mk (some (.mk [])) none) (some (.mk [.GoStmt callGx]))

/-- The call `f(func() { go g(x) })` as the parser yields it. -/
def callFClosure : CallExpr :=
  .mk (.Ident (NewIdent "f")) 1 [goClosure] NoPos

/-- The array type `[F(1)]int`, whose length is a call. -/
def arrayOfF1 : Expr :=
  .ArrayType (some (.CallExpr callF1)) intType

/-- The declaration `func table() [F(1)]int { return zero }`. -/
def arrayResultDecl : FuncDecl :=
  .mk none none (NewIdent "table")
    (.mk (some (.mk [])) (some (.mk [.mk none [] arrayOfF1 none none])))
    (some (.mk [.ReturnStmt [.Ident (NewIdent "zero")]]))

/-- The file that declares `F` and then `table`. -/
def arrayResultFile : File :=
  { Decls := [.FuncDecl identityDecl, .FuncDecl arrayResultDecl] }

/-- The registry in which `make` is the only key. -/
def makeRegistry : Registry := Registry.empty.setTrue "make"

/-- The body `{ return 1 }`. -/
def returnOneBody : BlockStmt :=
  .mk [.ReturnStmt [.BasicLit ⟨.INT, "1"⟩]]

/-- The declaration `func make() int { return 1 }`, an eligible function named like
the builtin. -/
def makeDecl : FuncDecl :=
  .mk none none (NewIdent "make")
    (.mk (some (.mk [])) (some (.mk [.mk none [] intType none none])))
    (some returnOneBody)

/-! ## Counting the receives the rewrite inserts

The number of receives over calls of registered names in a tree, and the number of
calls that are still to be wrapped, both taken over the expression positions. -/

mutual

/-- The sum of the weight `w` over the expression nodes of the tree: the nodes held in
a position of type `ast.Expr`. The operand of a `go` or `defer` statement is a call
node that is not held in such a position; its callee and arguments are. -/
def countExpr (w : Expr → Nat) : Expr → Nat
  | .BadExpr => w .BadExpr
  | .Ident id => w (.Ident id)
  | .Ellipsis elt => w (.Ellipsis elt) + countOptExpr w elt
  | .BasicLit lit => w (.BasicLit lit)
  | .FuncLit t body =>
    w (.FuncLit t body) + countFuncType w t + countOptBlockStmt w body
  | .CompositeLit t elts =>
    w (.CompositeLit t elts) + countOptExpr w t + countExprs w elts
  | .ParenExpr x => w (.ParenExpr x) + countExpr w x
  | .SelectorExpr x sel => w (.SelectorExpr x sel) + countExpr w x
  | .IndexExpr x index => w (.IndexExpr x index) + countExpr w x + countExpr w index
  | .SliceExpr x low high max slice3 =>
    w (.SliceExpr x low high max slice3) + countExpr w x + countOptExpr w low +
      countOptExpr w high + countOptExpr w max
  | .TypeAssertExpr x t => w (.TypeAssertExpr x t) + countExpr w x + countOptExpr w t
  | .CallExpr call => w (.CallExpr call) + countCallExpr w call
  | .StarExpr x => w (.StarExpr x) + countExpr w x
  | .UnaryExpr op x => w (.UnaryExpr op x) + countExpr w x
  | .BinaryExpr x op y => w (.BinaryExpr x op y) + countExpr w x + countExpr w y
  | .KeyValueExpr key value =>
    w (.KeyValueExpr key value) + countExpr w key + countExpr w value
  | .ArrayType len elt => w (.ArrayType len elt) + countOptExpr w len + countExpr w elt
  | .StructType fields incomplete =>
    w (.StructType fields incomplete) + countFieldList w fields
  | .FuncType t => w (.FuncType t) + countFuncType w t
  | .InterfaceType methods incomplete =>
    w (.InterfaceType methods incomplete) + countFieldList w methods
  | .MapType key value => w (.MapType key value) + countExpr w key + countExpr w value
  | .ChanType dir value => w (.ChanType dir value) + countExpr w value

/-- The sum of the weights in an optional expression. -/
def countOptExpr (w : Expr → Nat) : Option Expr → Nat
  | none => 0
  | some x => countExpr w x

/-- The sum of the weights in a list of expressions. -/
def countExprs (w : Expr → Nat) : List Expr → Nat
  | [] => 0
  | x :: xs => countExpr w x + countExprs w xs

/-- The sum of the weights in the callee and the arguments of a call node. -/
def countCallExpr (w : Expr → Nat) : CallExpr → Nat
  | .mk f _ args _ => countExpr w f + countExprs w args

/-- The sum of the weights in a function type. -/
def countFuncType (w : Expr → Nat) : FuncType → Nat
  | .mk params results => countOptFieldList w params + countOptFieldList w results

/-- The sum of the weights in an optional field list. -/
def countOptFieldList (w : Expr → Nat) : Option FieldList → Nat
  | none => 0
  | some l => countFieldList w l

/-- The sum of the weights in a field list. -/
def countFieldList (w : Expr → Nat) : FieldList → Nat
  | .mk list => countFields w list

/-- The sum of the weights in a list of fields. -/
def countFields (w : Expr → Nat) : List Field → Nat
  | [] => 0
  | f :: fs => countField w f + countFields w fs

/-- The sum of the weights in the type of a field. -/
def countField (w : Expr → Nat) : Field → Nat
  | .mk _ _ t _ _ => countExpr w t

/-- The sum of the weights in a block. -/
def countBlockStmt (w : Expr → Nat) : BlockStmt → Nat
  | .mk list => countStmts w list

/-- The sum of the weights in an optional block. -/
def countOptBlockStmt (w : Expr → Nat) : Option BlockStmt → Nat
  | none => 0
  | some b => countBlockStmt w b

/-- The sum of the weights in a statement list. -/
def countStmts (w : Expr → Nat) : List Stmt → Nat
  | [] => 0
  | s :: ss => countStmt w s + countStmts w ss

/-- The sum of the weights in an optional statement. -/
def countOptStmt (w : Expr → Nat) : Option Stmt → Nat
  | none => 0
  | some s => countStmt w s

/-- The sum of the weights in a statement. -/
def countStmt (w : Expr → Nat) : Stmt → Nat
  | .BadStmt => 0
  | .DeclStmt decl => countDecl w decl
  | .EmptyStmt _ => 0
  | .LabeledStmt _ stmt => countStmt w stmt
  | .ExprStmt x => countExpr w x
  | .SendStmt chan value => countExpr w chan + countExpr w value
  | .IncDecStmt x _ => countExpr w x
  | .AssignStmt lhs _ rhs => countExprs w lhs + countExprs w rhs
  | .GoStmt call => countCallExpr w call
  | .DeferStmt call => countCallExpr w call
  | .ReturnStmt results => countExprs w results
  | .BranchStmt _ _ => 0
  | .BlockStmt block => countBlockStmt w block
  | .IfStmt init cond body els =>
    countOptStmt w init + countExpr w cond + countBlockStmt w body +
      countOptStmt w els
  | .CaseClause list body => countExprs w list + countStmts w body
  | .SwitchStmt init tag body =>
    countOptStmt w init + countOptExpr w tag + countBlockStmt w body
  | .TypeSwitchStmt init assign body =>
    countOptStmt w init + countStmt w assign + countBlockStmt w body
  | .CommClause comm body => countOptStmt w comm + countStmts w body
  | .SelectStmt body => countBlockStmt w body
  | .ForStmt init cond post body =>
    countOptStmt w init + countOptExpr w cond + countOptStmt w post +
      countBlockStmt w body
  | .RangeStmt key value _ x body =>
    countOptExpr w key + countOptExpr w value + countExpr w x +
      countBlockStmt w body

/-- The sum of the weights in a specification. -/
def countSpec (w : Expr → Nat) : Spec → Nat
  | .ImportSpec _ _ _ _ => 0
  | .ValueSpec _ _ t values _ => countOptExpr w t + countExprs w values
  | .TypeSpec _ _ t _ => countExpr w t

/-- The sum of the weights in a list of specifications. -/
def countSpecs (w : Expr → Nat) : List Spec → Nat
  | [] => 0
  | s :: ss => countSpec w s + countSpecs w ss

/-- The sum of the weights in a function declaration. -/
def countFuncDecl (w : Expr → Nat) : FuncDecl → Nat
  | .mk _ recv _ t body =>
    countOptFieldList w recv + countFuncType w t + countOptBlockStmt w body

/-- The sum of the weights in a declaration. -/
def countDecl (w : Expr → Nat) : Decl → Nat
  | .BadDecl => 0
  | .GenDecl _ _ specs => countSpecs w specs
  | .FuncDecl decl => countFuncDecl w decl

end

/-- Weight `1` on a call that is still to be wrapped: a parenthesized direct call of a
registered name; weight `0` on every other expression node. -/
def toWrap (reg : Registry) (e : Expr) : Nat := if isRegisteredCall reg e then 1 else 0

/-- A receive expression `<-f(args)` over a call of a registered identifier whose
`Lparen` is `token.NoPos`: the node that takes the place of a wrapped call. -/
def isReceiveOverCall (reg : Registry) : Expr → Bool
  | .UnaryExpr op x => decide (op = Token.ARROW) && isClearedCall reg x
  | _ => false

/-- Weight `1` on a receive over a cleared call of a registered name; weight `0` on
every other expression node. -/
def received (reg : Registry) (e : Expr) : Nat := if isReceiveOverCall reg e then 1 else 0

/-- The statement, for trees of cost at most `n`: the specification-side rewrite adds
exactly one receive over a cleared call of a registered name for every parenthesized
direct call of a registered name in an expression position. -/
structure Counted (reg : Registry) (n : Nat) : Prop where
  slot : ∀ x, costExpr x ≤ n →
    countExpr (received reg) (wrapInReceive reg (rewriteExpr reg x)) =
      countExpr (received reg) x + countExpr (toWrap reg) x
  call : ∀ x, costCallExpr x ≤ n →
    countCallExpr (received reg) (rewriteCallExpr reg x) =
      countCallExpr (received reg) x + countCallExpr (toWrap reg) x
  funcType : ∀ x, costFuncType x ≤ n →
    countFuncType (received reg) (rewriteFuncType reg x) =
      countFuncType (received reg) x + countFuncType (toWrap reg) x
  fieldList : ∀ x, costFieldList x ≤ n →
    countFieldList (received reg) (rewriteFieldList reg x) =
      countFieldList (received reg) x + countFieldList (toWrap reg) x
  field : ∀ x, costField x ≤ n →
    countField (received reg) (rewriteField reg x) =
      countField (received reg) x + countField (toWrap reg) x
  block : ∀ x, costBlockStmt x ≤ n →
    countBlockStmt (received reg) (rewriteBlockStmt reg x) =
      countBlockStmt (received reg) x + countBlockStmt (toWrap reg) x
  stmt : ∀ x, costStmt x ≤ n →
    countStmt (received reg) (rewriteStmt reg x) =
      countStmt (received reg) x + countStmt (toWrap reg) x
  spec : ∀ x, costSpec x ≤ n →
    countSpec (received reg) (rewriteSpec reg x) =
      countSpec (received reg) x + countSpec (toWrap reg) x
  funcDecl : ∀ x, costFuncDecl x ≤ n →
    countFuncDecl (received reg) (rewriteFuncDecl reg x) =
      countFuncDecl (received reg) x + countFuncDecl (toWrap reg) x
  decl : ∀ x, costDecl x ≤ n →
    countDecl (received reg) (rewriteDecl reg x) =
      countDecl (received reg) x + countDecl (toWrap reg) x

/-! ## The rewrite loop over the top-level declarations -/

/-- The declaration the rewrite loop (lines 135-266) leaves in the place of a top-level
declaration: the loop walks function declarations and no other declaration. -/
def rewriteTopLevel (reg : Registry) : Decl → Decl
  | .FuncDecl f => .FuncDecl (rewriteFuncDecl reg f)
  | d => d

/-- The walk of the top-level declaration fits in the fuel and meets no function
literal without body. -/
def walkable (fuel : Nat) : Decl → Bool
  | .FuncDecl f => decide (costFuncDecl f ≤ fuel) && bodiedFuncDecl f
  | _ => true

/-- The identifier `make` resolved to a function `make` that the file declares. -/
def makeFuncIdent : Ident :=
  { Name := "make", Obj := some { Kind := .Fun, Name := "make", Decl := 1 } }

/-- The call `make()` as the parser yields it in a file that declares a function
`make`. -/
def callMake : CallExpr :=
  .mk (.Ident makeFuncIdent) 1 [] NoPos

/-- The declaration `func use() { make() }`. -/
def makeCaller : FuncDecl :=
  .mk none none (NewIdent "use") (.mk (some (.mk [])) none)
    (some (.mk [.ExprStmt (.CallExpr callMake)]))

/-- The file that declares `func make() int { return 1 }` and then `use`. -/
def makeFile : File :=
  { Decls := [.FuncDecl makeDecl, .FuncDecl makeCaller] }

/-- The file of scenario A with `use` declared before `Add`: the call `Add(2, 3)` is a
forward reference. -/
def forwardReferenceFile : File :=
  { Decls := [.FuncDecl addCaller, .FuncDecl addDecl] }

/-! # Theorems -/

/-! ## `ast.Walk` computes the specification-side rewrite -/

theorem receiveOver_eq (reg : Registry) (e : Expr) : receiveOver reg e = wrapInReceive reg e := by
  cases e with
  | CallExpr c =>
    cases c with
    | mk f l a el =>
      cases f with
      | Ident id =>
        by_cases hl : l = NoPos
        · simp [receiveOver, wrapInReceive, CallExpr.Lparen, hl]
        · by_cases hr : reg id.Name = true
          · simp [receiveOver, wrapInReceive, CallExpr.Lparen, CallExpr.Fun, hl, hr,
              callToReceiveCall, CallExpr.setLparen]
          · simp [receiveOver, wrapInReceive, CallExpr.Lparen, CallExpr.Fun, hl, hr]
      | _ => simp [receiveOver, wrapInReceive, CallExpr.Fun]
  | _ => rfl

theorem bind_ok_eq {α β : Type} (a : α) (f : α → Except Failure β) :
    (Except.ok a >>= f) = f a := rfl

theorem walkExpr_call (reg : Registry) (n : Nat) (c : CallExpr) :
    walkExpr reg n (.CallExpr c) = (walkCallExpr reg n c).map Expr.CallExpr := by
  cases n with
  | zero => simp [walkExpr, walkCallExpr, Except.map]
  | succ m =>
    cases c with
    | mk f l a e =>
      simp only [walkExpr, walkCallExpr, visitorExpr, visitorCallExpr]
      cases walkExpr reg m (wrapInReceive reg f) with
      | error err => rfl
      | ok v =>
        simp only [bind_ok_eq]
        cases walkList (walkExpr reg m) (improveCallExprs reg a) with
        | error err => rfl
        | ok w => rfl

theorem walkSpec_optSlot {reg : Registry} {n : Nat} (h : WalkSpec reg n) :
    ∀ o, costOptExpr o ≤ n → everyOptExpr hasBody (fun _ => true) o = true →
    walkOpt (walkExpr reg n) (o.map (wrapInReceive reg)) = .ok (rewriteOptExpr reg o)
  | none, _, _ => rfl
  | some x, hc, hb => by
    simp only [costOptExpr, everyOptExpr] at hc hb
    simp only [Option.map, walkOpt, h.slot x hc hb, rewriteOptExpr, receiveOver_eq, bind_ok_eq]
    rfl

theorem walkSpec_slots {reg : Registry} {n : Nat} (h : WalkSpec reg n) :
    ∀ xs, costExprs xs ≤ n → everyExprs hasBody (fun _ => true) xs = true →
    walkList (walkExpr reg n) (improveCallExprs reg xs) = .ok (rewriteExprs reg xs)
  | [], _, _ => rfl
  | x :: xs, hc, hb => by
    simp only [costExprs, everyExprs, Bool.and_eq_true] at hc hb
    have h1 := h.slot x (by omega) hb.1
    have h2 := walkSpec_slots h xs (by omega) hb.2
    simp only [improveCallExprs] at h2
    simp only [improveCallExprs, List.map, walkList, h1, h2, rewriteExprs, receiveOver_eq, bind_ok_eq]
    rfl

theorem walkSpec_optFieldList {reg : Registry} {n : Nat} (h : WalkSpec reg n) :
    ∀ o, costOptFieldList o ≤ n → everyOptFieldList hasBody (fun _ => true) o = true →
    walkOpt (walkFieldList reg n) o = .ok (rewriteOptFieldList reg o)
  | none, _, _ => rfl
  | some x, hc, hb => by
    simp only [costOptFieldList, everyOptFieldList] at hc hb
    simp only [walkOpt, h.fieldList x hc hb, rewriteOptFieldList, bind_ok_eq]
    rfl

theorem walkSpec_fields {reg : Registry} {n : Nat} (h : WalkSpec reg n) :
    ∀ xs, costFields xs ≤ n → everyFields hasBody (fun _ => true) xs = true →
    walkList (walkField reg n) xs = .ok (rewriteFields reg xs)
  | [], _, _ => rfl
  | x :: xs, hc, hb => by
    simp only [costFields, everyFields, Bool.and_eq_true] at hc hb
    have h1 := h.field x (by omega) hb.1
    have h2 := walkSpec_fields h xs (by omega) hb.2
    simp only [walkList, h1, h2, rewriteFields, bind_ok_eq]
    rfl

theorem walkSpec_optBlock {reg : Registry} {n : Nat} (h : WalkSpec reg n) :
    ∀ o, costOptBlockStmt o ≤ n → everyOptBlockStmt hasBody (fun _ => true) o = true →
    walkOpt (walkBlockStmt reg n) o = .ok (rewriteOptBlockStmt reg o)
  | none, _, _ => rfl
  | some x, hc, hb => by
    simp only [costOptBlockStmt, everyOptBlockStmt] at hc hb
    simp only [walkOpt, h.block x hc hb, rewriteOptBlockStmt, bind_ok_eq]
    rfl

theorem walkSpec_optStmt {reg : Registry} {n : Nat} (h : WalkSpec reg n) :
    ∀ o, costOptStmt o ≤ n → everyOptStmt hasBody (fun _ => true) o = true →
    walkOpt (walkStmt reg n) o = .ok (rewriteOptStmt reg o)
  | none, _, _ => rfl
  | some x, hc, hb => by
    simp only [costOptStmt, everyOptStmt] at hc hb
    simp only [walkOpt, h.stmt x hc hb, rewriteOptStmt, bind_ok_eq]
    rfl

theorem walkSpec_stmts {reg : Registry} {n : Nat} (h : WalkSpec reg n) :
    ∀ xs, costStmts xs ≤ n → everyStmts hasBody (fun _ => true) xs = true →
    walkList (walkStmt reg n) xs = .ok (rewriteStmts reg xs)
  | [], _, _ => rfl
  | x :: xs, hc, hb => by
    simp only [costStmts, everyStmts, Bool.and_eq_true] at hc hb
    have h1 := h.stmt x (by omega) hb.1
    have h2 := walkSpec_stmts h xs (by omega) hb.2
    simp only [walkList, h1, h2, rewriteStmts, bind_ok_eq]
    rfl

theorem walkSpec_specs {reg : Registry} {n : Nat} (h : WalkSpec reg n) :
    ∀ xs, costSpecs xs ≤ n → everySpecs hasBody (fun _ => true) xs = true →
    walkList (walkSpec reg n) xs = .ok (rewriteSpecs reg xs)
  | [], _, _ => rfl
  | x :: xs, hc, hb => by
    simp only [costSpecs, everySpecs, Bool.and_eq_true] at hc hb
    have h1 := h.spec x (by omega) hb.1
    have h2 := walkSpec_specs h xs (by omega) hb.2
    simp only [walkList, h1, h2, rewriteSpecs, bind_ok_eq]
    rfl


theorem walkSpec_call_succ {reg : Registry} {n : Nat} (ih : WalkSpec reg n) (x : CallExpr)
    (hc : costCallExpr x ≤ n + 1) (hb : everyCallExpr hasBody (fun _ => true) x = true) :
    walkCallExpr reg (n + 1) x = .ok (rewriteCallExpr reg x) := by
  cases x with
  | mk f l a e =>
    simp only [costCallExpr, everyCallExpr, Bool.and_eq_true] at hc hb
    simp only [walkCallExpr, visitorCallExpr, rewriteCallExpr, receiveOver_eq]
    simp (disch := first | omega | simp [hb]) only [ih.slot, walkSpec_slots ih, bind_ok_eq]
    rfl

theorem walkSpec_funcType_succ {reg : Registry} {n : Nat} (ih : WalkSpec reg n) (x : FuncType)
    (hc : costFuncType x ≤ n + 1) (hb : everyFuncType hasBody (fun _ => true) x = true) :
    walkFuncType reg (n + 1) x = .ok (rewriteFuncType reg x) := by
  cases x with
  | mk p r =>
    simp only [costFuncType, everyFuncType, Bool.and_eq_true] at hc hb
    simp only [walkFuncType, rewriteFuncType]
    simp (disch := first | omega | simp [hb]) only [walkSpec_optFieldList ih, bind_ok_eq]
    rfl

theorem walkSpec_fieldList_succ {reg : Registry} {n : Nat} (ih : WalkSpec reg n) (x : FieldList)
    (hc : costFieldList x ≤ n + 1) (hb : everyFieldList hasBody (fun _ => true) x = true) :
    walkFieldList reg (n + 1) x = .ok (rewriteFieldList reg x) := by
  cases x with
  | mk l =>
    simp only [costFieldList, everyFieldList] at hc hb
    simp only [walkFieldList, rewriteFieldList]
    simp (disch := first | omega | simp [hb]) only [walkSpec_fields ih, bind_ok_eq]
    rfl

theorem walkSpec_field_succ {reg : Registry} {n : Nat} (ih : WalkSpec reg n) (x : Field)
    (hc : costField x ≤ n + 1) (hb : everyField hasBody (fun _ => true) x = true) :
    walkField reg (n + 1) x = .ok (rewriteField reg x) := by
  cases x with
  | mk d ns t tag c =>
    simp only [costField, everyField] at hc hb
    simp only [walkField, visitorField, rewriteField, receiveOver_eq]
    simp (disch := first | omega | simp [hb]) only [ih.slot, bind_ok_eq]
    rfl

theorem walkSpec_block_succ {reg : Registry} {n : Nat} (ih : WalkSpec reg n) (x : BlockStmt)
    (hc : costBlockStmt x ≤ n + 1) (hb : everyBlockStmt hasBody (fun _ => true) x = true) :
    walkBlockStmt reg (n + 1) x = .ok (rewriteBlockStmt reg x) := by
  cases x with
  | mk l =>
    simp only [costBlockStmt, everyBlockStmt] at hc hb
    simp only [walkBlockStmt, rewriteBlockStmt]
    simp (disch := first | omega | simp [hb]) only [walkSpec_stmts ih, bind_ok_eq]
    rfl

theorem walkSpec_expr_succ {reg : Registry} {n : Nat} (ih : WalkSpec reg n) (x : Expr)
    (hc : costExpr x ≤ n + 1) (hb : everyExpr hasBody (fun _ => true) x = true) :
    walkExpr reg (n + 1) x = .ok (rewriteExpr reg x) := by
  cases x with
  | FuncLit t body =>
    cases body with
    | none => simp [everyExpr, hasBody] at hb
    | some b =>
      simp only [costExpr, costOptBlockStmt, everyExpr, everyOptBlockStmt,
        Bool.and_eq_true] at hc hb
      simp only [walkExpr, visitorExpr, rewriteExpr, receiveOver_eq, rewriteOptBlockStmt]
      simp (disch := first | omega | simp [hb]) only [ih.funcType, ih.block, bind_ok_eq]
      rfl
  | CallExpr c =>
    simp only [costExpr, everyExpr, Bool.and_eq_true] at hc hb
    rw [walkExpr_call, walkSpec_call_succ ih c (by omega) hb.2]
    rfl
  | FuncType t =>
    cases t with
    | mk p r =>
      simp only [costExpr, costFuncType, everyExpr, everyFuncType, Bool.and_eq_true] at hc hb
      simp only [walkExpr, visitorExpr, rewriteExpr, receiveOver_eq, rewriteFuncType]
      simp (disch := first | omega | simp [hb]) only [walkSpec_optFieldList ih, bind_ok_eq]
      rfl
  | _ =>
    simp only [costExpr, everyExpr, Bool.and_eq_true] at hc hb
    simp only [walkExpr, visitorExpr, rewriteExpr, receiveOver_eq]
    try simp (disch := first | omega | simp [hb]) only [ih.slot, walkSpec_optSlot ih, walkSpec_slots ih,
      ih.fieldList, bind_ok_eq]
    try rfl

theorem wrapInReceive_of_not_registered {reg : Registry} {x : Expr}
    (h : isRegisteredCall reg x = false) : wrapInReceive reg x = x := by
  unfold wrapInReceive
  split
  · rename_i c
    cases c with
    | mk f l a e =>
      simp only [CallExpr.Lparen, CallExpr.Fun]
      split
      · split
        · rename_i id hf
          simp only [isRegisteredCall] at h
          simp_all
        · rfl
      · rfl
  · rfl


theorem wrapInReceive_of_registered {reg : Registry} {id : Ident} {l : Pos} {a : List Expr}
    {e : Pos} (hl : l ≠ NoPos) (hr : reg id.Name = true) :
    wrapInReceive reg (.CallExpr (.mk (.Ident id) l a e)) =
      .UnaryExpr .ARROW (.CallExpr (.mk (.Ident id) NoPos a e)) := by
  simp [wrapInReceive, CallExpr.Lparen, CallExpr.Fun, hl, hr, callToReceiveCall,
    CallExpr.setLparen]

theorem isRegisteredCall_true {reg : Registry} {x : Expr} (h : isRegisteredCall reg x = true) :
    ∃ id l a e, x = .CallExpr (.mk (.Ident id) l a e) ∧ l ≠ NoPos ∧ reg id.Name = true := by
  cases x with
  | CallExpr c =>
    cases c with
    | mk f l a e =>
      cases f with
      | Ident id =>
        simp only [isRegisteredCall, Bool.and_eq_true, decide_eq_true_eq] at h
        exact ⟨id, l, a, e, rfl, h.1, h.2⟩
      | _ => simp [isRegisteredCall] at h
  | _ => simp [isRegisteredCall] at h

theorem wrapInReceive_ident (reg : Registry) (id : Ident) :
    wrapInReceive reg (.Ident id) = .Ident id := rfl

theorem isRegisteredCall_rewriteExpr (reg : Registry) (x : Expr) :
    isRegisteredCall reg (rewriteExpr reg x) = isRegisteredCall reg x := by
  cases x with
  | CallExpr c =>
    cases c with
    | mk f l a e =>
      cases f with
      | Ident id => simp [rewriteExpr, receiveOver_eq, rewriteCallExpr, wrapInReceive_ident, isRegisteredCall]
      | CallExpr c2 =>
        simp only [rewriteExpr, receiveOver_eq, rewriteCallExpr]
        cases hw : isRegisteredCall reg (.CallExpr (rewriteCallExpr reg c2)) with
        | false => rw [wrapInReceive_of_not_registered hw]; simp [isRegisteredCall]
        | true =>
          obtain ⟨id, l2, a2, e2, hx, hl, hr⟩ := isRegisteredCall_true hw
          rw [hx, wrapInReceive_of_registered hl hr]; simp [isRegisteredCall]
      | _ => simp [rewriteExpr, receiveOver_eq, rewriteCallExpr, wrapInReceive, isRegisteredCall]
  | _ => simp [rewriteExpr, receiveOver_eq, isRegisteredCall]

theorem walkSpec_slot_succ {reg : Registry} {n : Nat} (ih : WalkSpec reg n) (x : Expr)
    (hc : costExpr x ≤ n + 1) (hb : everyExpr hasBody (fun _ => true) x = true) :
    walkExpr reg (n + 1) (wrapInReceive reg x) =
      .ok (wrapInReceive reg (rewriteExpr reg x)) := by
  cases hw : isRegisteredCall reg x with
  | false =>
    have hw2 : isRegisteredCall reg (rewriteExpr reg x) = false := by
      rw [isRegisteredCall_rewriteExpr, hw]
    rw [wrapInReceive_of_not_registered hw, wrapInReceive_of_not_registered hw2]
    exact walkSpec_expr_succ ih x hc hb
  | true =>
    obtain ⟨id, l, a, e, hx, hl, hr⟩ := isRegisteredCall_true hw
    subst hx
    simp only [costExpr, costCallExpr, everyExpr, everyCallExpr, Bool.and_eq_true] at hc hb
    have hcall := ih.call (.mk (.Ident id) NoPos a e)
      (by simp only [costCallExpr, costExpr]; omega)
      (by simp [everyCallExpr, everyExpr, hasBody, hb])
    have hnot : wrapInReceive reg (.CallExpr (.mk (.Ident id) NoPos a e)) =
        .CallExpr (.mk (.Ident id) NoPos a e) := by
      simp [wrapInReceive, CallExpr.Lparen]
    simp only [rewriteExpr, receiveOver_eq, rewriteCallExpr, wrapInReceive_ident,
      wrapInReceive_of_registered hl hr]
    simp only [walkExpr, visitorExpr, hnot, walkExpr_call, hcall, rewriteCallExpr, receiveOver_eq,
      wrapInReceive_ident, Except.map, bind_ok_eq]
    rfl

theorem walkSpec_stmt_succ {reg : Registry} {n : Nat} (ih : WalkSpec reg n) (x : Stmt)
    (hc : costStmt x ≤ n + 1) (hb : everyStmt hasBody (fun _ => true) x = true) :
    walkStmt reg (n + 1) x = .ok (rewriteStmt reg x) := by
  cases x with
  | BlockStmt b =>
    cases b with
    | mk l =>
      simp only [costStmt, costBlockStmt, everyStmt, everyBlockStmt] at hc hb
      simp only [walkStmt, visitorStmt, rewriteStmt, receiveOver_eq, rewriteBlockStmt]
      simp (disch := first | omega | simp [hb]) only [walkSpec_stmts ih, bind_ok_eq]
      rfl
  | _ =>
    simp only [costStmt, everyStmt, Bool.and_eq_true] at hc hb
    simp only [walkStmt, visitorStmt, rewriteStmt, receiveOver_eq]
    try simp (disch := first | omega | simp [hb]) only [ih.slot, walkSpec_optSlot ih, walkSpec_slots ih,
      ih.call, ih.decl, ih.stmt, walkSpec_optStmt ih, walkSpec_stmts ih, ih.block, bind_ok_eq]
    try rfl

theorem walkSpec_spec_succ {reg : Registry} {n : Nat} (ih : WalkSpec reg n) (x : Spec)
    (hc : costSpec x ≤ n + 1) (hb : everySpec hasBody (fun _ => true) x = true) :
    walkSpec reg (n + 1) x = .ok (rewriteSpec reg x) := by
  cases x <;> simp only [costSpec, everySpec, Bool.and_eq_true] at hc hb <;>
    simp only [walkSpec, visitorSpec, rewriteSpec, receiveOver_eq] <;>
    (try simp (disch := first | omega | simp [hb]) only [ih.slot, walkSpec_optSlot ih, walkSpec_slots ih,
      bind_ok_eq]) <;>
    rfl

theorem walkSpec_funcDecl_succ {reg : Registry} {n : Nat} (ih : WalkSpec reg n) (x : FuncDecl)
    (hc : costFuncDecl x ≤ n + 1) (hb : everyFuncDecl hasBody (fun _ => true) x = true) :
    walkFuncDecl reg (n + 1) x = .ok (rewriteFuncDecl reg x) := by
  cases x with
  | mk d r nm t b =>
    simp only [costFuncDecl, everyFuncDecl, Bool.and_eq_true] at hc hb
    simp only [walkFuncDecl, rewriteFuncDecl]
    simp (disch := first | omega | simp [hb]) only [walkSpec_optFieldList ih, ih.funcType, walkSpec_optBlock ih,
      bind_ok_eq]
    rfl

theorem walkSpec_decl_succ {reg : Registry} {n : Nat} (ih : WalkSpec reg n) (x : Decl)
    (hc : costDecl x ≤ n + 1) (hb : everyDecl hasBody (fun _ => true) x = true) :
    walkDecl reg (n + 1) x = .ok (rewriteDecl reg x) := by
  cases x with
  | BadDecl => rfl
  | GenDecl d tok specs =>
    simp only [costDecl, everyDecl] at hc hb
    simp only [walkDecl, rewriteDecl]
    simp (disch := first | omega | simp [hb]) only [walkSpec_specs ih, bind_ok_eq]
    rfl
  | FuncDecl f =>
    cases f with
    | mk d r nm t b =>
      simp only [costDecl, costFuncDecl, everyDecl, everyFuncDecl, Bool.and_eq_true] at hc hb
      simp only [walkDecl, rewriteDecl, rewriteFuncDecl]
      simp (disch := first | omega | simp [hb]) only [walkSpec_optFieldList ih, ih.funcType,
        walkSpec_optBlock ih, bind_ok_eq]
      rfl

theorem costExpr_pos (x : Expr) : 1 ≤ costExpr x := by
  cases x with
  | FuncType t => cases t; simp only [costExpr, costFuncType]; omega
  | _ => simp only [costExpr]; omega

theorem costStmt_pos (x : Stmt) : 1 ≤ costStmt x := by
  cases x with
  | BlockStmt b => cases b; simp only [costStmt, costBlockStmt]; omega
  | _ => simp only [costStmt]; omega

theorem costDecl_pos (x : Decl) : 1 ≤ costDecl x := by
  cases x with
  | FuncDecl f => cases f; simp only [costDecl, costFuncDecl]; omega
  | _ => simp only [costDecl]; omega

theorem walkSpec_zero (reg : Registry) : WalkSpec reg 0 where
  expr x hc _ := by have := costExpr_pos x; omega
  slot x hc _ := by have := costExpr_pos x; omega
  call x hc _ := by cases x; simp only [costCallExpr] at hc; omega
  funcType x hc _ := by cases x; simp only [costFuncType] at hc; omega
  fieldList x hc _ := by cases x; simp only [costFieldList] at hc; omega
  field x hc _ := by cases x; simp only [costField] at hc; omega
  block x hc _ := by cases x; simp only [costBlockStmt] at hc; omega
  stmt x hc _ := by have := costStmt_pos x; omega
  spec x hc _ := by cases x <;> simp only [costSpec] at hc <;> omega
  funcDecl x hc _ := by cases x; simp only [costFuncDecl] at hc; omega
  decl x hc _ := by have := costDecl_pos x; omega

theorem walkSpec_succ {reg : Registry} {n : Nat} (ih : WalkSpec reg n) : WalkSpec reg (n + 1) where
  expr := walkSpec_expr_succ ih
  slot := walkSpec_slot_succ ih
  call := walkSpec_call_succ ih
  funcType := walkSpec_funcType_succ ih
  fieldList := walkSpec_fieldList_succ ih
  field := walkSpec_field_succ ih
  block := walkSpec_block_succ ih
  stmt := walkSpec_stmt_succ ih
  spec := walkSpec_spec_succ ih
  funcDecl := walkSpec_funcDecl_succ ih
  decl := walkSpec_decl_succ ih

/-- At every fuel, walking a node that fits in the fuel and has no function literal
without body gives its specification-side rewrite. -/
theorem walkSpec_all (reg : Registry) : ∀ n, WalkSpec reg n
  | 0 => walkSpec_zero reg
  | n + 1 => walkSpec_succ (walkSpec_all reg n)

/-! ## The scan loop -/

theorem increaseSpeed_of_eligible {f : FuncDecl} (h : eligible f = true) :
    ∃ res, increaseSpeed f = .ok res := by
  cases f with
  | mk d r nm t b =>
    cases t with
    | mk p rs =>
      cases rs with
      | none => simp [eligible, FuncDecl.Type_, FuncType.Results] at h
      | some fl =>
        cases fl with
        | mk l =>
          cases l with
          | nil => simp [eligible, FuncDecl.Type_, FuncType.Results, FieldList.List_] at h
          | cons x xs =>
            exact ⟨_, by simp [increaseSpeed, FuncDecl.Type_, FuncType.Results, FieldList.List_]; rfl⟩

theorem scanStep_funcDecl (reg : Registry) (f : FuncDecl) :
    scanStep reg (.FuncDecl f) =
      if eligible f then
        (increaseSpeed f).map (fun res => (reg.setTrue f.Name.Name, Decl.FuncDecl res))
      else .ok (reg, .FuncDecl f) := by
  cases f with
  | mk d r nm t b =>
    cases t with
    | mk p rs =>
      cases r with
      | some r => rfl
      | none =>
        cases rs with
        | none => rfl
        | some fl =>
          by_cases hl : fl.List_.length = 1
          · simp only [scanStep, eligible, FuncDecl.Recv, FuncDecl.Type_, FuncType.Results,
              Option.isNone, hl, if_true, decide_True, Bool.and_self]
            cases increaseSpeed (.mk d none nm (.mk p (some fl)) b) <;> rfl
          · simp only [scanStep, eligible, FuncDecl.Recv, FuncDecl.Type_, FuncType.Results,
              Option.isNone, hl, if_false, decide_False, Bool.and_false]
            rfl

theorem scanStep_eq (reg : Registry) (decl : Decl) :
    scanStep reg decl = .ok (scanRegistry reg [decl], scanDecl decl) := by
  cases decl with
  | FuncDecl f =>
    rw [scanStep_funcDecl]
    cases he : eligible f with
    | false => simp [scanRegistry, scanDecl, he]
    | true =>
      obtain ⟨res, hres⟩ := increaseSpeed_of_eligible he
      simp [scanRegistry, scanDecl, he, hres, Except.map]
  | _ => rfl

theorem scanRegistry_cons (reg : Registry) (decl : Decl) (decls : List Decl) :
    scanRegistry reg (decl :: decls) = scanRegistry (scanRegistry reg [decl]) decls := by
  cases decl <;> rfl

/-- The scan loop never fails; it yields the registry `scanRegistry` and replaces
every declaration by its `scanDecl`. -/
theorem scanPhase_eq (reg : Registry) (decls : List Decl) :
    scanPhase reg decls = .ok (scanRegistry reg decls, decls.map scanDecl) := by
  induction decls generalizing reg with
  | nil => rfl
  | cons d ds ih =>
    rw [scanPhase, scanStep_eq, bind_ok_eq]
    simp only [ih, bind_ok_eq, List.map]
    rw [scanRegistry_cons reg d ds]
    rfl

/-- A name has an entry in the registry after the scan loop exactly when it had one
before or the loop met an eligible function declaration of that name. -/
theorem scanRegistry_true (reg : Registry) (decls : List Decl) (name : String) :
    scanRegistry reg decls name = true ↔
      reg name = true ∨
        ∃ f, Decl.FuncDecl f ∈ decls ∧ eligible f = true ∧ f.Name.Name = name := by
  induction decls generalizing reg with
  | nil => simp [scanRegistry]
  | cons d ds ih =>
    cases d with
    | FuncDecl f =>
      simp only [scanRegistry, ih, List.mem_cons]
      cases he : eligible f with
      | false =>
        simp only [Bool.false_eq_true, if_false]
        constructor
        · rintro (h | ⟨g, hg, hge, hgn⟩)
          · exact Or.inl h
          · exact Or.inr ⟨g, Or.inr hg, hge, hgn⟩
        · rintro (h | ⟨g, hg | hg, hge, hgn⟩)
          · exact Or.inl h
          · cases hg; rw [he] at hge; cases hge
          · exact Or.inr ⟨g, hg, hge, hgn⟩
      | true =>
        simp only [if_true, Registry.setTrue]
        constructor
        · rintro (h | ⟨g, hg, hge, hgn⟩)
          · by_cases hn : name = f.Name.Name
            · exact Or.inr ⟨f, Or.inl rfl, he, hn.symm⟩
            · simp [hn] at h; exact Or.inl h
          · exact Or.inr ⟨g, Or.inr hg, hge, hgn⟩
        · rintro (h | ⟨g, hg | hg, hge, hgn⟩)
          · by_cases hn : name = f.Name.Name
            · simp [hn]
            · simp [hn, h]
          · cases hg; left; simp [hgn]
          · exact Or.inr ⟨g, hg, hge, hgn⟩
    | BadDecl =>
      simp only [scanRegistry, ih, List.mem_cons]
      constructor
      · rintro (h | ⟨g, hg, hge, hgn⟩)
        · exact Or.inl h
        · exact Or.inr ⟨g, Or.inr hg, hge, hgn⟩
      · rintro (h | ⟨g, hg | hg, hge, hgn⟩)
        · exact Or.inl h
        · cases hg
        · exact Or.inr ⟨g, hg, hge, hgn⟩
    | GenDecl a b c =>
      simp only [scanRegistry, ih, List.mem_cons]
      constructor
      · rintro (h | ⟨g, hg, hge, hgn⟩)
        · exact Or.inl h
        · exact Or.inr ⟨g, Or.inr hg, hge, hgn⟩
      · rintro (h | ⟨g, hg | hg, hge, hgn⟩)
        · exact Or.inl h
        · cases hg
        · exact Or.inr ⟨g, hg, hge, hgn⟩

theorem eligible_iff (f : FuncDecl) :
    eligible f = true ↔
      f.Recv = none ∧ ∃ results, f.Type_.Results = some results ∧ results.List_.length = 1 := by
  unfold eligible
  cases hr : f.Recv with
  | some r => simp
  | none =>
    cases hrs : f.Type_.Results with
    | none => simp
    | some rs => simp


/-- The result of `increaseSpeed` on a declaration whose result list starts with
`field`. -/
theorem increaseSpeed_eq (f : FuncDecl) (field : Field) (rest : List Field)
    (hres : f.Type_.Results = some (.mk (field :: rest))) :
    increaseSpeed f = .ok (.mk f.Doc f.Recv f.Name
      (.mk f.Type_.Params
        (some (.mk [.mk none [] (typeToChanType field.Type_) none none])))
      (some (.mk [
        .AssignStmt [.Ident resultIdent] .DEFINE
          [.CallExpr (.mk (.Ident (NewIdent "make")) NoPos
            [typeToChanType field.Type_] NoPos)],
        .GoStmt (.mk
          (.FuncLit (.mk (some (.mk [])) none)
            (some (.mk [
              .SendStmt (.Ident resultIdent)
                (.CallExpr (.mk (.FuncLit (.mk none f.Type_.Results) f.Body)
                  NoPos [] NoPos))])))
          NoPos [] NoPos),
        .ReturnStmt [.Ident resultIdent]]))) := by
  simp only [increaseSpeed, hres, FieldList.List_]

/-! ## After the rewrite no call in an expression position is left to wrap -/

theorem covered_optSlot {reg : Registry} {n : Nat} (h : Covered reg n) :
    ∀ o, costOptExpr o ≤ n →
    everyOptExpr (notRegistered reg) (fun _ => true) (rewriteOptExpr reg o) = true
  | none, _ => rfl
  | some x, hc => by
    simp only [costOptExpr] at hc
    simp only [rewriteOptExpr, receiveOver_eq, everyOptExpr, h.slot x hc]

theorem covered_slots {reg : Registry} {n : Nat} (h : Covered reg n) :
    ∀ xs, costExprs xs ≤ n →
    everyExprs (notRegistered reg) (fun _ => true) (rewriteExprs reg xs) = true
  | [], _ => rfl
  | x :: xs, hc => by
    simp only [costExprs] at hc
    simp only [rewriteExprs, receiveOver_eq, everyExprs, h.slot x (by omega), covered_slots h xs (by omega),
      Bool.and_self]

theorem covered_optFieldList {reg : Registry} {n : Nat} (h : Covered reg n) :
    ∀ o, costOptFieldList o ≤ n →
    everyOptFieldList (notRegistered reg) (fun _ => true) (rewriteOptFieldList reg o) = true
  | none, _ => rfl
  | some x, hc => by
    simp only [costOptFieldList] at hc
    simp only [rewriteOptFieldList, everyOptFieldList, h.fieldList x hc]

theorem covered_fields {reg : Registry} {n : Nat} (h : Covered reg n) :
    ∀ xs, costFields xs ≤ n →
    everyFields (notRegistered reg) (fun _ => true) (rewriteFields reg xs) = true
  | [], _ => rfl
  | x :: xs, hc => by
    simp only [costFields] at hc
    simp only [rewriteFields, everyFields, h.field x (by omega), covered_fields h xs (by omega),
      Bool.and_self]

theorem covered_optBlock {reg : Registry} {n : Nat} (h : Covered reg n) :
    ∀ o, costOptBlockStmt o ≤ n →
    everyOptBlockStmt (notRegistered reg) (fun _ => true) (rewriteOptBlockStmt reg o) = true
  | none, _ => rfl
  | some x, hc => by
    simp only [costOptBlockStmt] at hc
    simp only [rewriteOptBlockStmt, everyOptBlockStmt, h.block x hc]

theorem covered_optStmt {reg : Registry} {n : Nat} (h : Covered reg n) :
    ∀ o, costOptStmt o ≤ n →
    everyOptStmt (notRegistered reg) (fun _ => true) (rewriteOptStmt reg o) = true
  | none, _ => rfl
  | some x, hc => by
    simp only [costOptStmt] at hc
    simp only [rewriteOptStmt, everyOptStmt, h.stmt x hc]

theorem covered_stmts {reg : Registry} {n : Nat} (h : Covered reg n) :
    ∀ xs, costStmts xs ≤ n →
    everyStmts (notRegistered reg) (fun _ => true) (rewriteStmts reg xs) = true
  | [], _ => rfl
  | x :: xs, hc => by
    simp only [costStmts] at hc
    simp only [rewriteStmts, everyStmts, h.stmt x (by omega), covered_stmts h xs (by omega),
      Bool.and_self]

theorem covered_specs {reg : Registry} {n : Nat} (h : Covered reg n) :
    ∀ xs, costSpecs xs ≤ n →
    everySpecs (notRegistered reg) (fun _ => true) (rewriteSpecs reg xs) = true
  | [], _ => rfl
  | x :: xs, hc => by
    simp only [costSpecs] at hc
    simp only [rewriteSpecs, everySpecs, h.spec x (by omega), covered_specs h xs (by omega),
      Bool.and_self]

theorem covered_call_succ {reg : Registry} {n : Nat} (ih : Covered reg n) (x : CallExpr)
    (hc : costCallExpr x ≤ n + 1) :
    everyCallExpr (notRegistered reg) (fun _ => true) (rewriteCallExpr reg x) = true := by
  cases x with
  | mk f l a e =>
    simp only [costCallExpr] at hc
    simp only [rewriteCallExpr, receiveOver_eq, everyCallExpr]
    simp (disch := omega) only [ih.slot, covered_slots ih, Bool.and_self]

theorem covered_expr_succ {reg : Registry} {n : Nat} (ih : Covered reg n) (x : Expr)
    (hc : costExpr x ≤ n + 1) (hw : isRegisteredCall reg x = false) :
    everyExpr (notRegistered reg) (fun _ => true) (rewriteExpr reg x) = true := by
  have hroot : notRegistered reg (rewriteExpr reg x) = true := by
    simp [notRegistered, isRegisteredCall_rewriteExpr, hw]
  cases x with
  | CallExpr c =>
    simp only [costExpr] at hc
    simp only [rewriteExpr, receiveOver_eq] at hroot
    simp only [rewriteExpr, receiveOver_eq, everyExpr, hroot, covered_call_succ ih c (by omega), Bool.and_self]
  | FuncType t =>
    cases t with
    | mk p r =>
      simp only [costExpr, costFuncType] at hc
      simp only [rewriteExpr, receiveOver_eq, rewriteFuncType] at hroot
      simp only [rewriteExpr, receiveOver_eq, rewriteFuncType, everyExpr, everyFuncType, hroot]
      simp (disch := omega) only [covered_optFieldList ih, Bool.and_self]
  | _ =>
    simp only [costExpr] at hc
    simp only [rewriteExpr, receiveOver_eq] at hroot
    simp only [rewriteExpr, receiveOver_eq, everyExpr, hroot]
    try simp (disch := omega) only [ih.slot, covered_optSlot ih, covered_slots ih, ih.funcType,
      ih.fieldList, covered_optBlock ih, Bool.and_self]

theorem covered_slot_succ {reg : Registry} {n : Nat} (ih : Covered reg n) (x : Expr)
    (hc : costExpr x ≤ n + 1) :
    everyExpr (notRegistered reg) (fun _ => true)
      (wrapInReceive reg (rewriteExpr reg x)) = true := by
  cases hw : isRegisteredCall reg x with
  | false =>
    have hw2 : isRegisteredCall reg (rewriteExpr reg x) = false := by
      rw [isRegisteredCall_rewriteExpr, hw]
    rw [wrapInReceive_of_not_registered hw2]
    exact covered_expr_succ ih x hc hw
  | true =>
    obtain ⟨id, l, a, e, hx, hl, hr⟩ := isRegisteredCall_true hw
    subst hx
    simp only [costExpr, costCallExpr] at hc
    simp only [rewriteExpr, receiveOver_eq, rewriteCallExpr, wrapInReceive_ident,
      wrapInReceive_of_registered hl hr]
    simp only [everyExpr, everyCallExpr, covered_slots ih a (by omega)]
    simp [notRegistered, isRegisteredCall, NoPos]

theorem covered_funcType_succ {reg : Registry} {n : Nat} (ih : Covered reg n) (x : FuncType)
    (hc : costFuncType x ≤ n + 1) :
    everyFuncType (notRegistered reg) (fun _ => true) (rewriteFuncType reg x) = true := by
  cases x with
  | mk p r =>
    simp only [costFuncType] at hc
    simp only [rewriteFuncType, everyFuncType]
    simp (disch := omega) only [covered_optFieldList ih, Bool.and_self]

theorem covered_fieldList_succ {reg : Registry} {n : Nat} (ih : Covered reg n) (x : FieldList)
    (hc : costFieldList x ≤ n + 1) :
    everyFieldList (notRegistered reg) (fun _ => true) (rewriteFieldList reg x) = true := by
  cases x with
  | mk l =>
    simp only [costFieldList] at hc
    simp only [rewriteFieldList, everyFieldList]
    simp (disch := omega) only [covered_fields ih]

theorem covered_field_succ {reg : Registry} {n : Nat} (ih : Covered reg n) (x : Field)
    (hc : costField x ≤ n + 1) :
    everyField (notRegistered reg) (fun _ => true) (rewriteField reg x) = true := by
  cases x with
  | mk d ns t tag c =>
    simp only [costField] at hc
    simp only [rewriteField, receiveOver_eq, everyField]
    simp (disch := omega) only [ih.slot]

theorem covered_block_succ {reg : Registry} {n : Nat} (ih : Covered reg n) (x : BlockStmt)
    (hc : costBlockStmt x ≤ n + 1) :
    everyBlockStmt (notRegistered reg) (fun _ => true) (rewriteBlockStmt reg x) = true := by
  cases x with
  | mk l =>
    simp only [costBlockStmt] at hc
    simp only [rewriteBlockStmt, everyBlockStmt]
    simp (disch := omega) only [covered_stmts ih]

theorem covered_stmt_succ {reg : Registry} {n : Nat} (ih : Covered reg n) (x : Stmt)
    (hc : costStmt x ≤ n + 1) :
    everyStmt (notRegistered reg) (fun _ => true) (rewriteStmt reg x) = true := by
  cases x with
  | BlockStmt b =>
    cases b with
    | mk l =>
      simp only [costStmt, costBlockStmt] at hc
      simp only [rewriteStmt, receiveOver_eq, rewriteBlockStmt, everyStmt, everyBlockStmt]
      simp (disch := omega) only [covered_stmts ih]
  | _ =>
    simp only [costStmt] at hc
    simp only [rewriteStmt, receiveOver_eq, everyStmt]
    try simp (disch := omega) only [ih.slot, covered_optSlot ih, covered_slots ih, ih.call, ih.decl, ih.stmt,
      covered_optStmt ih, covered_stmts ih, ih.block, Bool.and_self]

theorem covered_spec_succ {reg : Registry} {n : Nat} (ih : Covered reg n) (x : Spec)
    (hc : costSpec x ≤ n + 1) :
    everySpec (notRegistered reg) (fun _ => true) (rewriteSpec reg x) = true := by
  cases x <;> simp only [costSpec] at hc <;> simp only [rewriteSpec, receiveOver_eq, everySpec] <;>
    simp (disch := omega) only [ih.slot, covered_optSlot ih, covered_slots ih, Bool.and_self]

theorem covered_funcDecl_succ {reg : Registry} {n : Nat} (ih : Covered reg n) (x : FuncDecl)
    (hc : costFuncDecl x ≤ n + 1) :
    everyFuncDecl (notRegistered reg) (fun _ => true) (rewriteFuncDecl reg x) = true := by
  cases x with
  | mk d r nm t b =>
    simp only [costFuncDecl] at hc
    simp only [rewriteFuncDecl, everyFuncDecl]
    simp (disch := omega) only [covered_optFieldList ih, ih.funcType, covered_optBlock ih, Bool.and_self]

theorem covered_decl_succ {reg : Registry} {n : Nat} (ih : Covered reg n) (x : Decl)
    (hc : costDecl x ≤ n + 1) :
    everyDecl (notRegistered reg) (fun _ => true) (rewriteDecl reg x) = true := by
  cases x with
  | BadDecl => rfl
  | GenDecl d tok specs =>
    simp only [costDecl] at hc
    simp only [rewriteDecl, everyDecl]
    simp (disch := omega) only [covered_specs ih]
  | FuncDecl f =>
    cases f with
    | mk d r nm t b =>
      simp only [costDecl, costFuncDecl] at hc
      simp only [rewriteDecl, rewriteFuncDecl, everyDecl, everyFuncDecl]
      simp (disch := omega) only [covered_optFieldList ih, ih.funcType, covered_optBlock ih, Bool.and_self]

theorem covered_zero (reg : Registry) : Covered reg 0 where
  slot x hc := by have := costExpr_pos x; omega
  call x hc := by cases x; simp only [costCallExpr] at hc; omega
  funcType x hc := by cases x; simp only [costFuncType] at hc; omega
  fieldList x hc := by cases x; simp only [costFieldList] at hc; omega
  field x hc := by cases x; simp only [costField] at hc; omega
  block x hc := by cases x; simp only [costBlockStmt] at hc; omega
  stmt x hc := by have := costStmt_pos x; omega
  spec x hc := by cases x <;> simp only [costSpec] at hc <;> omega
  funcDecl x hc := by cases x; simp only [costFuncDecl] at hc; omega
  decl x hc := by have := costDecl_pos x; omega

theorem covered_succ {reg : Registry} {n : Nat} (ih : Covered reg n) : Covered reg (n + 1) where
  slot := covered_slot_succ ih
  call := covered_call_succ ih
  funcType := covered_funcType_succ ih
  fieldList := covered_fieldList_succ ih
  field := covered_field_succ ih
  block := covered_block_succ ih
  stmt := covered_stmt_succ ih
  spec := covered_spec_succ ih
  funcDecl := covered_funcDecl_succ ih
  decl := covered_decl_succ ih

/-- After the specification-side rewrite, no expression node of the tree is a
parenthesized direct call of a registered name. -/
theorem covered_all (reg : Registry) : ∀ n, Covered reg n
  | 0 => covered_zero reg
  | n + 1 => covered_succ (covered_all reg n)



/-! ## The rewrite only inserts receive wrappers -/

theorem erased_optSlot {reg : Registry} {n : Nat} (h : Erased reg n) :
    ∀ o, costOptExpr o ≤ n → unwrapOptExpr reg (rewriteOptExpr reg o) = unwrapOptExpr reg o
  | none, _ => rfl
  | some x, hc => by
    simp only [costOptExpr] at hc
    simp only [rewriteOptExpr, receiveOver_eq, unwrapOptExpr, h.slot x hc]

theorem erased_optFieldList {reg : Registry} {n : Nat} (h : Erased reg n) :
    ∀ o, costOptFieldList o ≤ n → unwrapOptFieldList reg (rewriteOptFieldList reg o) = unwrapOptFieldList reg o
  | none, _ => rfl
  | some x, hc => by
    simp only [costOptFieldList] at hc
    simp only [rewriteOptFieldList, unwrapOptFieldList, h.fieldList x hc]

theorem erased_optBlock {reg : Registry} {n : Nat} (h : Erased reg n) :
    ∀ o, costOptBlockStmt o ≤ n → unwrapOptBlockStmt reg (rewriteOptBlockStmt reg o) = unwrapOptBlockStmt reg o
  | none, _ => rfl
  | some x, hc => by
    simp only [costOptBlockStmt] at hc
    simp only [rewriteOptBlockStmt, unwrapOptBlockStmt, h.block x hc]

theorem erased_optStmt {reg : Registry} {n : Nat} (h : Erased reg n) :
    ∀ o, costOptStmt o ≤ n → unwrapOptStmt reg (rewriteOptStmt reg o) = unwrapOptStmt reg o
  | none, _ => rfl
  | some x, hc => by
    simp only [costOptStmt] at hc
    simp only [rewriteOptStmt, unwrapOptStmt, h.stmt x hc]

theorem erased_slots {reg : Registry} {n : Nat} (h : Erased reg n) :
    ∀ xs, costExprs xs ≤ n → unwrapExprs reg (rewriteExprs reg xs) = unwrapExprs reg xs
  | [], _ => rfl
  | x :: xs, hc => by
    simp only [costExprs] at hc
    simp only [rewriteExprs, receiveOver_eq, unwrapExprs, h.slot x (by omega), erased_slots h xs (by omega)]

theorem erased_fields {reg : Registry} {n : Nat} (h : Erased reg n) :
    ∀ xs, costFields xs ≤ n → unwrapFields reg (rewriteFields reg xs) = unwrapFields reg xs
  | [], _ => rfl
  | x :: xs, hc => by
    simp only [costFields] at hc
    simp only [rewriteFields, unwrapFields, h.field x (by omega), erased_fields h xs (by omega)]

theorem erased_stmts {reg : Registry} {n : Nat} (h : Erased reg n) :
    ∀ xs, costStmts xs ≤ n → unwrapStmts reg (rewriteStmts reg xs) = unwrapStmts reg xs
  | [], _ => rfl
  | x :: xs, hc => by
    simp only [costStmts] at hc
    simp only [rewriteStmts, unwrapStmts, h.stmt x (by omega), erased_stmts h xs (by omega)]

theorem erased_specs {reg : Registry} {n : Nat} (h : Erased reg n) :
    ∀ xs, costSpecs xs ≤ n → unwrapSpecs reg (rewriteSpecs reg xs) = unwrapSpecs reg xs
  | [], _ => rfl
  | x :: xs, hc => by
    simp only [costSpecs] at hc
    simp only [rewriteSpecs, unwrapSpecs, h.spec x (by omega), erased_specs h xs (by omega)]

theorem wrapInReceive_cases (reg : Registry) (y : Expr) :
    (isRegisteredCall reg y = false ∧ wrapInReceive reg y = y) ∨
      ∃ id l a e, y = .CallExpr (.mk (.Ident id) l a e) ∧ l ≠ NoPos ∧ reg id.Name = true ∧
        wrapInReceive reg y = .UnaryExpr .ARROW (.CallExpr (.mk (.Ident id) NoPos a e)) := by
  cases hw : isRegisteredCall reg y with
  | false => exact Or.inl ⟨rfl, wrapInReceive_of_not_registered hw⟩
  | true =>
    obtain ⟨id, l, a, e, hx, hl, hr⟩ := isRegisteredCall_true hw
    exact Or.inr ⟨id, l, a, e, hx, hl, hr, by rw [hx, wrapInReceive_of_registered hl hr]⟩

theorem isRegisteredIdent_slot (reg : Registry) (f : Expr) :
    isRegisteredIdent reg (wrapInReceive reg (rewriteExpr reg f)) = isRegisteredIdent reg f := by
  rcases wrapInReceive_cases reg (rewriteExpr reg f) with ⟨-, h⟩ | ⟨id, l, a, e, hy, -, -, h⟩
  · rw [h]
    cases f <;> rfl
  · rw [h]
    cases f <;> first | rfl | (simp [rewriteExpr, receiveOver_eq] at hy)

theorem isClearedCall_rewriteExpr (reg : Registry) (x : Expr) :
    isClearedCall reg (rewriteExpr reg x) = isClearedCall reg x := by
  cases x with
  | CallExpr c =>
    cases c with
    | mk f l a e =>
      cases f with
      | Ident id => simp [rewriteExpr, receiveOver_eq, rewriteCallExpr, wrapInReceive_ident, isClearedCall]
      | CallExpr c2 =>
        simp only [rewriteExpr, receiveOver_eq, rewriteCallExpr]
        rcases wrapInReceive_cases reg (.CallExpr (rewriteCallExpr reg c2)) with
          ⟨-, h⟩ | ⟨id, l2, a2, e2, -, -, -, h⟩
        · rw [h]; simp [isClearedCall]
        · rw [h]; simp [isClearedCall]
      | _ => simp [rewriteExpr, receiveOver_eq, rewriteCallExpr, wrapInReceive, isClearedCall]
  | _ => simp [rewriteExpr, receiveOver_eq, isClearedCall]

theorem isClearedCall_slot (reg : Registry) (x : Expr) :
    isClearedCall reg (wrapInReceive reg (rewriteExpr reg x)) = isClearedCall reg x := by
  rcases wrapInReceive_cases reg (rewriteExpr reg x) with ⟨-, h⟩ | ⟨id, l, a, e, hy, hl, -, h⟩
  · rw [h, isClearedCall_rewriteExpr]
  · rw [h, ← isClearedCall_rewriteExpr reg x, hy]
    simp [isClearedCall, hl]

theorem erased_call_succ {reg : Registry} {n : Nat} (ih : Erased reg n) (x : CallExpr)
    (hc : costCallExpr x ≤ n + 1) :
    unwrapCallExpr reg (rewriteCallExpr reg x) = unwrapCallExpr reg x := by
  cases x with
  | mk f l a e =>
    simp only [costCallExpr] at hc
    simp only [rewriteCallExpr, receiveOver_eq, unwrapCallExpr, isRegisteredIdent_slot]
    simp (disch := omega) only [ih.slot, erased_slots ih]

theorem erased_expr_succ {reg : Registry} {n : Nat} (ih : Erased reg n) (x : Expr)
    (hc : costExpr x ≤ n + 1) :
    unwrapExpr reg (rewriteExpr reg x) = unwrapExpr reg x := by
  cases x with
  | CallExpr c =>
    simp only [costExpr] at hc
    simp only [rewriteExpr, receiveOver_eq, unwrapExpr, erased_call_succ ih c (by omega)]
  | FuncType t =>
    cases t with
    | mk p r =>
      simp only [costExpr, costFuncType] at hc
      simp only [rewriteExpr, receiveOver_eq, rewriteFuncType, unwrapExpr, unwrapFuncType]
      simp (disch := omega) only [erased_optFieldList ih]
  | _ =>
    simp only [costExpr] at hc
    simp only [rewriteExpr, receiveOver_eq, unwrapExpr, isClearedCall_slot]
    try simp (disch := omega) only [ih.slot, erased_optSlot ih, erased_slots ih, ih.funcType,
      ih.fieldList, erased_optBlock ih]

theorem erased_slot_succ {reg : Registry} {n : Nat} (ih : Erased reg n) (x : Expr)
    (hc : costExpr x ≤ n + 1) :
    unwrapExpr reg (wrapInReceive reg (rewriteExpr reg x)) = unwrapExpr reg x := by
  rcases wrapInReceive_cases reg (rewriteExpr reg x) with ⟨-, h⟩ | ⟨id, l, a, e, hy, hl, hr, h⟩
  · rw [h]
    exact erased_expr_succ ih x hc
  · rw [h, ← erased_expr_succ ih x hc, hy]
    simp only [unwrapExpr, unwrapCallExpr, isClearedCall, isRegisteredIdent, hr, decide_True,
      Bool.and_self, if_true]

theorem erased_funcType_succ {reg : Registry} {n : Nat} (ih : Erased reg n) (x : FuncType)
    (hc : costFuncType x ≤ n + 1) :
    unwrapFuncType reg (rewriteFuncType reg x) = unwrapFuncType reg x := by
  cases x with
  | mk p r =>
    simp only [costFuncType] at hc
    simp only [rewriteFuncType, unwrapFuncType]
    simp (disch := omega) only [erased_optFieldList ih]

theorem erased_fieldList_succ {reg : Registry} {n : Nat} (ih : Erased reg n) (x : FieldList)
    (hc : costFieldList x ≤ n + 1) :
    unwrapFieldList reg (rewriteFieldList reg x) = unwrapFieldList reg x := by
  cases x with
  | mk l =>
    simp only [costFieldList] at hc
    simp only [rewriteFieldList, unwrapFieldList]
    simp (disch := omega) only [erased_fields ih]

theorem erased_field_succ {reg : Registry} {n : Nat} (ih : Erased reg n) (x : Field)
    (hc : costField x ≤ n + 1) :
    unwrapField reg (rewriteField reg x) = unwrapField reg x := by
  cases x with
  | mk d ns t tag c =>
    simp only [costField] at hc
    simp only [rewriteField, receiveOver_eq, unwrapField]
    simp (disch := omega) only [ih.slot]

theorem erased_block_succ {reg : Registry} {n : Nat} (ih : Erased reg n) (x : BlockStmt)
    (hc : costBlockStmt x ≤ n + 1) :
    unwrapBlockStmt reg (rewriteBlockStmt reg x) = unwrapBlockStmt reg x := by
  cases x with
  | mk l =>
    simp only [costBlockStmt] at hc
    simp only [rewriteBlockStmt, unwrapBlockStmt]
    simp (disch := omega) only [erased_stmts ih]

theorem erased_stmt_succ {reg : Registry} {n : Nat} (ih : Erased reg n) (x : Stmt)
    (hc : costStmt x ≤ n + 1) :
    unwrapStmt reg (rewriteStmt reg x) = unwrapStmt reg x := by
  cases x with
  | BlockStmt b =>
    cases b with
    | mk l =>
      simp only [costStmt, costBlockStmt] at hc
      simp only [rewriteStmt, receiveOver_eq, rewriteBlockStmt, unwrapStmt, unwrapBlockStmt]
      simp (disch := omega) only [erased_stmts ih]
  | _ =>
    simp only [costStmt] at hc
    simp only [rewriteStmt, receiveOver_eq, unwrapStmt]
    try simp (disch := omega) only [ih.slot, erased_optSlot ih, erased_slots ih, ih.call,
      ih.decl, ih.stmt, erased_optStmt ih, erased_stmts ih, ih.block]

theorem erased_spec_succ {reg : Registry} {n : Nat} (ih : Erased reg n) (x : Spec)
    (hc : costSpec x ≤ n + 1) :
    unwrapSpec reg (rewriteSpec reg x) = unwrapSpec reg x := by
  cases x <;> simp only [costSpec] at hc <;> simp only [rewriteSpec, receiveOver_eq, unwrapSpec] <;>
    simp (disch := omega) only [ih.slot, erased_optSlot ih, erased_slots ih]

theorem erased_funcDecl_succ {reg : Registry} {n : Nat} (ih : Erased reg n) (x : FuncDecl)
    (hc : costFuncDecl x ≤ n + 1) :
    unwrapFuncDecl reg (rewriteFuncDecl reg x) = unwrapFuncDecl reg x := by
  cases x with
  | mk d r nm t b =>
    simp only [costFuncDecl] at hc
    simp only [rewriteFuncDecl, unwrapFuncDecl]
    simp (disch := omega) only [erased_optFieldList ih, ih.funcType, erased_optBlock ih]

theorem erased_decl_succ {reg : Registry} {n : Nat} (ih : Erased reg n) (x : Decl)
    (hc : costDecl x ≤ n + 1) :
    unwrapDecl reg (rewriteDecl reg x) = unwrapDecl reg x := by
  cases x with
  | BadDecl => rfl
  | GenDecl d tok specs =>
    simp only [costDecl] at hc
    simp only [rewriteDecl, unwrapDecl]
    simp (disch := omega) only [erased_specs ih]
  | FuncDecl f =>
    cases f with
    | mk d r nm t b =>
      simp only [costDecl, costFuncDecl] at hc
      simp only [rewriteDecl, rewriteFuncDecl, unwrapDecl, unwrapFuncDecl]
      simp (disch := omega) only [erased_optFieldList ih, ih.funcType, erased_optBlock ih]

theorem erased_zero (reg : Registry) : Erased reg 0 where
  slot x hc := by have := costExpr_pos x; omega
  call x hc := by cases x; simp only [costCallExpr] at hc; omega
  funcType x hc := by cases x; simp only [costFuncType] at hc; omega
  fieldList x hc := by cases x; simp only [costFieldList] at hc; omega
  field x hc := by cases x; simp only [costField] at hc; omega
  block x hc := by cases x; simp only [costBlockStmt] at hc; omega
  stmt x hc := by have := costStmt_pos x; omega
  spec x hc := by cases x <;> simp only [costSpec] at hc <;> omega
  funcDecl x hc := by cases x; simp only [costFuncDecl] at hc; omega
  decl x hc := by have := costDecl_pos x; omega

theorem erased_succ {reg : Registry} {n : Nat} (ih : Erased reg n) : Erased reg (n + 1) where
  slot := erased_slot_succ ih
  call := erased_call_succ ih
  funcType := erased_funcType_succ ih
  fieldList := erased_fieldList_succ ih
  field := erased_field_succ ih
  block := erased_block_succ ih
  stmt := erased_stmt_succ ih
  spec := erased_spec_succ ih
  funcDecl := erased_funcDecl_succ ih
  decl := erased_decl_succ ih

/-- The specification-side rewrite of a tree and the tree itself have the same
erasure: the rewrite only inserts receives around direct calls of registered names
and clears the `Lparen` of these calls. -/
theorem erased_all (reg : Registry) : ∀ n, Erased reg n
  | 0 => erased_zero reg
  | n + 1 => erased_succ (erased_all reg n)

/-! ## Without a registered call the rewrite is the identity -/

theorem fixed_optSlot {reg : Registry} {n : Nat} (h : Fixed reg n) :
    ∀ o, costOptExpr o ≤ n → everyOptExpr (notRegistered reg) (fun _ => true) o = true →
    rewriteOptExpr reg o = o
  | none, _, _ => rfl
  | some x, hc, hb => by
    simp only [costOptExpr, everyOptExpr] at hc hb
    simp only [rewriteOptExpr, receiveOver_eq, h.slot x hc hb]

theorem fixed_optFieldList {reg : Registry} {n : Nat} (h : Fixed reg n) :
    ∀ o, costOptFieldList o ≤ n → everyOptFieldList (notRegistered reg) (fun _ => true) o = true →
    rewriteOptFieldList reg o = o
  | none, _, _ => rfl
  | some x, hc, hb => by
    simp only [costOptFieldList, everyOptFieldList] at hc hb
    simp only [rewriteOptFieldList, h.fieldList x hc hb]

theorem fixed_optBlock {reg : Registry} {n : Nat} (h : Fixed reg n) :
    ∀ o, costOptBlockStmt o ≤ n → everyOptBlockStmt (notRegistered reg) (fun _ => true) o = true →
    rewriteOptBlockStmt reg o = o
  | none, _, _ => rfl
  | some x, hc, hb => by
    simp only [costOptBlockStmt, everyOptBlockStmt] at hc hb
    simp only [rewriteOptBlockStmt, h.block x hc hb]

theorem fixed_optStmt {reg : Registry} {n : Nat} (h : Fixed reg n) :
    ∀ o, costOptStmt o ≤ n → everyOptStmt (notRegistered reg) (fun _ => true) o = true →
    rewriteOptStmt reg o = o
  | none, _, _ => rfl
  | some x, hc, hb => by
    simp only [costOptStmt, everyOptStmt] at hc hb
    simp only [rewriteOptStmt, h.stmt x hc hb]

theorem fixed_slots {reg : Registry} {n : Nat} (h : Fixed reg n) :
    ∀ xs, costExprs xs ≤ n → everyExprs (notRegistered reg) (fun _ => true) xs = true →
    rewriteExprs reg xs = xs
  | [], _, _ => rfl
  | x :: xs, hc, hb => by
    simp only [costExprs, everyExprs, Bool.and_eq_true] at hc hb
    simp only [rewriteExprs, receiveOver_eq, h.slot x (by omega) hb.1, fixed_slots h xs (by omega) hb.2]

theorem fixed_fields {reg : Registry} {n : Nat} (h : Fixed reg n) :
    ∀ xs, costFields xs ≤ n → everyFields (notRegistered reg) (fun _ => true) xs = true →
    rewriteFields reg xs = xs
  | [], _, _ => rfl
  | x :: xs, hc, hb => by
    simp only [costFields, everyFields, Bool.and_eq_true] at hc hb
    simp only [rewriteFields, h.field x (by omega) hb.1, fixed_fields h xs (by omega) hb.2]

theorem fixed_stmts {reg : Registry} {n : Nat} (h : Fixed reg n) :
    ∀ xs, costStmts xs ≤ n → everyStmts (notRegistered reg) (fun _ => true) xs = true →
    rewriteStmts reg xs = xs
  | [], _, _ => rfl
  | x :: xs, hc, hb => by
    simp only [costStmts, everyStmts, Bool.and_eq_true] at hc hb
    simp only [rewriteStmts, h.stmt x (by omega) hb.1, fixed_stmts h xs (by omega) hb.2]

theorem fixed_specs {reg : Registry} {n : Nat} (h : Fixed reg n) :
    ∀ xs, costSpecs xs ≤ n → everySpecs (notRegistered reg) (fun _ => true) xs = true →
    rewriteSpecs reg xs = xs
  | [], _, _ => rfl
  | x :: xs, hc, hb => by
    simp only [costSpecs, everySpecs, Bool.and_eq_true] at hc hb
    simp only [rewriteSpecs, h.spec x (by omega) hb.1, fixed_specs h xs (by omega) hb.2]

theorem everyExpr_root {pe : Expr → Bool} {pc : CallExpr → Bool} {x : Expr}
    (h : everyExpr pe pc x = true) : pe x = true := by
  cases x <;> simp only [everyExpr, Bool.and_eq_true] at h <;>
    first
    | exact h
    | exact h.1
    | exact h.1.1
    | exact h.1.1.1
    | exact h.1.1.1.1

theorem fixed_call_succ {reg : Registry} {n : Nat} (ih : Fixed reg n) (x : CallExpr)
    (hc : costCallExpr x ≤ n + 1)
    (hb : everyCallExpr (notRegistered reg) (fun _ => true) x = true) :
    rewriteCallExpr reg x = x := by
  cases x with
  | mk f l a e =>
    simp only [costCallExpr, everyCallExpr, Bool.and_eq_true] at hc hb
    simp only [rewriteCallExpr, receiveOver_eq]
    simp (disch := first | omega | simp [hb]) only [ih.slot, fixed_slots ih]

theorem fixed_expr_succ {reg : Registry} {n : Nat} (ih : Fixed reg n) (x : Expr)
    (hc : costExpr x ≤ n + 1)
    (hb : everyExpr (notRegistered reg) (fun _ => true) x = true) :
    rewriteExpr reg x = x := by
  cases x with
  | CallExpr c =>
    simp only [costExpr, everyExpr, Bool.and_eq_true] at hc hb
    simp only [rewriteExpr, receiveOver_eq, fixed_call_succ ih c (by omega) hb.2]
  | FuncType t =>
    cases t with
    | mk p r =>
      simp only [costExpr, costFuncType, everyExpr, everyFuncType, Bool.and_eq_true] at hc hb
      simp only [rewriteExpr, receiveOver_eq, rewriteFuncType]
      simp (disch := first | omega | simp [hb]) only [fixed_optFieldList ih]
  | _ =>
    simp only [costExpr, everyExpr, Bool.and_eq_true] at hc hb
    simp only [rewriteExpr, receiveOver_eq]
    try simp (disch := first | omega | simp [hb]) only [ih.slot, fixed_optSlot ih,
      fixed_slots ih, ih.funcType, ih.fieldList, fixed_optBlock ih]

theorem fixed_slot_succ {reg : Registry} {n : Nat} (ih : Fixed reg n) (x : Expr)
    (hc : costExpr x ≤ n + 1)
    (hb : everyExpr (notRegistered reg) (fun _ => true) x = true) :
    wrapInReceive reg (rewriteExpr reg x) = x := by
  have hw : isRegisteredCall reg x = false := by
    have := everyExpr_root hb
    simpa [notRegistered] using this
  rw [fixed_expr_succ ih x hc hb, wrapInReceive_of_not_registered hw]

theorem fixed_funcType_succ {reg : Registry} {n : Nat} (ih : Fixed reg n) (x : FuncType)
    (hc : costFuncType x ≤ n + 1)
    (hb : everyFuncType (notRegistered reg) (fun _ => true) x = true) :
    rewriteFuncType reg x = x := by
  cases x with
  | mk p r =>
    simp only [costFuncType, everyFuncType, Bool.and_eq_true] at hc hb
    simp only [rewriteFuncType]
    simp (disch := first | omega | simp [hb]) only [fixed_optFieldList ih]

theorem fixed_fieldList_succ {reg : Registry} {n : Nat} (ih : Fixed reg n) (x : FieldList)
    (hc : costFieldList x ≤ n + 1)
    (hb : everyFieldList (notRegistered reg) (fun _ => true) x = true) :
    rewriteFieldList reg x = x := by
  cases x with
  | mk l =>
    simp only [costFieldList, everyFieldList] at hc hb
    simp only [rewriteFieldList]
    simp (disch := first | omega | simp [hb]) only [fixed_fields ih]

theorem fixed_field_succ {reg : Registry} {n : Nat} (ih : Fixed reg n) (x : Field)
    (hc : costField x ≤ n + 1)
    (hb : everyField (notRegistered reg) (fun _ => true) x = true) :
    rewriteField reg x = x := by
  cases x with
  | mk d ns t tag c =>
    simp only [costField, everyField] at hc hb
    simp only [rewriteField, receiveOver_eq]
    simp (disch := first | omega | simp [hb]) only [ih.slot]

theorem fixed_block_succ {reg : Registry} {n : Nat} (ih : Fixed reg n) (x : BlockStmt)
    (hc : costBlockStmt x ≤ n + 1)
    (hb : everyBlockStmt (notRegistered reg) (fun _ => true) x = true) :
    rewriteBlockStmt reg x = x := by
  cases x with
  | mk l =>
    simp only [costBlockStmt, everyBlockStmt] at hc hb
    simp only [rewriteBlockStmt]
    simp (disch := first | omega | simp [hb]) only [fixed_stmts ih]

theorem fixed_stmt_succ {reg : Registry} {n : Nat} (ih : Fixed reg n) (x : Stmt)
    (hc : costStmt x ≤ n + 1)
    (hb : everyStmt (notRegistered reg) (fun _ => true) x = true) :
    rewriteStmt reg x = x := by
  cases x with
  | BlockStmt b =>
    cases b with
    | mk l =>
      simp only [costStmt, costBlockStmt, everyStmt, everyBlockStmt] at hc hb
      simp only [rewriteStmt, receiveOver_eq, rewriteBlockStmt]
      simp (disch := first | omega | simp [hb]) only [fixed_stmts ih]
  | _ =>
    simp only [costStmt, everyStmt, Bool.and_eq_true] at hc hb
    simp only [rewriteStmt, receiveOver_eq]
    try simp (disch := first | omega | simp [hb]) only [ih.slot, fixed_optSlot ih,
      fixed_slots ih, ih.call, ih.decl, ih.stmt, fixed_optStmt ih, fixed_stmts ih, ih.block]

theorem fixed_spec_succ {reg : Registry} {n : Nat} (ih : Fixed reg n) (x : Spec)
    (hc : costSpec x ≤ n + 1)
    (hb : everySpec (notRegistered reg) (fun _ => true) x = true) :
    rewriteSpec reg x = x := by
  cases x <;> simp only [costSpec, everySpec, Bool.and_eq_true] at hc hb <;>
    simp only [rewriteSpec, receiveOver_eq] <;>
    simp (disch := first | omega | simp [hb]) only [ih.slot, fixed_optSlot ih, fixed_slots ih]

theorem fixed_funcDecl_succ {reg : Registry} {n : Nat} (ih : Fixed reg n) (x : FuncDecl)
    (hc : costFuncDecl x ≤ n + 1)
    (hb : everyFuncDecl (notRegistered reg) (fun _ => true) x = true) :
    rewriteFuncDecl reg x = x := by
  cases x with
  | mk d r nm t b =>
    simp only [costFuncDecl, everyFuncDecl, Bool.and_eq_true] at hc hb
    simp only [rewriteFuncDecl]
    simp (disch := first | omega | simp [hb]) only [fixed_optFieldList ih, ih.funcType,
      fixed_optBlock ih]

theorem fixed_decl_succ {reg : Registry} {n : Nat} (ih : Fixed reg n) (x : Decl)
    (hc : costDecl x ≤ n + 1)
    (hb : everyDecl (notRegistered reg) (fun _ => true) x = true) :
    rewriteDecl reg x = x := by
  cases x with
  | BadDecl => rfl
  | GenDecl d tok specs =>
    simp only [costDecl, everyDecl] at hc hb
    simp only [rewriteDecl]
    simp (disch := first | omega | simp [hb]) only [fixed_specs ih]
  | FuncDecl f =>
    cases f with
    | mk d r nm t b =>
      simp only [costDecl, costFuncDecl, everyDecl, everyFuncDecl, Bool.and_eq_true] at hc hb
      simp only [rewriteDecl, rewriteFuncDecl]
      simp (disch := first | omega | simp [hb]) only [fixed_optFieldList ih, ih.funcType,
        fixed_optBlock ih]

theorem fixed_zero (reg : Registry) : Fixed reg 0 where
  slot x hc _ := by have := costExpr_pos x; omega
  call x hc _ := by cases x; simp only [costCallExpr] at hc; omega
  funcType x hc _ := by cases x; simp only [costFuncType] at hc; omega
  fieldList x hc _ := by cases x; simp only [costFieldList] at hc; omega
  field x hc _ := by cases x; simp only [costField] at hc; omega
  block x hc _ := by cases x; simp only [costBlockStmt] at hc; omega
  stmt x hc _ := by have := costStmt_pos x; omega
  spec x hc _ := by cases x <;> simp only [costSpec] at hc <;> omega
  funcDecl x hc _ := by cases x; simp only [costFuncDecl] at hc; omega
  decl x hc _ := by have := costDecl_pos x; omega

theorem fixed_succ {reg : Registry} {n : Nat} (ih : Fixed reg n) : Fixed reg (n + 1) where
  slot := fixed_slot_succ ih
  call := fixed_call_succ ih
  funcType := fixed_funcType_succ ih
  fieldList := fixed_fieldList_succ ih
  field := fixed_field_succ ih
  block := fixed_block_succ ih
  stmt := fixed_stmt_succ ih
  spec := fixed_spec_succ ih
  funcDecl := fixed_funcDecl_succ ih
  decl := fixed_decl_succ ih

/-- The specification-side rewrite changes nothing in a tree that has no
parenthesized direct call of a registered name in an expression position. -/
theorem fixed_all (reg : Registry) : ∀ n, Fixed reg n
  | 0 => fixed_zero reg
  | n + 1 => fixed_succ (fixed_all reg n)

/-! ## The two loops of `main` together -/

theorem rewritePhase_eq (reg : Registry) (fuel : Nat) (decls : List Decl) :
    rewritePhase reg fuel decls = walkList (rewriteStep reg fuel) decls := by
  induction decls with
  | nil => rfl
  | cons d ds ih => simp only [rewritePhase, walkList, ih]

/-- Source `main` runs the rewrite loop, over the declarations the scan loop left,
with the registry the whole scan loop produced. -/
theorem main_eq (fuel : Nat) (decls : List Decl) :
    main fuel { Decls := decls } =
      (walkList (rewriteStep (scanRegistry Registry.empty decls) fuel)
        (decls.map scanDecl)).map File.mk := by
  simp only [main, scanPhase_eq, bind_ok_eq, rewritePhase_eq]
  cases walkList (rewriteStep (scanRegistry Registry.empty decls) fuel) (decls.map scanDecl) <;>
    rfl

/-- The rewrite loop on a function declaration that fits in the fuel and whose
function literals have bodies. -/
theorem rewriteStep_funcDecl (reg : Registry) (fuel : Nat) (f : FuncDecl)
    (hfuel : costFuncDecl f ≤ fuel) (hbody : bodiedFuncDecl f = true) :
    rewriteStep reg fuel (.FuncDecl f) = .ok (.FuncDecl (rewriteFuncDecl reg f)) := by
  simp only [rewriteStep, (walkSpec_all reg fuel).funcDecl f hfuel hbody, bind_ok_eq]
  rfl

/-- The registry after the scan loop does not depend on the order of the
declarations. -/
theorem scanRegistry_perm (decls decls2 : List Decl) (hperm : decls2.Perm decls) :
    scanRegistry Registry.empty decls2 = scanRegistry Registry.empty decls := by
  funext name
  have h1 := scanRegistry_true Registry.empty decls name
  have h2 := scanRegistry_true Registry.empty decls2 name
  have hmem : ∀ f, Decl.FuncDecl f ∈ decls2 ↔ Decl.FuncDecl f ∈ decls :=
    fun f => hperm.mem_iff
  have h3 : scanRegistry Registry.empty decls2 name = true ↔
      scanRegistry Registry.empty decls name = true := by
    rw [h1, h2]
    simp only [hmem]
  cases ha : scanRegistry Registry.empty decls2 name <;>
    cases hb : scanRegistry Registry.empty decls name <;> simp_all

/-! ## A function literal without body stops the walk -/

theorem bind_ok_inv {α β : Type} {x : Except Failure α} {f : α → Except Failure β} {b : β}
    (h : (x >>= f) = .ok b) : ∃ a, x = .ok a ∧ f a = .ok b := by
  cases x with
  | error e => cases h
  | ok a => exact ⟨a, rfl, h⟩

theorem walkList_ok_inv {α : Type} {walk : α → Except Failure α} {x : α} {xs ys : List α}
    (h : walkList walk (x :: xs) = .ok ys) :
    ∃ y ys1, walk x = .ok y ∧ walkList walk xs = .ok ys1 := by
  simp only [walkList] at h
  obtain ⟨y, hy, h⟩ := bind_ok_inv h
  obtain ⟨ys1, hys, -⟩ := bind_ok_inv h
  exact ⟨y, ys1, hy, hys⟩

theorem walkExpr_funcLit_none (reg : Registry) (n : Nat) (t : FuncType) (out : Expr) :
    walkExpr reg n (.FuncLit t none) ≠ .ok out := by
  intro h
  cases n with
  | zero => simp [walkExpr] at h
  | succ m =>
    simp only [walkExpr, visitorExpr] at h
    obtain ⟨a, -, h⟩ := bind_ok_inv h
    cases h

theorem wrapInReceive_funcLit (reg : Registry) (t : FuncType) (body : Option BlockStmt) :
    wrapInReceive reg (.FuncLit t body) = .FuncLit t body := rfl

theorem wrapInReceive_noPos (reg : Registry) (f : Expr) (args : List Expr) (e : Pos) :
    wrapInReceive reg (.CallExpr (.mk f NoPos args e)) = .CallExpr (.mk f NoPos args e) := by
  simp [wrapInReceive, CallExpr.Lparen]

theorem walkExpr_call_funcLit_none (reg : Registry) (n : Nat) (t : FuncType) (l : Pos)
    (args : List Expr) (e : Pos) (out : Expr) :
    walkExpr reg n (.CallExpr (.mk (.FuncLit t none) l args e)) ≠ .ok out := by
  intro h
  cases n with
  | zero => simp [walkExpr] at h
  | succ m =>
    simp only [walkExpr, visitorExpr, visitorCallExpr, wrapInReceive_funcLit] at h
    obtain ⟨a, ha, -⟩ := bind_ok_inv h
    exact walkExpr_funcLit_none reg m t a ha

theorem walkStmt_send_funcLit_none (reg : Registry) (n : Nat) (ch : Expr) (t : FuncType)
    (args : List Expr) (e : Pos) (out : Stmt) :
    walkStmt reg n (.SendStmt ch (.CallExpr (.mk (.FuncLit t none) NoPos args e))) ≠ .ok out := by
  intro h
  cases n with
  | zero => simp [walkStmt] at h
  | succ m =>
    simp only [walkStmt, visitorStmt, wrapInReceive_noPos] at h
    obtain ⟨a, -, h⟩ := bind_ok_inv h
    obtain ⟨b, hb, -⟩ := bind_ok_inv h
    exact walkExpr_call_funcLit_none reg m t NoPos args e b hb

/-- The walk of the `go` statement that `increaseSpeed` builds fails, at every fuel,
when the inner function literal has no body. -/
theorem walkStmt_go_funcLit_none (reg : Registry) (n : Nat) (ch : Expr) (t t2 : FuncType)
    (out : Stmt) :
    walkStmt reg n (.GoStmt (.mk
      (.FuncLit t2 (some (.mk
        [.SendStmt ch (.CallExpr (.mk (.FuncLit t none) NoPos [] NoPos))])))
      NoPos [] NoPos)) ≠ .ok out := by
  intro h
  cases n with
  | zero => simp [walkStmt] at h
  | succ n1 =>
    simp only [walkStmt, visitorStmt] at h
    obtain ⟨c, hc, -⟩ := bind_ok_inv h
    cases n1 with
    | zero => simp [walkCallExpr] at hc
    | succ n2 =>
      simp only [walkCallExpr, visitorCallExpr, wrapInReceive_funcLit] at hc
      obtain ⟨lit, hlit, -⟩ := bind_ok_inv hc
      cases n2 with
      | zero => simp [walkExpr] at hlit
      | succ n3 =>
        simp only [walkExpr, visitorExpr] at hlit
        obtain ⟨ft, -, hlit⟩ := bind_ok_inv hlit
        obtain ⟨blk, hblk, -⟩ := bind_ok_inv hlit
        cases n3 with
        | zero => simp [walkBlockStmt] at hblk
        | succ n4 =>
          simp only [walkBlockStmt] at hblk
          obtain ⟨l, hl, -⟩ := bind_ok_inv hblk
          obtain ⟨s, -, hs, -⟩ := walkList_ok_inv hl
          exact walkStmt_send_funcLit_none reg n4 ch t [] NoPos s hs

/-- The walk of what `increaseSpeed` makes of a declaration without body fails at
every fuel. -/
theorem walkFuncDecl_increaseSpeed_no_body (reg : Registry) (n : Nat) (f res out : FuncDecl)
    (field : Field) (hres : f.Type_.Results = some (.mk [field])) (hbody : f.Body = none)
    (hinc : increaseSpeed f = .ok res) :
    walkFuncDecl reg n res ≠ .ok out := by
  intro h
  rw [increaseSpeed_eq f field [] hres, hbody] at hinc
  cases hinc
  cases n with
  | zero => simp [walkFuncDecl] at h
  | succ n1 =>
    simp only [walkFuncDecl] at h
    obtain ⟨r, -, h⟩ := bind_ok_inv h
    obtain ⟨t, -, h⟩ := bind_ok_inv h
    obtain ⟨b, hb, -⟩ := bind_ok_inv h
    simp only [walkOpt] at hb
    obtain ⟨blk, hblk, -⟩ := bind_ok_inv hb
    cases n1 with
    | zero => simp [walkBlockStmt] at hblk
    | succ n2 =>
      simp only [walkBlockStmt] at hblk
      obtain ⟨l, hl, -⟩ := bind_ok_inv hblk
      obtain ⟨s1, l1, -, hl1⟩ := walkList_ok_inv hl
      obtain ⟨s2, l2, hs2, -⟩ := walkList_ok_inv hl1
      exact walkStmt_go_funcLit_none reg n2 _ _ _ s2 hs2

theorem walkList_not_ok {α : Type} (walk : α → Except Failure α) (x : α) :
    ∀ xs : List α, x ∈ xs → (∀ y, walk x ≠ .ok y) → ∀ ys, walkList walk xs ≠ .ok ys
  | [], hx, _, _ => by cases hx
  | z :: zs, hx, hno, ys => by
    intro h
    obtain ⟨y, ys1, hy, hys⟩ := walkList_ok_inv h
    rcases List.mem_cons.1 hx with rfl | hmem
    · exact hno y hy
    · exact walkList_not_ok walk x zs hmem hno ys1 hys

/-- The full pass fails, at every fuel, on a file with a function declaration without
receiver, with one result field and without body. -/
theorem main_fails_on_forward_declaration (fuel : Nat) (decls : List Decl) (f : FuncDecl)
    (field : Field) (hf : Decl.FuncDecl f ∈ decls) (hrecv : f.Recv = none)
    (hres : f.Type_.Results = some (.mk [field])) (hbody : f.Body = none) (out : File) :
    main fuel { Decls := decls } ≠ .ok out := by
  intro h
  rw [main_eq] at h
  have he : eligible f = true := (eligible_iff f).2 ⟨hrecv, _, hres, rfl⟩
  obtain ⟨res, hinc⟩ := increaseSpeed_of_eligible he
  have hs : scanDecl (.FuncDecl f) = .FuncDecl res := by simp [scanDecl, he, hinc]
  have hmem : Decl.FuncDecl res ∈ decls.map scanDecl := by
    rw [← hs]
    exact List.mem_map_of_mem _ hf
  cases hw : walkList (rewriteStep (scanRegistry Registry.empty decls) fuel)
      (decls.map scanDecl) with
  | error e => rw [hw] at h; cases h
  | ok ds =>
    refine walkList_not_ok _ _ _ hmem ?_ ds hw
    intro y hy
    simp only [rewriteStep] at hy
    obtain ⟨r, hr, -⟩ := bind_ok_inv hy
    exact walkFuncDecl_increaseSpeed_no_body _ fuel f res r field hres hbody hinc hr

/-! ## The rewrite keeps the bodies of function literals -/

theorem bodied_optSlot {reg : Registry} {n : Nat} (h : Bodied reg n) :
    ∀ o, costOptExpr o ≤ n → everyOptExpr hasBody (fun _ => true) o = true →
    everyOptExpr hasBody (fun _ => true) (rewriteOptExpr reg o) = true
  | none, _, _ => rfl
  | some x, hc, hb => by
    simp only [costOptExpr, everyOptExpr] at hc hb
    simp only [rewriteOptExpr, receiveOver_eq, everyOptExpr, h.slot x hc hb]

theorem bodied_optFieldList {reg : Registry} {n : Nat} (h : Bodied reg n) :
    ∀ o, costOptFieldList o ≤ n → everyOptFieldList hasBody (fun _ => true) o = true →
    everyOptFieldList hasBody (fun _ => true) (rewriteOptFieldList reg o) = true
  | none, _, _ => rfl
  | some x, hc, hb => by
    simp only [costOptFieldList, everyOptFieldList] at hc hb
    simp only [rewriteOptFieldList, everyOptFieldList, h.fieldList x hc hb]

theorem bodied_optBlock {reg : Registry} {n : Nat} (h : Bodied reg n) :
    ∀ o, costOptBlockStmt o ≤ n → everyOptBlockStmt hasBody (fun _ => true) o = true →
    everyOptBlockStmt hasBody (fun _ => true) (rewriteOptBlockStmt reg o) = true
  | none, _, _ => rfl
  | some x, hc, hb => by
    simp only [costOptBlockStmt, everyOptBlockStmt] at hc hb
    simp only [rewriteOptBlockStmt, everyOptBlockStmt, h.block x hc hb]

theorem bodied_optStmt {reg : Registry} {n : Nat} (h : Bodied reg n) :
    ∀ o, costOptStmt o ≤ n → everyOptStmt hasBody (fun _ => true) o = true →
    everyOptStmt hasBody (fun _ => true) (rewriteOptStmt reg o) = true
  | none, _, _ => rfl
  | some x, hc, hb => by
    simp only [costOptStmt, everyOptStmt] at hc hb
    simp only [rewriteOptStmt, everyOptStmt, h.stmt x hc hb]

theorem bodied_slots {reg : Registry} {n : Nat} (h : Bodied reg n) :
    ∀ xs, costExprs xs ≤ n → everyExprs hasBody (fun _ => true) xs = true →
    everyExprs hasBody (fun _ => true) (rewriteExprs reg xs) = true
  | [], _, _ => rfl
  | x :: xs, hc, hb => by
    simp only [costExprs, everyExprs, Bool.and_eq_true] at hc hb
    simp only [rewriteExprs, receiveOver_eq, everyExprs, h.slot x (by omega) hb.1,
      bodied_slots h xs (by omega) hb.2, Bool.and_self]

theorem bodied_fields {reg : Registry} {n : Nat} (h : Bodied reg n) :
    ∀ xs, costFields xs ≤ n → everyFields hasBody (fun _ => true) xs = true →
    everyFields hasBody (fun _ => true) (rewriteFields reg xs) = true
  | [], _, _ => rfl
  | x :: xs, hc, hb => by
    simp only [costFields, everyFields, Bool.and_eq_true] at hc hb
    simp only [rewriteFields, everyFields, h.field x (by omega) hb.1,
      bodied_fields h xs (by omega) hb.2, Bool.and_self]

theorem bodied_stmts {reg : Registry} {n : Nat} (h : Bodied reg n) :
    ∀ xs, costStmts xs ≤ n → everyStmts hasBody (fun _ => true) xs = true →
    everyStmts hasBody (fun _ => true) (rewriteStmts reg xs) = true
  | [], _, _ => rfl
  | x :: xs, hc, hb => by
    simp only [costStmts, everyStmts, Bool.and_eq_true] at hc hb
    simp only [rewriteStmts, everyStmts, h.stmt x (by omega) hb.1,
      bodied_stmts h xs (by omega) hb.2, Bool.and_self]

theorem bodied_specs {reg : Registry} {n : Nat} (h : Bodied reg n) :
    ∀ xs, costSpecs xs ≤ n → everySpecs hasBody (fun _ => true) xs = true →
    everySpecs hasBody (fun _ => true) (rewriteSpecs reg xs) = true
  | [], _, _ => rfl
  | x :: xs, hc, hb => by
    simp only [costSpecs, everySpecs, Bool.and_eq_true] at hc hb
    simp only [rewriteSpecs, everySpecs, h.spec x (by omega) hb.1,
      bodied_specs h xs (by omega) hb.2, Bool.and_self]

theorem bodied_call_succ {reg : Registry} {n : Nat} (ih : Bodied reg n) (x : CallExpr)
    (hc : costCallExpr x ≤ n + 1) (hb : everyCallExpr hasBody (fun _ => true) x = true) :
    everyCallExpr hasBody (fun _ => true) (rewriteCallExpr reg x) = true := by
  cases x with
  | mk f l a e =>
    simp only [costCallExpr, everyCallExpr, Bool.and_eq_true] at hc hb
    simp only [rewriteCallExpr, receiveOver_eq, everyCallExpr]
    simp (disch := first | omega | simp [hb]) only [ih.slot, bodied_slots ih, Bool.and_self]

theorem bodied_expr_succ {reg : Registry} {n : Nat} (ih : Bodied reg n) (x : Expr)
    (hc : costExpr x ≤ n + 1) (hb : everyExpr hasBody (fun _ => true) x = true) :
    everyExpr hasBody (fun _ => true) (rewriteExpr reg x) = true := by
  cases x with
  | FuncLit t body =>
    cases body with
    | none => simp [everyExpr, hasBody] at hb
    | some b =>
      simp only [costExpr, costOptBlockStmt, everyExpr, everyOptBlockStmt,
        Bool.and_eq_true] at hc hb
      simp only [rewriteExpr, receiveOver_eq, rewriteOptBlockStmt, everyExpr, everyOptBlockStmt, hasBody]
      simp (disch := first | omega | simp [hb]) only [ih.funcType, ih.block, Bool.and_self]
  | CallExpr c =>
    simp only [costExpr, everyExpr, Bool.and_eq_true] at hc hb
    simp only [rewriteExpr, receiveOver_eq, everyExpr, hasBody, bodied_call_succ ih c (by omega) hb.2,
      Bool.and_self]
  | FuncType t =>
    cases t with
    | mk p r =>
      simp only [costExpr, costFuncType, everyExpr, everyFuncType, Bool.and_eq_true] at hc hb
      simp only [rewriteExpr, receiveOver_eq, rewriteFuncType, everyExpr, everyFuncType, hasBody]
      simp (disch := first | omega | simp [hb]) only [bodied_optFieldList ih, Bool.and_self]
  | _ =>
    simp only [costExpr, everyExpr, Bool.and_eq_true] at hc hb
    simp only [rewriteExpr, receiveOver_eq, everyExpr, hasBody]
    try simp (disch := first | omega | simp [hb]) only [ih.slot, bodied_optSlot ih,
      bodied_slots ih, ih.fieldList, Bool.and_self]

theorem bodied_slot_succ {reg : Registry} {n : Nat} (ih : Bodied reg n) (x : Expr)
    (hc : costExpr x ≤ n + 1) (hb : everyExpr hasBody (fun _ => true) x = true) :
    everyExpr hasBody (fun _ => true) (wrapInReceive reg (rewriteExpr reg x)) = true := by
  have hx := bodied_expr_succ ih x hc hb
  rcases wrapInReceive_cases reg (rewriteExpr reg x) with ⟨-, h⟩ | ⟨id, l, a, e, hy, -, -, h⟩
  · rw [h]
    exact hx
  · rw [h]
    rw [hy] at hx
    simp only [everyExpr, everyCallExpr, hasBody, Bool.and_eq_true, Bool.true_and] at hx ⊢
    exact hx

theorem bodied_funcType_succ {reg : Registry} {n : Nat} (ih : Bodied reg n) (x : FuncType)
    (hc : costFuncType x ≤ n + 1) (hb : everyFuncType hasBody (fun _ => true) x = true) :
    everyFuncType hasBody (fun _ => true) (rewriteFuncType reg x) = true := by
  cases x with
  | mk p r =>
    simp only [costFuncType, everyFuncType, Bool.and_eq_true] at hc hb
    simp only [rewriteFuncType, everyFuncType]
    simp (disch := first | omega | simp [hb]) only [bodied_optFieldList ih, Bool.and_self]

theorem bodied_fieldList_succ {reg : Registry} {n : Nat} (ih : Bodied reg n) (x : FieldList)
    (hc : costFieldList x ≤ n + 1) (hb : everyFieldList hasBody (fun _ => true) x = true) :
    everyFieldList hasBody (fun _ => true) (rewriteFieldList reg x) = true := by
  cases x with
  | mk l =>
    simp only [costFieldList, everyFieldList, Bool.and_eq_true] at hc hb
    simp only [rewriteFieldList, everyFieldList]
    simp (disch := first | omega | simp [hb]) only [bodied_fields ih, Bool.and_self]

theorem bodied_field_succ {reg : Registry} {n : Nat} (ih : Bodied reg n) (x : Field)
    (hc : costField x ≤ n + 1) (hb : everyField hasBody (fun _ => true) x = true) :
    everyField hasBody (fun _ => true) (rewriteField reg x) = true := by
  cases x with
  | mk d ns t tag c =>
    simp only [costField, everyField, Bool.and_eq_true] at hc hb
    simp only [rewriteField, receiveOver_eq, everyField]
    simp (disch := first | omega | simp [hb]) only [ih.slot, Bool.and_self]

theorem bodied_block_succ {reg : Registry} {n : Nat} (ih : Bodied reg n) (x : BlockStmt)
    (hc : costBlockStmt x ≤ n + 1) (hb : everyBlockStmt hasBody (fun _ => true) x = true) :
    everyBlockStmt hasBody (fun _ => true) (rewriteBlockStmt reg x) = true := by
  cases x with
  | mk l =>
    simp only [costBlockStmt, everyBlockStmt, Bool.and_eq_true] at hc hb
    simp only [rewriteBlockStmt, everyBlockStmt]
    simp (disch := first | omega | simp [hb]) only [bodied_stmts ih, Bool.and_self]

theorem bodied_funcDecl_succ {reg : Registry} {n : Nat} (ih : Bodied reg n) (x : FuncDecl)
    (hc : costFuncDecl x ≤ n + 1) (hb : everyFuncDecl hasBody (fun _ => true) x = true) :
    everyFuncDecl hasBody (fun _ => true) (rewriteFuncDecl reg x) = true := by
  cases x with
  | mk d r nm t b =>
    simp only [costFuncDecl, everyFuncDecl, Bool.and_eq_true] at hc hb
    simp only [rewriteFuncDecl, everyFuncDecl]
    simp (disch := first | omega | simp [hb]) only [bodied_optFieldList ih, ih.funcType, bodied_optBlock ih, Bool.and_self]

theorem bodied_stmt_succ {reg : Registry} {n : Nat} (ih : Bodied reg n) (x : Stmt)
    (hc : costStmt x ≤ n + 1) (hb : everyStmt hasBody (fun _ => true) x = true) :
    everyStmt hasBody (fun _ => true) (rewriteStmt reg x) = true := by
  cases x with
  | BlockStmt b =>
    cases b with
    | mk l =>
      simp only [costStmt, costBlockStmt, everyStmt, everyBlockStmt] at hc hb
      simp only [rewriteStmt, receiveOver_eq, rewriteBlockStmt, everyStmt, everyBlockStmt]
      simp (disch := first | omega | simp [hb]) only [bodied_stmts ih]
  | _ =>
    simp only [costStmt, everyStmt, Bool.and_eq_true] at hc hb
    simp only [rewriteStmt, receiveOver_eq, everyStmt]
    try simp (disch := first | omega | simp [hb]) only [ih.slot, bodied_optSlot ih,
      bodied_slots ih, ih.call, ih.decl, ih.stmt, bodied_optStmt ih, bodied_stmts ih,
      ih.block, Bool.and_self]

theorem bodied_spec_succ {reg : Registry} {n : Nat} (ih : Bodied reg n) (x : Spec)
    (hc : costSpec x ≤ n + 1) (hb : everySpec hasBody (fun _ => true) x = true) :
    everySpec hasBody (fun _ => true) (rewriteSpec reg x) = true := by
  cases x <;> simp only [costSpec, everySpec, Bool.and_eq_true] at hc hb <;>
    simp only [rewriteSpec, receiveOver_eq, everySpec] <;>
    simp (disch := first | omega | simp [hb]) only [ih.slot, bodied_optSlot ih,
      bodied_slots ih, Bool.and_self]

theorem bodied_decl_succ {reg : Registry} {n : Nat} (ih : Bodied reg n) (x : Decl)
    (hc : costDecl x ≤ n + 1) (hb : everyDecl hasBody (fun _ => true) x = true) :
    everyDecl hasBody (fun _ => true) (rewriteDecl reg x) = true := by
  cases x with
  | BadDecl => rfl
  | GenDecl d tok specs =>
    simp only [costDecl, everyDecl] at hc hb
    simp only [rewriteDecl, everyDecl]
    simp (disch := first | omega | simp [hb]) only [bodied_specs ih]
  | FuncDecl f =>
    cases f with
    | mk d r nm t b =>
      simp only [costDecl, costFuncDecl, everyDecl, everyFuncDecl, Bool.and_eq_true] at hc hb
      simp only [rewriteDecl, rewriteFuncDecl, everyDecl, everyFuncDecl]
      simp (disch := first | omega | simp [hb]) only [bodied_optFieldList ih, ih.funcType,
        bodied_optBlock ih, Bool.and_self]

theorem bodied_zero (reg : Registry) : Bodied reg 0 where
  slot x hc _ := by have := costExpr_pos x; omega
  call x hc _ := by cases x; simp only [costCallExpr] at hc; omega
  funcType x hc _ := by cases x; simp only [costFuncType] at hc; omega
  fieldList x hc _ := by cases x; simp only [costFieldList] at hc; omega
  field x hc _ := by cases x; simp only [costField] at hc; omega
  block x hc _ := by cases x; simp only [costBlockStmt] at hc; omega
  stmt x hc _ := by have := costStmt_pos x; omega
  spec x hc _ := by cases x <;> simp only [costSpec] at hc <;> omega
  funcDecl x hc _ := by cases x; simp only [costFuncDecl] at hc; omega
  decl x hc _ := by have := costDecl_pos x; omega

theorem bodied_succ {reg : Registry} {n : Nat} (ih : Bodied reg n) : Bodied reg (n + 1) where
  slot := bodied_slot_succ ih
  call := bodied_call_succ ih
  funcType := bodied_funcType_succ ih
  fieldList := bodied_fieldList_succ ih
  field := bodied_field_succ ih
  block := bodied_block_succ ih
  stmt := bodied_stmt_succ ih
  spec := bodied_spec_succ ih
  funcDecl := bodied_funcDecl_succ ih
  decl := bodied_decl_succ ih

/-- The specification-side rewrite of a tree in which every function literal has a
body is again such a tree. -/
theorem bodied_all (reg : Registry) : ∀ n, Bodied reg n
  | 0 => bodied_zero reg
  | n + 1 => bodied_succ (bodied_all reg n)

/-! ## The rewrite of a transformed declaration -/

/-- The walk of `increaseSpeed f`, for an eligible `f` with body `B` whose result type
is not itself a call to wrap: only the parameter list, the result type and the body
taken from `f` are rewritten. -/
theorem walk_increaseSpeed (reg : Registry) (f : FuncDecl) (field : Field) (B : BlockStmt)
    (hrecv : f.Recv = none) (hres : f.Type_.Results = some (.mk [field]))
    (hB : f.Body = some B) (htype : isRegisteredCall reg field.Type_ = false)
    (hlit : bodiedFuncDecl f = true) :
    ∃ res, increaseSpeed f = .ok res ∧
      ∀ k, walkFuncDecl reg (costFuncDecl res + k) res = .ok
        (.mk f.Doc none f.Name
          (.mk (rewriteOptFieldList reg f.Type_.Params)
            (some (.mk [.mk none []
              (.ChanType (SEND ||| RECV) (rewriteExpr reg field.Type_)) none none])))
          (some (.mk [
            .AssignStmt [.Ident resultIdent] .DEFINE
              [.CallExpr (.mk (.Ident (NewIdent "make")) NoPos
                [.ChanType (SEND ||| RECV) (rewriteExpr reg field.Type_)] NoPos)],
            .GoStmt (.mk
              (.FuncLit (.mk (some (.mk [])) none)
                (some (.mk [
                  .SendStmt (.Ident resultIdent)
                    (.CallExpr (.mk
                      (.FuncLit (.mk none (some (.mk [rewriteField reg field])))
                        (some (rewriteBlockStmt reg B)))
                      NoPos [] NoPos))])))
              NoPos [] NoPos),
            .ReturnStmt [.Ident resultIdent]]))) := by
  cases f with
  | mk doc recv name t body =>
    cases t with
    | mk params results =>
      simp only [FuncDecl.Recv, FuncDecl.Type_, FuncType.Results, FuncDecl.Body] at hrecv hres hB
      subst hrecv hres hB
      have htype2 : isRegisteredCall reg (rewriteExpr reg field.Type_) = false := by
        rw [isRegisteredCall_rewriteExpr, htype]
      refine ⟨_, increaseSpeed_eq _ field [] rfl, fun k => ?_⟩
      rw [(walkSpec_all reg _).funcDecl _ (Nat.le_add_right _ _)]
      · cases field with
        | mk fdoc fnames ftype ftag fcomment =>
          simp only [Field.Type_] at htype2
          simp only [rewriteFuncDecl, rewriteOptFieldList, rewriteFuncType, rewriteFieldList,
            rewriteFields, rewriteField, receiveOver_eq, rewriteOptBlockStmt, rewriteBlockStmt, rewriteStmts,
            rewriteStmt, rewriteExprs, rewriteExpr, rewriteCallExpr, typeToChanType,
            FuncDecl.Doc, FuncDecl.Recv, FuncDecl.Name, FuncDecl.Type_, FuncDecl.Body,
            FuncType.Params, FuncType.Results, Field.Type_,
            wrapInReceive_of_not_registered htype2, wrapInReceive_ident]
          rfl
      · cases field with
        | mk fdoc fnames ftype ftag fcomment =>
          simp only [bodiedFuncDecl, everyFuncDecl, everyFuncType, everyOptFieldList,
            everyFieldList, everyFields, everyField, everyOptBlockStmt, Bool.and_eq_true,
            Bool.and_true] at hlit
          simp [bodiedFuncDecl, everyFuncDecl, everyFuncType, everyOptFieldList,
            everyFieldList, everyFields, everyField, everyOptBlockStmt, everyBlockStmt,
            everyStmts, everyStmt, everyExprs, everyExpr, everyCallExpr, typeToChanType,
            FuncDecl.Doc, FuncDecl.Recv, FuncDecl.Name, FuncDecl.Type_, FuncDecl.Body,
            FuncType.Params, FuncType.Results, Field.Type_, hasBody, hlit]

/-! ## The rewrite inserts one receive for every call it has to wrap -/

theorem counted_optSlot {reg : Registry} {n : Nat} (h : Counted reg n) :
    ∀ o, costOptExpr o ≤ n →
    countOptExpr (received reg) (rewriteOptExpr reg o) =
      countOptExpr (received reg) o + countOptExpr (toWrap reg) o
  | none, _ => rfl
  | some x, hc => by
    simp only [costOptExpr] at hc
    simp only [rewriteOptExpr, receiveOver_eq, countOptExpr, h.slot x hc]

theorem counted_slots {reg : Registry} {n : Nat} (h : Counted reg n) :
    ∀ xs, costExprs xs ≤ n →
    countExprs (received reg) (rewriteExprs reg xs) =
      countExprs (received reg) xs + countExprs (toWrap reg) xs
  | [], _ => rfl
  | x :: xs, hc => by
    simp only [costExprs] at hc
    simp only [rewriteExprs, receiveOver_eq, countExprs, h.slot x (by omega),
      counted_slots h xs (by omega)]
    omega

theorem counted_optFieldList {reg : Registry} {n : Nat} (h : Counted reg n) :
    ∀ o, costOptFieldList o ≤ n →
    countOptFieldList (received reg) (rewriteOptFieldList reg o) =
      countOptFieldList (received reg) o + countOptFieldList (toWrap reg) o
  | none, _ => rfl
  | some x, hc => by
    simp only [costOptFieldList] at hc
    simp only [rewriteOptFieldList, receiveOver_eq, countOptFieldList, h.fieldList x hc]

theorem counted_fields {reg : Registry} {n : Nat} (h : Counted reg n) :
    ∀ xs, costFields xs ≤ n →
    countFields (received reg) (rewriteFields reg xs) =
      countFields (received reg) xs + countFields (toWrap reg) xs
  | [], _ => rfl
  | x :: xs, hc => by
    simp only [costFields] at hc
    simp only [rewriteFields, receiveOver_eq, countFields, h.field x (by omega),
      counted_fields h xs (by omega)]
    omega

theorem counted_optBlock {reg : Registry} {n : Nat} (h : Counted reg n) :
    ∀ o, costOptBlockStmt o ≤ n →
    countOptBlockStmt (received reg) (rewriteOptBlockStmt reg o) =
      countOptBlockStmt (received reg) o + countOptBlockStmt (toWrap reg) o
  | none, _ => rfl
  | some x, hc => by
    simp only [costOptBlockStmt] at hc
    simp only [rewriteOptBlockStmt, receiveOver_eq, countOptBlockStmt, h.block x hc]

theorem counted_optStmt {reg : Registry} {n : Nat} (h : Counted reg n) :
    ∀ o, costOptStmt o ≤ n →
    countOptStmt (received reg) (rewriteOptStmt reg o) =
      countOptStmt (received reg) o + countOptStmt (toWrap reg) o
  | none, _ => rfl
  | some x, hc => by
    simp only [costOptStmt] at hc
    simp only [rewriteOptStmt, receiveOver_eq, countOptStmt, h.stmt x hc]

theorem counted_stmts {reg : Registry} {n : Nat} (h : Counted reg n) :
    ∀ xs, costStmts xs ≤ n →
    countStmts (received reg) (rewriteStmts reg xs) =
      countStmts (received reg) xs + countStmts (toWrap reg) xs
  | [], _ => rfl
  | x :: xs, hc => by
    simp only [costStmts] at hc
    simp only [rewriteStmts, receiveOver_eq, countStmts, h.stmt x (by omega),
      counted_stmts h xs (by omega)]
    omega

theorem counted_specs {reg : Registry} {n : Nat} (h : Counted reg n) :
    ∀ xs, costSpecs xs ≤ n →
    countSpecs (received reg) (rewriteSpecs reg xs) =
      countSpecs (received reg) xs + countSpecs (toWrap reg) xs
  | [], _ => rfl
  | x :: xs, hc => by
    simp only [costSpecs] at hc
    simp only [rewriteSpecs, receiveOver_eq, countSpecs, h.spec x (by omega),
      counted_specs h xs (by omega)]
    omega

theorem received_rewriteExpr (reg : Registry) (x : Expr) :
    received reg (rewriteExpr reg x) = received reg x := by
  cases x with
  | UnaryExpr op y =>
    simp only [rewriteExpr, receiveOver_eq, received, isReceiveOverCall, isClearedCall_slot]
  | _ => simp [rewriteExpr, received, isReceiveOverCall]

theorem toWrap_eq_zero {reg : Registry} {x : Expr} (h : isRegisteredCall reg x = false) :
    toWrap reg x = 0 := by
  simp [toWrap, h]

theorem counted_call_succ {reg : Registry} {n : Nat} (ih : Counted reg n) (x : CallExpr)
    (hc : costCallExpr x ≤ n + 1) :
    countCallExpr (received reg) (rewriteCallExpr reg x) =
      countCallExpr (received reg) x + countCallExpr (toWrap reg) x := by
  cases x with
  | mk f l a e =>
    simp only [costCallExpr] at hc
    simp only [rewriteCallExpr, receiveOver_eq, countCallExpr]
    simp (disch := omega) only [ih.slot, counted_slots ih]
    omega

theorem counted_expr_succ {reg : Registry} {n : Nat} (ih : Counted reg n) (x : Expr)
    (hc : costExpr x ≤ n + 1) :
    countExpr (received reg) (rewriteExpr reg x) + toWrap reg x =
      countExpr (received reg) x + countExpr (toWrap reg) x := by
  have hroot := received_rewriteExpr reg x
  cases x with
  | CallExpr c =>
    simp only [costExpr] at hc
    simp only [rewriteExpr, receiveOver_eq] at hroot
    simp only [rewriteExpr, receiveOver_eq, countExpr, hroot, counted_call_succ ih c (by omega)]
    omega
  | FuncType t =>
    cases t with
    | mk p r =>
      simp only [costExpr, costFuncType] at hc
      simp only [rewriteExpr, receiveOver_eq, rewriteFuncType] at hroot
      simp only [rewriteExpr, receiveOver_eq, rewriteFuncType, countExpr, countFuncType, hroot]
      simp (disch := omega) only [counted_optFieldList ih]
      omega
  | _ =>
    simp only [costExpr] at hc
    simp only [rewriteExpr, receiveOver_eq] at hroot
    simp only [rewriteExpr, receiveOver_eq, countExpr, hroot]
    try simp (disch := omega) only [ih.slot, counted_optSlot ih, counted_slots ih, ih.funcType,
      ih.fieldList, counted_optBlock ih]
    try omega

theorem counted_slot_succ {reg : Registry} {n : Nat} (ih : Counted reg n) (x : Expr)
    (hc : costExpr x ≤ n + 1) :
    countExpr (received reg) (wrapInReceive reg (rewriteExpr reg x)) =
      countExpr (received reg) x + countExpr (toWrap reg) x := by
  cases hw : isRegisteredCall reg x with
  | false =>
    have hw2 : isRegisteredCall reg (rewriteExpr reg x) = false := by
      rw [isRegisteredCall_rewriteExpr, hw]
    rw [wrapInReceive_of_not_registered hw2]
    have h := counted_expr_succ ih x hc
    rw [toWrap_eq_zero hw] at h
    exact h
  | true =>
    obtain ⟨id, l, a, e, hx, hl, hr⟩ := isRegisteredCall_true hw
    subst hx
    simp only [costExpr, costCallExpr] at hc
    simp only [rewriteExpr, receiveOver_eq, rewriteCallExpr, wrapInReceive_ident,
      wrapInReceive_of_registered hl hr]
    simp only [countExpr, countCallExpr, counted_slots ih a (by omega)]
    simp [received, toWrap, isReceiveOverCall, isClearedCall, isRegisteredCall, hl, hr]
    omega

theorem counted_funcType_succ {reg : Registry} {n : Nat} (ih : Counted reg n) (x : FuncType)
    (hc : costFuncType x ≤ n + 1) :
    countFuncType (received reg) (rewriteFuncType reg x) =
      countFuncType (received reg) x + countFuncType (toWrap reg) x := by
  cases x with
  | mk p r =>
    simp only [costFuncType] at hc
    simp only [rewriteFuncType, countFuncType]
    simp (disch := omega) only [counted_optFieldList ih]
    omega

theorem counted_fieldList_succ {reg : Registry} {n : Nat} (ih : Counted reg n) (x : FieldList)
    (hc : costFieldList x ≤ n + 1) :
    countFieldList (received reg) (rewriteFieldList reg x) =
      countFieldList (received reg) x + countFieldList (toWrap reg) x := by
  cases x with
  | mk l =>
    simp only [costFieldList] at hc
    simp only [rewriteFieldList, countFieldList]
    simp (disch := omega) only [counted_fields ih]

theorem counted_field_succ {reg : Registry} {n : Nat} (ih : Counted reg n) (x : Field)
    (hc : costField x ≤ n + 1) :
    countField (received reg) (rewriteField reg x) =
      countField (received reg) x + countField (toWrap reg) x := by
  cases x with
  | mk d ns t tag c =>
    simp only [costField] at hc
    simp only [rewriteField, receiveOver_eq, countField]
    simp (disch := omega) only [ih.slot]

theorem counted_block_succ {reg : Registry} {n : Nat} (ih : Counted reg n) (x : BlockStmt)
    (hc : costBlockStmt x ≤ n + 1) :
    countBlockStmt (received reg) (rewriteBlockStmt reg x) =
      countBlockStmt (received reg) x + countBlockStmt (toWrap reg) x := by
  cases x with
  | mk l =>
    simp only [costBlockStmt] at hc
    simp only [rewriteBlockStmt, countBlockStmt]
    simp (disch := omega) only [counted_stmts ih]

theorem counted_stmt_succ {reg : Registry} {n : Nat} (ih : Counted reg n) (x : Stmt)
    (hc : costStmt x ≤ n + 1) :
    countStmt (received reg) (rewriteStmt reg x) =
      countStmt (received reg) x + countStmt (toWrap reg) x := by
  cases x with
  | BlockStmt b =>
    cases b with
    | mk l =>
      simp only [costStmt, costBlockStmt] at hc
      simp only [rewriteStmt, rewriteBlockStmt, countStmt, countBlockStmt]
      simp (disch := omega) only [counted_stmts ih]
  | _ =>
    simp only [costStmt] at hc
    simp only [rewriteStmt, receiveOver_eq, countStmt]
    try simp (disch := omega) only [ih.slot, counted_optSlot ih, counted_slots ih, ih.call, ih.decl,
      ih.stmt, counted_optStmt ih, counted_stmts ih, ih.block]
    try omega

theorem counted_spec_succ {reg : Registry} {n : Nat} (ih : Counted reg n) (x : Spec)
    (hc : costSpec x ≤ n + 1) :
    countSpec (received reg) (rewriteSpec reg x) =
      countSpec (received reg) x + countSpec (toWrap reg) x := by
  cases x <;> simp only [costSpec] at hc <;>
    simp only [rewriteSpec, receiveOver_eq, countSpec] <;>
    ((try simp (disch := omega) only [ih.slot, counted_optSlot ih, counted_slots ih]);
      try omega)

theorem counted_funcDecl_succ {reg : Registry} {n : Nat} (ih : Counted reg n) (x : FuncDecl)
    (hc : costFuncDecl x ≤ n + 1) :
    countFuncDecl (received reg) (rewriteFuncDecl reg x) =
      countFuncDecl (received reg) x + countFuncDecl (toWrap reg) x := by
  cases x with
  | mk d r nm t b =>
    simp only [costFuncDecl] at hc
    simp only [rewriteFuncDecl, countFuncDecl]
    simp (disch := omega) only [counted_optFieldList ih, ih.funcType, counted_optBlock ih]
    omega

theorem counted_decl_succ {reg : Registry} {n : Nat} (ih : Counted reg n) (x : Decl)
    (hc : costDecl x ≤ n + 1) :
    countDecl (received reg) (rewriteDecl reg x) =
      countDecl (received reg) x + countDecl (toWrap reg) x := by
  cases x with
  | BadDecl => rfl
  | GenDecl d tok specs =>
    simp only [costDecl] at hc
    simp only [rewriteDecl, countDecl]
    simp (disch := omega) only [counted_specs ih]
  | FuncDecl f =>
    cases f with
    | mk d r nm t b =>
      simp only [costDecl, costFuncDecl] at hc
      simp only [rewriteDecl, rewriteFuncDecl, countDecl, countFuncDecl]
      simp (disch := omega) only [counted_optFieldList ih, ih.funcType, counted_optBlock ih]
      omega

theorem counted_zero (reg : Registry) : Counted reg 0 where
  slot x hc := by have := costExpr_pos x; omega
  call x hc := by cases x; simp only [costCallExpr] at hc; omega
  funcType x hc := by cases x; simp only [costFuncType] at hc; omega
  fieldList x hc := by cases x; simp only [costFieldList] at hc; omega
  field x hc := by cases x; simp only [costField] at hc; omega
  block x hc := by cases x; simp only [costBlockStmt] at hc; omega
  stmt x hc := by have := costStmt_pos x; omega
  spec x hc := by cases x <;> simp only [costSpec] at hc <;> omega
  funcDecl x hc := by cases x; simp only [costFuncDecl] at hc; omega
  decl x hc := by have := costDecl_pos x; omega

theorem counted_succ {reg : Registry} {n : Nat} (ih : Counted reg n) : Counted reg (n + 1) where
  slot := counted_slot_succ ih
  call := counted_call_succ ih
  funcType := counted_funcType_succ ih
  fieldList := counted_fieldList_succ ih
  field := counted_field_succ ih
  block := counted_block_succ ih
  stmt := counted_stmt_succ ih
  spec := counted_spec_succ ih
  funcDecl := counted_funcDecl_succ ih
  decl := counted_decl_succ ih

/-- The specification-side rewrite adds one receive over a cleared call of a registered
name for every parenthesized direct call of a registered name that stands in an
expression position, and no other. -/
theorem counted_all (reg : Registry) : ∀ n, Counted reg n
  | 0 => counted_zero reg
  | n + 1 => counted_succ (counted_all reg n)

/-! ## What becomes of a call of a registered name -/

/-- A part that holds a parenthesized direct call of a registered name: the
specification-side rewrite leaves the receive over the call, with the arguments
rewritten and the `Lparen` cleared. -/
theorem receiveOver_rewrite_call {reg : Registry} {id : Ident} {l : Pos} (a : List Expr)
    (e : Pos) (hl : l ≠ NoPos) (hr : reg id.Name = true) :
    receiveOver reg (rewriteExpr reg (.CallExpr (.mk (.Ident id) l a e))) =
      .UnaryExpr .ARROW (.CallExpr (.mk (.Ident id) NoPos (rewriteExprs reg a) e)) := by
  simp only [rewriteExpr, rewriteCallExpr, receiveOver_eq, wrapInReceive_ident,
    wrapInReceive_of_registered hl hr]

theorem toWrap_call {reg : Registry} {id : Ident} {l : Pos} (a : List Expr) (e : Pos)
    (hl : l ≠ NoPos) (hr : reg id.Name = true) :
    toWrap reg (.CallExpr (.mk (.Ident id) l a e)) = 1 := by
  simp [toWrap, isRegisteredCall, hl, hr]

theorem received_receive {reg : Registry} {id : Ident} (a : List Expr) (e : Pos)
    (hr : reg id.Name = true) :
    received reg (.UnaryExpr .ARROW (.CallExpr (.mk (.Ident id) NoPos a e))) = 1 := by
  simp [received, isReceiveOverCall, isClearedCall, hr]

/-! ## The whole pass over a file -/

theorem rewriteStep_walkable (reg : Registry) (fuel : Nat) (d : Decl)
    (h : walkable fuel d = true) : rewriteStep reg fuel d = .ok (rewriteTopLevel reg d) := by
  cases d with
  | FuncDecl f =>
    simp only [walkable, Bool.and_eq_true, decide_eq_true_eq] at h
    exact rewriteStep_funcDecl reg fuel f h.1 h.2
  | _ => rfl

theorem walkList_rewriteStep (reg : Registry) (fuel : Nat) :
    ∀ ds : List Decl, ds.all (walkable fuel) = true →
      walkList (rewriteStep reg fuel) ds = .ok (ds.map (rewriteTopLevel reg))
  | [], _ => rfl
  | d :: ds, h => by
    simp only [List.all_cons, Bool.and_eq_true] at h
    simp only [walkList, rewriteStep_walkable reg fuel d h.1,
      walkList_rewriteStep reg fuel ds h.2, bind_ok_eq, List.map]
    rfl

/-- The whole pass on a file whose declarations, after the scan loop, can be walked
with the fuel: every declaration is replaced by the rewrite, under the registry of
the whole file, of what the scan loop made of it. -/
theorem main_ok (fuel : Nat) (decls : List Decl)
    (h : (decls.map scanDecl).all (walkable fuel) = true) :
    main fuel { Decls := decls } =
      .ok (File.mk (decls.map
        (fun d => rewriteTopLevel (scanRegistry Registry.empty decls) (scanDecl d)))) := by
  rw [main_eq, walkList_rewriteStep _ fuel _ h, List.map_map]
  rfl

theorem all_walkable_perm {fuel : Nat} {ds ds2 : List Decl} (hperm : ds2.Perm ds)
    (h : (ds.map scanDecl).all (walkable fuel) = true) :
    (ds2.map scanDecl).all (walkable fuel) = true := by
  rw [List.all_eq_true] at h ⊢
  intro x hx
  exact h x ((hperm.map scanDecl).mem_iff.1 hx)

/-! ## A call statement in the body of a declaration -/

theorem mem_rewriteStmts (reg : Registry) (s : Stmt) :
    ∀ ss : List Stmt, s ∈ ss → rewriteStmt reg s ∈ rewriteStmts reg ss
  | [], h => by cases h
  | x :: xs, h => by
    rw [rewriteStmts]
    rcases List.mem_cons.1 h with h | h
    · subst h
      exact List.mem_cons_self _ _
    · exact List.mem_cons_of_mem _ (mem_rewriteStmts reg s xs h)

theorem scanDecl_not_eligible {g : FuncDecl} (h : eligible g = false) :
    scanDecl (.FuncDecl g) = .FuncDecl g := by
  simp [scanDecl, h]

/-- A statement that is a parenthesized call of a registered identifier, in the body of a
function declaration that the scan loop leaves alone: in the rewrite of the declaration
the statement is the receive over the call. -/
theorem rewriteFuncDecl_exprStmt_call {reg : Registry} {g : FuncDecl} {stmts : List Stmt}
    {id : Ident} {l : Pos} (a : List Expr) (e : Pos)
    (hb : g.Body = some (.mk stmts))
    (hs : Stmt.ExprStmt (.CallExpr (.mk (.Ident id) l a e)) ∈ stmts)
    (hl : l ≠ NoPos) (hr : reg id.Name = true) :
    (rewriteFuncDecl reg g).Name = g.Name ∧
      (rewriteFuncDecl reg g).Body = some (.mk (rewriteStmts reg stmts)) ∧
      Stmt.ExprStmt (.UnaryExpr .ARROW (.CallExpr (.mk (.Ident id) NoPos (rewriteExprs reg a) e)))
        ∈ rewriteStmts reg stmts := by
  cases g with
  | mk d r nm t b =>
    simp only [FuncDecl.Body] at hb
    subst hb
    refine ⟨rfl, rfl, ?_⟩
    have h := mem_rewriteStmts reg _ stmts hs
    rw [rewriteStmt, receiveOver_rewrite_call a e hl hr] at h
    exact h

/-! # The claims -/

/-! ## C1: the registry after the scan phase -/

/-- C1 (the code at the failing input). For the file that consists of
`func f() (a, b int) \x7b return 1, 2 \x7d` the scan phase enters `f` in the registry,
although `f` declares two results and no declaration of the file is a function named
`f` with exactly one declared result: the guard of the scan loop counts the entries
of the result list, and the two results are declared in one entry. -/
theorem C1_two_named_results_registered :
    ∃ reg decls, scanPhase Registry.empty [.FuncDecl twoNamedResults] = .ok (reg, decls) ∧
      reg "f" = true ∧ NumFields twoNamedResults.Type_.Results = 2 ∧
      (∃ results, twoNamedResults.Type_.Results = some results ∧ results.List_.length = 1) ∧
      ¬ ∃ g, Decl.FuncDecl g ∈ [Decl.FuncDecl twoNamedResults] ∧ g.Name.Name = "f" ∧
          g.Recv = none ∧ NumFields g.Type_.Results = 1 := by
  refine ⟨_, _, scanPhase_eq _ _, by decide, by decide, ⟨_, rfl, rfl⟩, ?_⟩
  rintro ⟨g, hg, -, -, hn⟩
  simp only [List.mem_singleton, Decl.FuncDecl.injEq] at hg
  subst hg
  revert hn
  decide

/-! ## C2, C3: the declaration transformer -/

/-- C2. For a declaration `f` without receiver whose result list is the single field
`field` (of type `T = field.Type_`), `increaseSpeed f` succeeds and yields a
declaration with the name, the parameter list and the documentation of `f`, no
receiver, and a result list of exactly one field, without names, whose type is the
bidirectional channel type `chan T`. -/
theorem C2_increaseSpeed_signature (f : FuncDecl) (field : Field)
    (hrecv : f.Recv = none) (hres : f.Type_.Results = some (.mk [field])) :
    ∃ res, increaseSpeed f = .ok res ∧
      res.Name = f.Name ∧ res.Type_.Params = f.Type_.Params ∧ res.Doc = f.Doc ∧
      res.Recv = none ∧
      res.Type_.Results =
        some (.mk [.mk none [] (.ChanType (SEND ||| RECV) field.Type_) none none]) := by
  exact ⟨_, increaseSpeed_eq f field [] hres, rfl, rfl, rfl, hrecv, rfl⟩

/-- C2 (witness): the theorem at `func Add(a, b int) int`. -/
theorem C2_increaseSpeed_signature_witness :
    ∃ res, increaseSpeed addDecl = .ok res ∧
      res.Name = addDecl.Name ∧ res.Type_.Params = addDecl.Type_.Params ∧
      res.Doc = addDecl.Doc ∧ res.Recv = none ∧
      res.Type_.Results =
        some (.mk [.mk none [] (.ChanType (SEND ||| RECV)
          (Field.mk none [] intType none none).Type_) none none]) :=
  C2_increaseSpeed_signature addDecl (.mk none [] intType none none) rfl rfl

/-- C3. For a declaration `f` without receiver whose result list is the single field
`field` (of type `T`) and whose body is `B`, the body of `increaseSpeed f` is exactly
three statements: the definition `result := make(chan T)` with the channel type as
the only argument of `make`; a `go` statement calling, without arguments, a function
literal with an empty parameter list and no results whose only statement sends to
`result` the value of calling, without arguments, a function literal without
parameters that has the result list and the body `B` of `f`; and `return result`.
The three occurrences of `result` are the one identifier `resultIdent`, whose name
is `result`. -/
theorem C3_increaseSpeed_body (f : FuncDecl) (field : Field) (B : BlockStmt)
    (hrecv : f.Recv = none) (hres : f.Type_.Results = some (.mk [field]))
    (hbody : f.Body = some B) :
    ∃ res, increaseSpeed f = .ok res ∧
      res.Body = some (.mk [
        .AssignStmt [.Ident resultIdent] .DEFINE
          [.CallExpr (.mk (.Ident (NewIdent "make")) NoPos
            [.ChanType (SEND ||| RECV) field.Type_] NoPos)],
        .GoStmt (.mk
          (.FuncLit (.mk (some (.mk [])) none)
            (some (.mk [
              .SendStmt (.Ident resultIdent)
                (.CallExpr (.mk (.FuncLit (.mk none (some (.mk [field]))) (some B))
                  NoPos [] NoPos))])))
          NoPos [] NoPos),
        .ReturnStmt [.Ident resultIdent]]) ∧
      resultIdent.Name = "result" := by
  have _ := hrecv
  refine ⟨_, increaseSpeed_eq f field [] hres, ?_, rfl⟩
  rw [hbody, hres]
  rfl

/-- C3 (witness): the theorem at `func Add(a, b int) int \x7b return a + b \x7d`. -/
theorem C3_increaseSpeed_body_witness :
    ∃ res, increaseSpeed addDecl = .ok res ∧
      res.Body = some (.mk [
        .AssignStmt [.Ident resultIdent] .DEFINE
          [.CallExpr (.mk (.Ident (NewIdent "make")) NoPos
            [.ChanType (SEND ||| RECV) (Field.mk none [] intType none none).Type_] NoPos)],
        .GoStmt (.mk
          (.FuncLit (.mk (some (.mk [])) none)
            (some (.mk [
              .SendStmt (.Ident resultIdent)
                (.CallExpr (.mk (.FuncLit (.mk none (some (.mk [.mk none [] intType none none])))
                    (some (.mk [.ReturnStmt
                      [.BinaryExpr (.Ident (NewIdent "a")) .ADD (.Ident (NewIdent "b"))]])))
                  NoPos [] NoPos))])))
          NoPos [] NoPos),
        .ReturnStmt [.Ident resultIdent]]) ∧
      resultIdent.Name = "result" :=
  C3_increaseSpeed_body addDecl (.mk none [] intType none none) _ rfl rfl rfl

/-! ## C4: coverage of the call-site rewrite -/

/-- C4 (counterexample). In the file `func F(x int) int \x7b return x \x7d` followed by
`func g() \x7b go F(1) \x7d`, the name `F` is registered and `F(1)` is a parenthesized
call whose callee is the bare identifier `F`; the full pass nevertheless returns the
declaration of `g` as it was: the call is still the operand of the `go` statement and
no receive has taken its place. -/
theorem C4_counterexample_go_operand :
    ∃ reg decls out,
      scanPhase Registry.empty goFile.Decls = .ok (reg, decls) ∧
      isRegisteredCall reg (.CallExpr callF1) = true ∧
      goCaller.Body = some (.mk [.GoStmt callF1]) ∧
      main 20 goFile = .ok { Decls := [out, .FuncDecl goCaller] } :=
  ⟨_, _, _, scanPhase_eq _ _, by decide, rfl, rfl⟩

/-- C4 (amended). Let `f` be any function declaration, transformed or not, in which
every function literal has a body, and let the fuel cover `f`. The walk of `f`
succeeds, and its result is the rewrite as the specification words it, which puts the
receive `<-f(args')` in the place of every part that is a parenthesized direct call
`f(args)` of a registered name, in every statement kind and expression kind and in
the bodies of function literals, and leaves the operand of a `go` or `defer`
statement a call. In the result no expression position holds a parenthesized direct
call of a registered name; the result has one receive over a cleared call of a
registered name more than `f` for every such call in an expression position of `f`;
and apart from these receives and the cleared `Lparen` marks it is `f`. A
parenthesized call of a registered identifier is such a call, `wrapInReceive` makes
it the receive over the same call with `Lparen` cleared, and with its arguments
rewritten that receive is what stands in the output. -/
theorem C4_walk_rewrites_expression_positions (reg : Registry) (f : FuncDecl) (fuel : Nat)
    (hfuel : costFuncDecl f ≤ fuel) (hbody : bodiedFuncDecl f = true) :
    walkFuncDecl reg fuel f = .ok (rewriteFuncDecl reg f) ∧
      everyFuncDecl (notRegistered reg) (fun _ => true) (rewriteFuncDecl reg f) = true ∧
      countFuncDecl (received reg) (rewriteFuncDecl reg f) =
        countFuncDecl (received reg) f + countFuncDecl (toWrap reg) f ∧
      unwrapFuncDecl reg (rewriteFuncDecl reg f) = unwrapFuncDecl reg f ∧
      ∀ (ident : Ident) (lparen : Pos) (args : List Expr) (ellipsis : Pos),
        reg ident.Name = true → lparen ≠ NoPos →
        toWrap reg (.CallExpr (.mk (.Ident ident) lparen args ellipsis)) = 1 ∧
          wrapInReceive reg (.CallExpr (.mk (.Ident ident) lparen args ellipsis)) =
            .UnaryExpr .ARROW (.CallExpr (.mk (.Ident ident) NoPos args ellipsis)) ∧
          receiveOver reg (rewriteExpr reg (.CallExpr (.mk (.Ident ident) lparen args ellipsis))) =
            .UnaryExpr .ARROW
              (.CallExpr (.mk (.Ident ident) NoPos (rewriteExprs reg args) ellipsis)) ∧
          received reg (.UnaryExpr .ARROW
            (.CallExpr (.mk (.Ident ident) NoPos (rewriteExprs reg args) ellipsis))) = 1 :=
  ⟨(walkSpec_all reg fuel).funcDecl f hfuel hbody,
    (covered_all reg (costFuncDecl f)).funcDecl f (Nat.le_refl _),
    (counted_all reg (costFuncDecl f)).funcDecl f (Nat.le_refl _),
    (erased_all reg (costFuncDecl f)).funcDecl f (Nat.le_refl _),
    fun _ _ args ellipsis hr hl =>
      ⟨toWrap_call args ellipsis hl hr, wrapInReceive_of_registered hl hr,
        receiveOver_rewrite_call args ellipsis hl hr, received_receive _ ellipsis hr⟩⟩

/-- C4 (witness): the theorem at `func use() \x7b Add(2, 3) \x7d` with `Add` registered;
the walk yields `func use() \x7b <-Add(2, 3) \x7d`, with one receive where the input had
one call to wrap. -/
theorem C4_walk_rewrites_expression_positions_witness :
    walkFuncDecl addRegistry 10 addCaller = .ok useFaster ∧
      countFuncDecl (toWrap addRegistry) addCaller = 1 ∧
      countFuncDecl (received addRegistry) useFaster = 1 ∧
      (walkFuncDecl addRegistry 10 addCaller = .ok (rewriteFuncDecl addRegistry addCaller) ∧
        everyFuncDecl (notRegistered addRegistry) (fun _ => true)
          (rewriteFuncDecl addRegistry addCaller) = true ∧
        countFuncDecl (received addRegistry) (rewriteFuncDecl addRegistry addCaller) =
          countFuncDecl (received addRegistry) addCaller +
            countFuncDecl (toWrap addRegistry) addCaller ∧
        unwrapFuncDecl addRegistry (rewriteFuncDecl addRegistry addCaller) =
          unwrapFuncDecl addRegistry addCaller ∧
        ∀ (ident : Ident) (lparen : Pos) (args : List Expr) (ellipsis : Pos),
          addRegistry ident.Name = true → lparen ≠ NoPos →
          toWrap addRegistry (.CallExpr (.mk (.Ident ident) lparen args ellipsis)) = 1 ∧
            wrapInReceive addRegistry (.CallExpr (.mk (.Ident ident) lparen args ellipsis)) =
              .UnaryExpr .ARROW (.CallExpr (.mk (.Ident ident) NoPos args ellipsis)) ∧
            receiveOver addRegistry
                (rewriteExpr addRegistry (.CallExpr (.mk (.Ident ident) lparen args ellipsis))) =
              .UnaryExpr .ARROW
                (.CallExpr (.mk (.Ident ident) NoPos (rewriteExprs addRegistry args) ellipsis)) ∧
            received addRegistry (.UnaryExpr .ARROW
              (.CallExpr (.mk (.Ident ident) NoPos (rewriteExprs addRegistry args) ellipsis))) =
                1) :=
  ⟨rfl, by decide, by decide,
    C4_walk_rewrites_expression_positions addRegistry addCaller 10 (by decide) (by decide)⟩

/-! ## C5: what is not rewritten -/

/-- C5. Let `expr` be (i) not a call expression, or (ii) a call whose callee is not a
bare identifier, or (iii) a call of an identifier without registry entry. Then
`wrapInReceive` returns `expr` itself, and the pass does not put a receive in its
place: in a position that held `expr`, what the walk leaves (with fuel that covers
`expr`, all function literals having bodies) is the node `expr` with its parts
rewritten, a node of the same kind as `expr`, on which `wrapInReceive` is again the
identity. -/
theorem C5_not_wrapped (reg : Registry) (expr : Expr) (fuel : Nat)
    (h : (∀ call, expr ≠ .CallExpr call) ∨
      (∃ call, expr = .CallExpr call ∧ ∀ ident, call.Fun ≠ .Ident ident) ∨
      (∃ call ident, expr = .CallExpr call ∧ call.Fun = .Ident ident ∧
        reg ident.Name = false))
    (hfuel : costExpr expr ≤ fuel) (hbody : bodiedExpr expr = true) :
    wrapInReceive reg expr = expr ∧
      walkExpr reg fuel (wrapInReceive reg expr) = .ok (rewriteExpr reg expr) ∧
      nodeKind (rewriteExpr reg expr) = nodeKind expr ∧
      wrapInReceive reg (rewriteExpr reg expr) = rewriteExpr reg expr := by
  have hw : isRegisteredCall reg expr = false := by
    cases hr : isRegisteredCall reg expr with
    | false => rfl
    | true =>
      obtain ⟨id, l, a, e, hx, -, hreg⟩ := isRegisteredCall_true hr
      rcases h with h | ⟨c, hc, hf⟩ | ⟨c, id2, hc, hf, hn⟩
      · exact absurd hx (h _)
      · rw [hx] at hc
        cases hc
        exact absurd rfl (hf id)
      · rw [hx] at hc
        cases hc
        simp only [CallExpr.Fun, Expr.Ident.injEq] at hf
        subst hf
        rw [hreg] at hn
        cases hn
  have hw2 : isRegisteredCall reg (rewriteExpr reg expr) = false := by
    rw [isRegisteredCall_rewriteExpr, hw]
  refine ⟨wrapInReceive_of_not_registered hw, ?_, ?_, wrapInReceive_of_not_registered hw2⟩
  · rw [wrapInReceive_of_not_registered hw]
    exact (walkSpec_all reg fuel).expr expr hfuel hbody
  · cases expr <;> rfl

/-- C5 (witness): the theorem at the method call `r.M()` of scenario B, with `M` in
the registry. -/
theorem C5_not_wrapped_witness :
    wrapInReceive (Registry.empty.setTrue "M") callMethodM = callMethodM ∧
      walkExpr (Registry.empty.setTrue "M") 5 (wrapInReceive (Registry.empty.setTrue "M")
        callMethodM) = .ok (rewriteExpr (Registry.empty.setTrue "M") callMethodM) ∧
      nodeKind (rewriteExpr (Registry.empty.setTrue "M") callMethodM) = nodeKind callMethodM ∧
      wrapInReceive (Registry.empty.setTrue "M") (rewriteExpr (Registry.empty.setTrue "M")
        callMethodM) = rewriteExpr (Registry.empty.setTrue "M") callMethodM :=
  C5_not_wrapped (Registry.empty.setTrue "M") callMethodM 5
    (Or.inr (Or.inl ⟨_, rfl, fun ident h => by cases h⟩)) (by decide) (by decide)



/-! ## C6: declaration order -/

/-- C6. Let `f` be an eligible function declared anywhere in the file `decls`, let
`decls2` be the same declarations in any other order, and let the fuel cover the
declarations the scan loop leaves. The scan phase yields one registry `reg` for both
orders, and it holds the name of `f`. The whole pass succeeds on both files and
replaces every top-level declaration `d`, wherever it stands, by the rewrite under
`reg` of what the scan loop made of `d`: a declaration before the declaration of `f`
is rewritten like one after it. In every function declaration of the output no
expression position holds a parenthesized direct call of a registered name, and the
declaration got one receive for each such call. A statement `f(args)` in the body of
a function `g` of the file that the scan loop leaves alone, declared before `f` or
after it, is the statement `<-f(args')` in the declaration of `g` in the output. A
parenthesized call whose callee is
an identifier spelled like `f` is such a call: `wrapInReceive` makes it the receive
over the call with `Lparen` cleared, and with its arguments rewritten that receive
is what stands in the output. -/
theorem C6_order_of_declarations (decls decls2 : List Decl) (f : FuncDecl) (fuel : Nat)
    (hperm : decls2.Perm decls) (hf : Decl.FuncDecl f ∈ decls) (helig : eligible f = true)
    (hfit : (decls.map scanDecl).all (walkable fuel) = true) :
    ∃ reg,
      scanPhase Registry.empty decls = .ok (reg, decls.map scanDecl) ∧
      scanPhase Registry.empty decls2 = .ok (reg, decls2.map scanDecl) ∧
      reg f.Name.Name = true ∧
      main fuel (File.mk decls) =
        .ok (File.mk (decls.map (fun d => rewriteTopLevel reg (scanDecl d)))) ∧
      main fuel (File.mk decls2) =
        .ok (File.mk (decls2.map (fun d => rewriteTopLevel reg (scanDecl d)))) ∧
      (∀ g, Decl.FuncDecl g ∈ decls.map scanDecl →
        rewriteTopLevel reg (.FuncDecl g) = .FuncDecl (rewriteFuncDecl reg g) ∧
          everyFuncDecl (notRegistered reg) (fun _ => true) (rewriteFuncDecl reg g) = true ∧
          countFuncDecl (received reg) (rewriteFuncDecl reg g) =
            countFuncDecl (received reg) g + countFuncDecl (toWrap reg) g) ∧
      (∀ (g : FuncDecl) (stmts : List Stmt) (ident : Ident) (lparen : Pos) (args : List Expr)
          (ellipsis : Pos),
        Decl.FuncDecl g ∈ decls → eligible g = false → g.Body = some (.mk stmts) →
        Stmt.ExprStmt (.CallExpr (.mk (.Ident ident) lparen args ellipsis)) ∈ stmts →
        ident.Name = f.Name.Name → lparen ≠ NoPos →
        ∃ out g2 stmts2, main fuel (File.mk decls) = .ok out ∧
          Decl.FuncDecl g2 ∈ out.Decls ∧ g2.Name = g.Name ∧ g2.Body = some (.mk stmts2) ∧
          Stmt.ExprStmt (.UnaryExpr .ARROW
            (.CallExpr (.mk (.Ident ident) NoPos (rewriteExprs reg args) ellipsis))) ∈ stmts2) ∧
      ∀ (ident : Ident) (lparen : Pos) (args : List Expr) (ellipsis : Pos),
        ident.Name = f.Name.Name → lparen ≠ NoPos →
        toWrap reg (.CallExpr (.mk (.Ident ident) lparen args ellipsis)) = 1 ∧
          wrapInReceive reg (.CallExpr (.mk (.Ident ident) lparen args ellipsis)) =
            .UnaryExpr .ARROW (.CallExpr (.mk (.Ident ident) NoPos args ellipsis)) ∧
          receiveOver reg (rewriteExpr reg (.CallExpr (.mk (.Ident ident) lparen args ellipsis))) =
            .UnaryExpr .ARROW
              (.CallExpr (.mk (.Ident ident) NoPos (rewriteExprs reg args) ellipsis)) := by
  have hreg : scanRegistry Registry.empty decls f.Name.Name = true := by
    rw [scanRegistry_true]
    exact Or.inr ⟨f, hf, helig, rfl⟩
  refine ⟨scanRegistry Registry.empty decls, scanPhase_eq _ _, ?_, hreg, main_ok fuel decls hfit,
    ?_, fun g _ => ⟨rfl, (covered_all _ (costFuncDecl g)).funcDecl g (Nat.le_refl _),
      (counted_all _ (costFuncDecl g)).funcDecl g (Nat.le_refl _)⟩,
    fun g stmts ident lparen args ellipsis hg hne hb hs hname hl => ?_,
    fun ident lparen args ellipsis hname hl => ?_⟩
  · rw [← scanRegistry_perm decls decls2 hperm]
    exact scanPhase_eq _ _
  · rw [← scanRegistry_perm decls decls2 hperm]
    exact main_ok fuel decls2 (all_walkable_perm hperm hfit)
  · have hr : scanRegistry Registry.empty decls ident.Name = true := by rw [hname]; exact hreg
    obtain ⟨h1, h2, h3⟩ := rewriteFuncDecl_exprStmt_call args ellipsis hb hs hl hr
    refine ⟨_, _, _, main_ok fuel decls hfit, ?_, h1, h2, h3⟩
    exact List.mem_map.2 ⟨.FuncDecl g, hg, by rw [scanDecl_not_eligible hne]; rfl⟩
  · have hr : scanRegistry Registry.empty decls ident.Name = true := by rw [hname]; exact hreg
    exact ⟨toWrap_call args ellipsis hl hr, wrapInReceive_of_registered hl hr,
      receiveOver_rewrite_call args ellipsis hl hr⟩

/-- C6 (witness): the theorem at the file in which `use`, which calls `Add(2, 3)`,
precedes the declaration of `Add`, and at the file of scenario A, in which it follows
it. In the output of both, `use` is `func use() \x7b <-Add(2, 3) \x7d`. -/
theorem C6_order_of_declarations_witness :
    main 39 forwardReferenceFile = .ok (File.mk [.FuncDecl useFaster, .FuncDecl addFaster]) ∧
      main 39 scenarioA = .ok (File.mk [.FuncDecl addFaster, .FuncDecl useFaster]) ∧
      ∃ reg,
        scanPhase Registry.empty forwardReferenceFile.Decls =
          .ok (reg, forwardReferenceFile.Decls.map scanDecl) ∧
        scanPhase Registry.empty scenarioA.Decls = .ok (reg, scenarioA.Decls.map scanDecl) ∧
        reg addDecl.Name.Name = true ∧
        main 39 (File.mk forwardReferenceFile.Decls) =
          .ok (File.mk (forwardReferenceFile.Decls.map
            (fun d => rewriteTopLevel reg (scanDecl d)))) ∧
        main 39 (File.mk scenarioA.Decls) =
          .ok (File.mk (scenarioA.Decls.map (fun d => rewriteTopLevel reg (scanDecl d)))) ∧
        (∀ g, Decl.FuncDecl g ∈ forwardReferenceFile.Decls.map scanDecl →
          rewriteTopLevel reg (.FuncDecl g) = .FuncDecl (rewriteFuncDecl reg g) ∧
            everyFuncDecl (notRegistered reg) (fun _ => true) (rewriteFuncDecl reg g) = true ∧
            countFuncDecl (received reg) (rewriteFuncDecl reg g) =
              countFuncDecl (received reg) g + countFuncDecl (toWrap reg) g) ∧
        (∀ (g : FuncDecl) (stmts : List Stmt) (ident : Ident) (lparen : Pos) (args : List Expr)
            (ellipsis : Pos),
          Decl.FuncDecl g ∈ forwardReferenceFile.Decls → eligible g = false →
          g.Body = some (.mk stmts) →
          Stmt.ExprStmt (.CallExpr (.mk (.Ident ident) lparen args ellipsis)) ∈ stmts →
          ident.Name = addDecl.Name.Name → lparen ≠ NoPos →
          ∃ out g2 stmts2, main 39 (File.mk forwardReferenceFile.Decls) = .ok out ∧
            Decl.FuncDecl g2 ∈ out.Decls ∧ g2.Name = g.Name ∧ g2.Body = some (.mk stmts2) ∧
            Stmt.ExprStmt (.UnaryExpr .ARROW
              (.CallExpr (.mk (.Ident ident) NoPos (rewriteExprs reg args) ellipsis))) ∈ stmts2) ∧
        ∀ (ident : Ident) (lparen : Pos) (args : List Expr) (ellipsis : Pos),
          ident.Name = addDecl.Name.Name → lparen ≠ NoPos →
          toWrap reg (.CallExpr (.mk (.Ident ident) lparen args ellipsis)) = 1 ∧
            wrapInReceive reg (.CallExpr (.mk (.Ident ident) lparen args ellipsis)) =
              .UnaryExpr .ARROW (.CallExpr (.mk (.Ident ident) NoPos args ellipsis)) ∧
            receiveOver reg
                (rewriteExpr reg (.CallExpr (.mk (.Ident ident) lparen args ellipsis))) =
              .UnaryExpr .ARROW
                (.CallExpr (.mk (.Ident ident) NoPos (rewriteExprs reg args) ellipsis)) :=
  ⟨rfl, rfl, C6_order_of_declarations forwardReferenceFile.Decls scenarioA.Decls addDecl 39
    (List.Perm.swap _ _ _) (List.mem_cons_of_mem _ (List.mem_singleton.2 rfl)) (by decide)
    (by decide)⟩

/-! ## C7: the declarations the scan phase leaves alone -/

/-- C7 (the code at the failing input). `func f() (a, b int) \x7b return 1, 2 \x7d` is
a function without receiver that declares more than one result, and the scan phase
does not leave it unchanged: it registers `f` and puts in its place the declaration
that `increaseSpeed` builds, with the one result `chan int` and a body that sends to
the channel the value of a function literal which still declares the two results
`(a, b int)`. -/
theorem C7_two_named_results_transformed :
    twoNamedResults.Recv = none ∧ NumFields twoNamedResults.Type_.Results = 2 ∧
      ∃ res, scanStep Registry.empty (.FuncDecl twoNamedResults) =
          .ok (Registry.empty.setTrue "f", .FuncDecl res) ∧
        increaseSpeed twoNamedResults = .ok res ∧
        res.Type_.Results =
          some (.mk [.mk none [] (.ChanType (SEND ||| RECV) intType) none none]) ∧
        res.Type_.Results ≠ twoNamedResults.Type_.Results ∧
        res.Body = some (.mk [
          .AssignStmt [.Ident resultIdent] .DEFINE
            [.CallExpr (.mk (.Ident (NewIdent "make")) NoPos
              [.ChanType (SEND ||| RECV) intType] NoPos)],
          .GoStmt (.mk
            (.FuncLit (.mk (some (.mk [])) none)
              (some (.mk [
                .SendStmt (.Ident resultIdent)
                  (.CallExpr (.mk
                    (.FuncLit
                      (.mk none (some (.mk
                        [.mk none [NewIdent "a", NewIdent "b"] intType none none])))
                      (some (.mk [.ReturnStmt
                        [.BasicLit ⟨.INT, "1"⟩, .BasicLit ⟨.INT, "2"⟩]])))
                    NoPos [] NoPos))])))
            NoPos [] NoPos),
          .ReturnStmt [.Ident resultIdent]]) :=
  ⟨rfl, by decide, _, rfl, rfl, rfl, by
    intro h
    simp [twoNamedResults, FuncDecl.Type_, FuncType.Results] at h, rfl⟩

/-! ## C8: scenario A -/

/-- C8. Scenario A: for the file of `func Add(a, b int) int \x7b return a + b \x7d` and
`func use() \x7b Add(2, 3) \x7d`, the full pass, with fuel 39 or more, yields the file
`scenarioAOut`: `Add` keeps its parameters, returns `chan int` and has the body
`result := make(chan int); go func() \x7b result <- func() int \x7b return a + b \x7d() \x7d();
return result`, and the call site is the receive `<-Add(2, 3)` with the arguments `2`
and `3` unchanged. -/
theorem C8_scenario_A (fuel : Nat) (hfuel : 39 ≤ fuel) :
    main fuel scenarioA = .ok scenarioAOut := by
  have h1 : costFuncDecl addCaller ≤ fuel := by
    have : costFuncDecl addCaller ≤ 39 := by decide
    omega
  have h2 : costFuncDecl addFaster ≤ fuel := by
    have : costFuncDecl addFaster ≤ 39 := by decide
    omega
  have hs : [Decl.FuncDecl addDecl, Decl.FuncDecl addCaller].map scanDecl =
      [.FuncDecl addFaster, .FuncDecl addCaller] := rfl
  rw [scenarioA, main_eq, hs]
  simp only [walkList, rewriteStep_funcDecl _ fuel addFaster h2 (by decide),
    rewriteStep_funcDecl _ fuel addCaller h1 (by decide), bind_ok_eq]
  rfl

/-- C8 (witness): the theorem at fuel 39. -/
theorem C8_scenario_A_witness : 39 ≤ 39 ∧ main 39 scenarioA = .ok scenarioAOut :=
  ⟨Nat.le_refl _, C8_scenario_A 39 (Nat.le_refl _)⟩



/-! ## C9: calls inside the original body -/

/-- C9 (counterexample). `func F(x int) int \x7b defer F(1); return x \x7d` is eligible
and `F(1)` in its body is a parenthesized direct call of the registered name `F`.
After the full pass the declaration is what `increaseSpeed` made of it, with the
original body embedded as it was: the operand of the `defer` statement is still the
call `F(1)` and is not wrapped in a receive. -/
theorem C9_counterexample_defer_in_body :
    ∃ reg decls res,
      scanPhase Registry.empty [.FuncDecl deferSelfDecl] = .ok (reg, decls) ∧
      isRegisteredCall reg (.CallExpr callF1) = true ∧
      deferSelfDecl.Body =
        some (.mk [.DeferStmt callF1, .ReturnStmt [.Ident (NewIdent "x")]]) ∧
      increaseSpeed deferSelfDecl = .ok res ∧
      main 40 { Decls := [.FuncDecl deferSelfDecl] } = .ok { Decls := [.FuncDecl res] } :=
  ⟨_, _, _, scanPhase_eq _ _, by decide, rfl, rfl, rfl⟩

/-- C9 (amended). Let `f` be an eligible declaration with the single result field
`field` and the body `B`, every function literal in `f` having a body, and the result
type not being itself a call that `wrapInReceive` wraps. Then `increaseSpeed f`
succeeds, and the walk of its result with any fuel that covers it succeeds and
yields the declaration in which the inner function literal of the `go` statement
holds the rewrite of `B` as the specification words it. In that rewrite of `B` no
expression position holds a parenthesized direct call of a registered name; it has
one receive over a cleared call of a registered name more than `B` for every such
call in an expression position of `B`; and apart from these receives and the cleared
`Lparen` marks it is `B`. A parenthesized call of a registered identifier, the name
of `f` itself or of a mutually recursive function included, is such a call, and the
receive over it, with `Lparen` cleared and the arguments rewritten, is what stands in
its place. The operand of a `go` or `defer` statement in `B` stays a call. -/
theorem C9_original_body_rewritten (reg : Registry) (f : FuncDecl) (field : Field)
    (B : BlockStmt)
    (hrecv : f.Recv = none) (hres : f.Type_.Results = some (.mk [field]))
    (hB : f.Body = some B) (htype : isRegisteredCall reg field.Type_ = false)
    (hlit : bodiedFuncDecl f = true) :
    ∃ res, increaseSpeed f = .ok res ∧
      (∀ k, walkFuncDecl reg (costFuncDecl res + k) res = .ok
        (.mk f.Doc none f.Name
          (.mk (rewriteOptFieldList reg f.Type_.Params)
            (some (.mk [.mk none []
              (.ChanType (SEND ||| RECV) (rewriteExpr reg field.Type_)) none none])))
          (some (.mk [
            .AssignStmt [.Ident resultIdent] .DEFINE
              [.CallExpr (.mk (.Ident (NewIdent "make")) NoPos
                [.ChanType (SEND ||| RECV) (rewriteExpr reg field.Type_)] NoPos)],
            .GoStmt (.mk
              (.FuncLit (.mk (some (.mk [])) none)
                (some (.mk [
                  .SendStmt (.Ident resultIdent)
                    (.CallExpr (.mk
                      (.FuncLit (.mk none (some (.mk [rewriteField reg field])))
                        (some (rewriteBlockStmt reg B)))
                      NoPos [] NoPos))])))
              NoPos [] NoPos),
            .ReturnStmt [.Ident resultIdent]])))) ∧
      everyBlockStmt (notRegistered reg) (fun _ => true) (rewriteBlockStmt reg B) = true ∧
      countBlockStmt (received reg) (rewriteBlockStmt reg B) =
        countBlockStmt (received reg) B + countBlockStmt (toWrap reg) B ∧
      unwrapBlockStmt reg (rewriteBlockStmt reg B) = unwrapBlockStmt reg B ∧
      ∀ (ident : Ident) (lparen : Pos) (args : List Expr) (ellipsis : Pos),
        reg ident.Name = true → lparen ≠ NoPos →
        toWrap reg (.CallExpr (.mk (.Ident ident) lparen args ellipsis)) = 1 ∧
          receiveOver reg (rewriteExpr reg (.CallExpr (.mk (.Ident ident) lparen args ellipsis))) =
            .UnaryExpr .ARROW
              (.CallExpr (.mk (.Ident ident) NoPos (rewriteExprs reg args) ellipsis)) ∧
          received reg (.UnaryExpr .ARROW
            (.CallExpr (.mk (.Ident ident) NoPos (rewriteExprs reg args) ellipsis))) = 1 := by
  obtain ⟨res, hinc, hwalk⟩ := walk_increaseSpeed reg f field B hrecv hres hB htype hlit
  exact ⟨res, hinc, hwalk, (covered_all reg (costBlockStmt B)).block B (Nat.le_refl _),
    (counted_all reg (costBlockStmt B)).block B (Nat.le_refl _),
    (erased_all reg (costBlockStmt B)).block B (Nat.le_refl _),
    fun _ _ args ellipsis hr hl =>
      ⟨toWrap_call args ellipsis hl hr, receiveOver_rewrite_call args ellipsis hl hr,
        received_receive _ ellipsis hr⟩⟩

/-- C9 (witness): the theorem at scenario C, `func F() int \x7b return F() + 1 \x7d` with
`F` registered; the body has one call to wrap and the rewritten body is
`return <-F() + 1`, with one receive. -/
theorem C9_original_body_rewritten_witness :
    rewriteBlockStmt fRegistry selfCallBody =
        .mk [.ReturnStmt [.BinaryExpr
          (.UnaryExpr .ARROW (.CallExpr (.mk (.Ident (NewIdent "F")) NoPos [] NoPos)))
          .ADD (.BasicLit ⟨.INT, "1"⟩)]] ∧
      countBlockStmt (toWrap fRegistry) selfCallBody = 1 ∧
      countBlockStmt (received fRegistry) (rewriteBlockStmt fRegistry selfCallBody) = 1 ∧
      ∃ res, increaseSpeed selfCallDecl = .ok res ∧
        (∀ k, walkFuncDecl fRegistry (costFuncDecl res + k) res = .ok
          (.mk selfCallDecl.Doc none selfCallDecl.Name
            (.mk (rewriteOptFieldList fRegistry selfCallDecl.Type_.Params)
              (some (.mk [.mk none []
                (.ChanType (SEND ||| RECV)
                  (rewriteExpr fRegistry (Field.mk none [] intType none none).Type_))
                none none])))
            (some (.mk [
              .AssignStmt [.Ident resultIdent] .DEFINE
                [.CallExpr (.mk (.Ident (NewIdent "make")) NoPos
                  [.ChanType (SEND ||| RECV)
                    (rewriteExpr fRegistry (Field.mk none [] intType none none).Type_)] NoPos)],
              .GoStmt (.mk
                (.FuncLit (.mk (some (.mk [])) none)
                  (some (.mk [
                    .SendStmt (.Ident resultIdent)
                      (.CallExpr (.mk
                        (.FuncLit (.mk none (some (.mk
                            [rewriteField fRegistry (.mk none [] intType none none)])))
                          (some (rewriteBlockStmt fRegistry selfCallBody)))
                        NoPos [] NoPos))])))
                NoPos [] NoPos),
              .ReturnStmt [.Ident resultIdent]])))) ∧
        everyBlockStmt (notRegistered fRegistry) (fun _ => true)
          (rewriteBlockStmt fRegistry selfCallBody) = true ∧
        countBlockStmt (received fRegistry) (rewriteBlockStmt fRegistry selfCallBody) =
          countBlockStmt (received fRegistry) selfCallBody +
            countBlockStmt (toWrap fRegistry) selfCallBody ∧
        unwrapBlockStmt fRegistry (rewriteBlockStmt fRegistry selfCallBody) =
          unwrapBlockStmt fRegistry selfCallBody ∧
        ∀ (ident : Ident) (lparen : Pos) (args : List Expr) (ellipsis : Pos),
          fRegistry ident.Name = true → lparen ≠ NoPos →
          toWrap fRegistry (.CallExpr (.mk (.Ident ident) lparen args ellipsis)) = 1 ∧
            receiveOver fRegistry
                (rewriteExpr fRegistry (.CallExpr (.mk (.Ident ident) lparen args ellipsis))) =
              .UnaryExpr .ARROW
                (.CallExpr (.mk (.Ident ident) NoPos (rewriteExprs fRegistry args) ellipsis)) ∧
            received fRegistry (.UnaryExpr .ARROW
              (.CallExpr (.mk (.Ident ident) NoPos (rewriteExprs fRegistry args) ellipsis))) =
                1 :=
  ⟨rfl, by decide, by decide,
    C9_original_body_rewritten fRegistry selfCallDecl (.mk none [] intType none none)
      selfCallBody rfl rfl rfl (by decide) (by decide)⟩

/-! ## C10: which declarations are traversed -/

/-- C10 (counterexample). In the file `func F(x int) int \x7b return x \x7d` followed by
the package-level declaration `var x = F(1)`, the name `F` is registered and `F(1)`
is a parenthesized direct call of it; the full pass returns the variable declaration
as it was, with the initializer `F(1)` not replaced by a receive. -/
theorem C10_counterexample_package_level_var :
    ∃ reg decls out,
      scanPhase Registry.empty packageVarFile.Decls = .ok (reg, decls) ∧
      isRegisteredCall reg (.CallExpr callF1) = true ∧
      varXDecl =
        .GenDecl none .VAR [.ValueSpec none [NewIdent "x"] none [.CallExpr callF1] none] ∧
      main 40 packageVarFile = .ok { Decls := [out, varXDecl] } :=
  ⟨_, _, _, scanPhase_eq _ _, by decide, rfl, rfl⟩

/-- C10 (amended). The call-site rewriter traverses the top-level function
declarations of the file and no other top-level declaration. A general declaration
`GenDecl` (such as the package-level `var x = F()`) and a bad declaration are
returned as they are, whatever the registry. A function declaration `f` in which every
function literal has a body is, with enough fuel, replaced by its rewrite as the
specification words it: no expression position of it holds a parenthesized direct
call of a registered name any more, it has one receive over a cleared call of a
registered name more than `f` for every such call in an expression position of `f`,
the initializers of the variable declarations inside the body of `f` included, and
apart from these receives and the cleared `Lparen` marks it is `f`. A parenthesized
call of a registered identifier is such a call, and the receive over it, with `Lparen`
cleared and the arguments rewritten, is what stands in its place. -/
theorem C10_only_function_declarations (reg : Registry) (fuel : Nat) (f : FuncDecl)
    (doc : Option CommentGroup) (tok : Token) (specs : List Spec)
    (hfuel : costFuncDecl f ≤ fuel) (hbody : bodiedFuncDecl f = true) :
    rewriteStep reg fuel (.GenDecl doc tok specs) = .ok (.GenDecl doc tok specs) ∧
      rewriteStep reg fuel .BadDecl = .ok .BadDecl ∧
      rewriteStep reg fuel (.FuncDecl f) = .ok (.FuncDecl (rewriteFuncDecl reg f)) ∧
      everyFuncDecl (notRegistered reg) (fun _ => true) (rewriteFuncDecl reg f) = true ∧
      countFuncDecl (received reg) (rewriteFuncDecl reg f) =
        countFuncDecl (received reg) f + countFuncDecl (toWrap reg) f ∧
      unwrapFuncDecl reg (rewriteFuncDecl reg f) = unwrapFuncDecl reg f ∧
      ∀ (ident : Ident) (lparen : Pos) (args : List Expr) (ellipsis : Pos),
        reg ident.Name = true → lparen ≠ NoPos →
        toWrap reg (.CallExpr (.mk (.Ident ident) lparen args ellipsis)) = 1 ∧
          receiveOver reg (rewriteExpr reg (.CallExpr (.mk (.Ident ident) lparen args ellipsis))) =
            .UnaryExpr .ARROW
              (.CallExpr (.mk (.Ident ident) NoPos (rewriteExprs reg args) ellipsis)) ∧
          received reg (.UnaryExpr .ARROW
            (.CallExpr (.mk (.Ident ident) NoPos (rewriteExprs reg args) ellipsis))) = 1 :=
  ⟨rfl, rfl, rewriteStep_funcDecl reg fuel f hfuel hbody,
    (covered_all reg (costFuncDecl f)).funcDecl f (Nat.le_refl _),
    (counted_all reg (costFuncDecl f)).funcDecl f (Nat.le_refl _),
    (erased_all reg (costFuncDecl f)).funcDecl f (Nat.le_refl _),
    fun _ _ args ellipsis hr hl =>
      ⟨toWrap_call args ellipsis hl hr, receiveOver_rewrite_call args ellipsis hl hr,
        received_receive _ ellipsis hr⟩⟩

/-- C10 (witness): the theorem at `func h() \x7b var x = F(1) \x7d` and at the
package-level `var x = F(1)`, with `F` registered: inside `h` the initializer, the
one call to wrap, becomes `<-F(1)`. -/
theorem C10_only_function_declarations_witness :
    rewriteFuncDecl fRegistry localVarDecl =
        .mk none none (NewIdent "h") (.mk (some (.mk [])) none)
          (some (.mk [.DeclStmt (.GenDecl none .VAR [.ValueSpec none [NewIdent "x"] none
            [.UnaryExpr .ARROW (.CallExpr (.mk (.Ident (NewIdent "F")) NoPos
              [.BasicLit ⟨.INT, "1"⟩] NoPos))] none])])) ∧
      countFuncDecl (toWrap fRegistry) localVarDecl = 1 ∧
      (rewriteStep fRegistry 20
          (.GenDecl none .VAR [.ValueSpec none [NewIdent "x"] none [.CallExpr callF1] none]) =
          .ok (.GenDecl none .VAR
            [.ValueSpec none [NewIdent "x"] none [.CallExpr callF1] none]) ∧
        rewriteStep fRegistry 20 .BadDecl = .ok .BadDecl ∧
        rewriteStep fRegistry 20 (.FuncDecl localVarDecl) =
          .ok (.FuncDecl (rewriteFuncDecl fRegistry localVarDecl)) ∧
        everyFuncDecl (notRegistered fRegistry) (fun _ => true)
          (rewriteFuncDecl fRegistry localVarDecl) = true ∧
        countFuncDecl (received fRegistry) (rewriteFuncDecl fRegistry localVarDecl) =
          countFuncDecl (received fRegistry) localVarDecl +
            countFuncDecl (toWrap fRegistry) localVarDecl ∧
        unwrapFuncDecl fRegistry (rewriteFuncDecl fRegistry localVarDecl) =
          unwrapFuncDecl fRegistry localVarDecl ∧
        ∀ (ident : Ident) (lparen : Pos) (args : List Expr) (ellipsis : Pos),
          fRegistry ident.Name = true → lparen ≠ NoPos →
          toWrap fRegistry (.CallExpr (.mk (.Ident ident) lparen args ellipsis)) = 1 ∧
            receiveOver fRegistry
                (rewriteExpr fRegistry (.CallExpr (.mk (.Ident ident) lparen args ellipsis))) =
              .UnaryExpr .ARROW
                (.CallExpr (.mk (.Ident ident) NoPos (rewriteExprs fRegistry args) ellipsis)) ∧
            received fRegistry (.UnaryExpr .ARROW
              (.CallExpr (.mk (.Ident ident) NoPos (rewriteExprs fRegistry args) ellipsis))) =
                1) :=
  ⟨rfl, by decide, C10_only_function_declarations fRegistry 20 localVarDecl none .VAR _
    (by decide) (by decide)⟩

/-! ## C12: nested calls in arguments -/

/-- C12 (counterexample). With `f` and `g` registered, the call
`f(func() \x7b go g(x) \x7d)` in a rewritten position becomes the receive over `f` with
the argument unchanged: the parenthesized direct call `g(x)` of a registered name,
nested in the argument list of the wrapped call, is the operand of a `go` statement
and is not wrapped. -/
theorem C12_counterexample_go_in_argument :
    isRegisteredCall fgRegistry (.CallExpr callGx) = true ∧
      callFClosure.Args = [.FuncLit (.mk (some (.mk [])) none) (some (.mk [.GoStmt callGx]))] ∧
      walkStmt fgRegistry 20 (.ExprStmt (.CallExpr callFClosure)) =
        .ok (.ExprStmt (.UnaryExpr .ARROW (.CallExpr (.mk (.Ident (NewIdent "f")) NoPos
          [.FuncLit (.mk (some (.mk [])) none) (some (.mk [.GoStmt callGx]))] NoPos)))) :=
  ⟨by decide, rfl, rfl⟩

/-- C12 (amended). Let `ident` be registered and the call `ident(args)` be written
with parentheses, in a position the pass rewrites, all function literals having
bodies and the fuel covering the call. The pass leaves the receive over the call,
whose arguments are the rewrite of `args` as the specification words it. In the
rewritten arguments no expression position, at any depth, holds a parenthesized
direct call of a registered name; they have one receive over a cleared call of a
registered name more than `args` for every such call in an expression position of
`args`, at any depth; and apart from these receives and the cleared `Lparen` marks
they are `args`. An argument that is itself a parenthesized call `g(ys)` of a
registered name becomes `<-g(ys')`, with `ys'` the arguments `ys` rewritten in the
same way, which is the step from one nesting depth to the next. Calls that are
operands of `go` or `defer` statements inside the arguments stay as they are. -/
theorem C12_arguments_rewritten (reg : Registry) (ident : Ident) (lparen : Pos)
    (args : List Expr) (ellipsis : Pos) (fuel : Nat)
    (hreg : reg ident.Name = true) (hparen : lparen ≠ NoPos)
    (hfuel : costExpr (.CallExpr (.mk (.Ident ident) lparen args ellipsis)) ≤ fuel)
    (hbody : everyExprs hasBody (fun _ => true) args = true) :
    walkExpr reg fuel (wrapInReceive reg (.CallExpr (.mk (.Ident ident) lparen args ellipsis))) =
        .ok (.UnaryExpr .ARROW
          (.CallExpr (.mk (.Ident ident) NoPos (rewriteExprs reg args) ellipsis))) ∧
      everyExprs (notRegistered reg) (fun _ => true) (rewriteExprs reg args) = true ∧
      countExprs (received reg) (rewriteExprs reg args) =
        countExprs (received reg) args + countExprs (toWrap reg) args ∧
      unwrapExprs reg (rewriteExprs reg args) = unwrapExprs reg args ∧
      ∀ (g : Ident) (lp : Pos) (ys : List Expr) (el : Pos) (rest : List Expr),
        reg g.Name = true → lp ≠ NoPos →
        toWrap reg (.CallExpr (.mk (.Ident g) lp ys el)) = 1 ∧
          rewriteExprs reg (.CallExpr (.mk (.Ident g) lp ys el) :: rest) =
            .UnaryExpr .ARROW (.CallExpr (.mk (.Ident g) NoPos (rewriteExprs reg ys) el)) ::
              rewriteExprs reg rest ∧
          received reg (.UnaryExpr .ARROW
            (.CallExpr (.mk (.Ident g) NoPos (rewriteExprs reg ys) el))) = 1 := by
  refine ⟨?_, covered_slots (covered_all reg (costExprs args)) args (Nat.le_refl _),
    counted_slots (counted_all reg (costExprs args)) args (Nat.le_refl _),
    erased_slots (erased_all reg (costExprs args)) args (Nat.le_refl _),
    fun g lp ys el rest hr hl => ⟨toWrap_call ys el hl hr, ?_, received_receive _ el hr⟩⟩
  · rw [(walkSpec_all reg fuel).slot _ hfuel
      (by simp [everyExpr, everyCallExpr, hasBody, hbody])]
    simp only [rewriteExpr, rewriteCallExpr, receiveOver_eq, wrapInReceive_ident,
      wrapInReceive_of_registered hparen hreg]
  · rw [rewriteExprs, receiveOver_rewrite_call ys el hl hr]

/-- C12 (witness): the theorem at `f(g(x))` with `f` and `g` registered; the call
becomes `<-f(<-g(x))`: the argument list has one call to wrap and, rewritten, one
receive. -/
theorem C12_arguments_rewritten_witness :
    rewriteExprs fgRegistry [.CallExpr callGx] =
        [.UnaryExpr .ARROW (.CallExpr (.mk (.Ident (NewIdent "g")) NoPos
          [.Ident (NewIdent "x")] NoPos))] ∧
      countExprs (toWrap fgRegistry) [.CallExpr callGx] = 1 ∧
      (walkExpr fgRegistry 10 (wrapInReceive fgRegistry
          (.CallExpr (.mk (.Ident (NewIdent "f")) 1 [.CallExpr callGx] NoPos))) =
          .ok (.UnaryExpr .ARROW (.CallExpr (.mk (.Ident (NewIdent "f")) NoPos
            (rewriteExprs fgRegistry [.CallExpr callGx]) NoPos))) ∧
        everyExprs (notRegistered fgRegistry) (fun _ => true)
          (rewriteExprs fgRegistry [.CallExpr callGx]) = true ∧
        countExprs (received fgRegistry) (rewriteExprs fgRegistry [.CallExpr callGx]) =
          countExprs (received fgRegistry) [.CallExpr callGx] +
            countExprs (toWrap fgRegistry) [.CallExpr callGx] ∧
        unwrapExprs fgRegistry (rewriteExprs fgRegistry [.CallExpr callGx]) =
          unwrapExprs fgRegistry [.CallExpr callGx] ∧
        ∀ (g : Ident) (lp : Pos) (ys : List Expr) (el : Pos) (rest : List Expr),
          fgRegistry g.Name = true → lp ≠ NoPos →
          toWrap fgRegistry (.CallExpr (.mk (.Ident g) lp ys el)) = 1 ∧
            rewriteExprs fgRegistry (.CallExpr (.mk (.Ident g) lp ys el) :: rest) =
              .UnaryExpr .ARROW
                  (.CallExpr (.mk (.Ident g) NoPos (rewriteExprs fgRegistry ys) el)) ::
                rewriteExprs fgRegistry rest ∧
            received fgRegistry (.UnaryExpr .ARROW
              (.CallExpr (.mk (.Ident g) NoPos (rewriteExprs fgRegistry ys) el))) = 1) :=
  ⟨rfl, by decide,
    C12_arguments_rewritten fgRegistry (NewIdent "f") 1 [.CallExpr callGx] NoPos 10
      (by decide) (by decide) (by decide) (by decide)⟩

/-! ## C13, C14: a declaration without body -/

/-- C13 (the code at the failing input). `func f() int`, a receiver-less function
with exactly one result and no body, is passed to the declaration transformer: the
scan phase registers `f` and replaces the declaration by `increaseSpeed` of it, a
declaration with a body of three statements whose inner function literal has no
body. -/
theorem C13_forward_declaration_is_transformed :
    forwardDecl.Recv = none ∧ forwardDecl.Body = none ∧
      increaseSpeed forwardDecl = .ok forwardFaster ∧
      scanStep Registry.empty (.FuncDecl forwardDecl) =
        .ok (Registry.empty.setTrue "f", .FuncDecl forwardFaster) ∧
      (∃ s1 s2 s3, forwardFaster.Body = some (.mk [s1, s2, s3])) ∧
      embeddedBody forwardFaster = none :=
  ⟨rfl, rfl, rfl, rfl, ⟨_, _, _, rfl⟩, rfl⟩

/-- C14 (the code at the failing input). On the file that consists of
`func f() int`, a declaration without body, the scan phase succeeds and the
call-site rewrite phase fails: `main` returns no file at any fuel, and once the fuel
reaches the inner function literal (at 13, and at 40) the failure is the dereference
of its nil body in `ast.Walk`. -/
theorem C14_forward_declaration_panics (fuel : Nat) :
    scanPhase Registry.empty forwardFile.Decls =
        .ok (Registry.empty.setTrue "f", [.FuncDecl forwardFaster]) ∧
      (∀ out, main fuel forwardFile ≠ .ok out) ∧
      main 13 forwardFile = .error .nilDereference ∧
      main 40 forwardFile = .error .nilDereference :=
  ⟨rfl, fun out => main_fails_on_forward_declaration fuel _ forwardDecl
      (.mk none [] intType none none) (List.mem_singleton.2 rfl) rfl rfl rfl out,
    rfl, rfl⟩

/-! ## C15: matching by spelling -/

/-- C15 (counterexample). In the file `func make() int \x7b return 1 \x7d` followed by
`func use() \x7b make() \x7d` the name `make` is registered. The call `make(chan int)`
that `increaseSpeed` generates and the written call `make()` have callees of the same
name, the first without resolved object and the second resolved to the declared
function; in the one run `wrapInReceive` leaves the first as it is and wraps the
second: the output has `result := make(chan int)` and `<-make()`. The two calls
differ in `Lparen`, which the generated call does not have. -/
theorem C15_counterexample_generated_make :
    ∃ reg decls out0,
      scanPhase Registry.empty makeFile.Decls = .ok (reg, decls) ∧
      (NewIdent "make").Name = makeFuncIdent.Name ∧
      (NewIdent "make").Obj ≠ makeFuncIdent.Obj ∧
      wrapInReceive reg (.CallExpr (.mk (.Ident (NewIdent "make")) NoPos
          [.ChanType (SEND ||| RECV) intType] NoPos)) =
        .CallExpr (.mk (.Ident (NewIdent "make")) NoPos
          [.ChanType (SEND ||| RECV) intType] NoPos) ∧
      wrapInReceive reg (.CallExpr (.mk (.Ident makeFuncIdent) 1 [] NoPos)) =
        .UnaryExpr .ARROW (.CallExpr (.mk (.Ident makeFuncIdent) NoPos [] NoPos)) ∧
      main 40 makeFile = .ok (File.mk [.FuncDecl out0,
        .FuncDecl (.mk none none (NewIdent "use") (.mk (some (.mk [])) none)
          (some (.mk [.ExprStmt (.UnaryExpr .ARROW
            (.CallExpr (.mk (.Ident makeFuncIdent) NoPos [] NoPos)))])))]) ∧
      firstStmt out0 = some (.AssignStmt [.Ident resultIdent] .DEFINE
        [.CallExpr (.mk (.Ident (NewIdent "make")) NoPos
          [.ChanType (SEND ||| RECV) intType] NoPos)]) :=
  ⟨_, _, _, scanPhase_eq _ _, rfl, by decide, rfl, rfl, rfl, rfl⟩

/-- C15 (amended). Two calls whose callees are identifiers of the same name, whatever
objects the two identifiers resolve to, and which either both have an `Lparen`
position (as all calls the parser yields have) or both have none, are treated alike
by `wrapInReceive`: either both are replaced by the receive over them, with `Lparen`
cleared, or both are returned as they are. -/
theorem C15_spelling_and_lparen_only (reg : Registry) (name : String)
    (obj1 obj2 : Option Object)
    (lparen1 lparen2 : Pos) (args1 args2 : List Expr) (ellipsis1 ellipsis2 : Pos)
    (h : lparen1 = NoPos ↔ lparen2 = NoPos) :
    (wrapInReceive reg (.CallExpr (.mk (.Ident ⟨name, obj1⟩) lparen1 args1 ellipsis1)) =
          .UnaryExpr .ARROW (.CallExpr (.mk (.Ident ⟨name, obj1⟩) NoPos args1 ellipsis1)) ∧
        wrapInReceive reg (.CallExpr (.mk (.Ident ⟨name, obj2⟩) lparen2 args2 ellipsis2)) =
          .UnaryExpr .ARROW (.CallExpr (.mk (.Ident ⟨name, obj2⟩) NoPos args2 ellipsis2))) ∨
      (wrapInReceive reg (.CallExpr (.mk (.Ident ⟨name, obj1⟩) lparen1 args1 ellipsis1)) =
          .CallExpr (.mk (.Ident ⟨name, obj1⟩) lparen1 args1 ellipsis1) ∧
        wrapInReceive reg (.CallExpr (.mk (.Ident ⟨name, obj2⟩) lparen2 args2 ellipsis2)) =
          .CallExpr (.mk (.Ident ⟨name, obj2⟩) lparen2 args2 ellipsis2)) := by
  by_cases h1 : lparen1 = NoPos
  · have h2 := h.1 h1
    subst h1 h2
    exact Or.inr ⟨wrapInReceive_noPos _ _ _ _, wrapInReceive_noPos _ _ _ _⟩
  · have h2 : lparen2 ≠ NoPos := fun h2 => h1 (h.2 h2)
    cases hr : reg name with
    | true =>
      exact Or.inl ⟨wrapInReceive_of_registered h1 hr, wrapInReceive_of_registered h2 hr⟩
    | false =>
      refine Or.inr ⟨wrapInReceive_of_not_registered ?_, wrapInReceive_of_not_registered ?_⟩ <;>
        simp [isRegisteredCall, hr]

/-- C15 (witness): the theorem at `Add(2, 3)` with `Add` resolved to the top-level
function and at `Add(2, 3)` with `Add` resolved to a local variable, both written
with parentheses; with `Add` registered both are wrapped. -/
theorem C15_spelling_and_lparen_only_witness :
    wrapInReceive addRegistry (.CallExpr (.mk (.Ident ⟨"Add", addVarIdent.Obj⟩) 1
          [.BasicLit ⟨.INT, "2"⟩, .BasicLit ⟨.INT, "3"⟩] NoPos)) =
        .UnaryExpr .ARROW (.CallExpr (.mk (.Ident ⟨"Add", addVarIdent.Obj⟩) NoPos
          [.BasicLit ⟨.INT, "2"⟩, .BasicLit ⟨.INT, "3"⟩] NoPos)) ∧
      ((wrapInReceive addRegistry (.CallExpr (.mk (.Ident ⟨"Add", addFuncIdent.Obj⟩) 1
              [.BasicLit ⟨.INT, "2"⟩, .BasicLit ⟨.INT, "3"⟩] NoPos)) =
            .UnaryExpr .ARROW (.CallExpr (.mk (.Ident ⟨"Add", addFuncIdent.Obj⟩) NoPos
              [.BasicLit ⟨.INT, "2"⟩, .BasicLit ⟨.INT, "3"⟩] NoPos)) ∧
          wrapInReceive addRegistry (.CallExpr (.mk (.Ident ⟨"Add", addVarIdent.Obj⟩) 1
              [.BasicLit ⟨.INT, "2"⟩, .BasicLit ⟨.INT, "3"⟩] NoPos)) =
            .UnaryExpr .ARROW (.CallExpr (.mk (.Ident ⟨"Add", addVarIdent.Obj⟩) NoPos
              [.BasicLit ⟨.INT, "2"⟩, .BasicLit ⟨.INT, "3"⟩] NoPos))) ∨
        (wrapInReceive addRegistry (.CallExpr (.mk (.Ident ⟨"Add", addFuncIdent.Obj⟩) 1
              [.BasicLit ⟨.INT, "2"⟩, .BasicLit ⟨.INT, "3"⟩] NoPos)) =
            .CallExpr (.mk (.Ident ⟨"Add", addFuncIdent.Obj⟩) 1
              [.BasicLit ⟨.INT, "2"⟩, .BasicLit ⟨.INT, "3"⟩] NoPos) ∧
          wrapInReceive addRegistry (.CallExpr (.mk (.Ident ⟨"Add", addVarIdent.Obj⟩) 1
              [.BasicLit ⟨.INT, "2"⟩, .BasicLit ⟨.INT, "3"⟩] NoPos)) =
            .CallExpr (.mk (.Ident ⟨"Add", addVarIdent.Obj⟩) 1
              [.BasicLit ⟨.INT, "2"⟩, .BasicLit ⟨.INT, "3"⟩] NoPos))) :=
  ⟨rfl, C15_spelling_and_lparen_only addRegistry "Add" addFuncIdent.Obj addVarIdent.Obj 1 1 _ _
    NoPos NoPos Iff.rfl⟩

/-! ## C16: idempotence -/

/-- C16. When `wrapInReceive` wraps a call, the call under the receive has `Lparen`
cleared, and the visitor, on the inserted receive node, leaves that operand alone: for
a parenthesized call of a registered identifier, `wrapInReceive` yields the receive
over the call with `Lparen` cleared, and neither `wrapInReceive` nor the visitor
changes that receive or wraps its operand again. For a function declaration `f` in
which every function literal has a body, walked with enough fuel: the walk yields the
rewrite `out` of `f` as the specification words it; in `out` no expression position
holds a parenthesized direct call of a registered name; `out` has exactly one receive
over a cleared call of a registered name more than `f` for every such call in an
expression position of `f`; apart from these receives and the cleared `Lparen`
marks, `out` is `f`; and the walk of `out`, the pass applied a second time, returns
`out` itself. -/
theorem C16_rewrite_idempotent (reg : Registry) (f : FuncDecl) (call : CallExpr)
    (fuel : Nat) (hfuel : costFuncDecl f ≤ fuel) (hbody : bodiedFuncDecl f = true) :
    (call.setLparen NoPos).Lparen = NoPos ∧
      visitorExpr reg (callToReceiveCall (call.setLparen NoPos)) =
        callToReceiveCall (call.setLparen NoPos) ∧
      (∀ (ident : Ident) (lparen : Pos) (args : List Expr) (ellipsis : Pos),
        reg ident.Name = true → lparen ≠ NoPos →
        wrapInReceive reg (.CallExpr (.mk (.Ident ident) lparen args ellipsis)) =
            .UnaryExpr .ARROW (.CallExpr (.mk (.Ident ident) NoPos args ellipsis)) ∧
          wrapInReceive reg (.CallExpr (.mk (.Ident ident) NoPos args ellipsis)) =
            .CallExpr (.mk (.Ident ident) NoPos args ellipsis) ∧
          wrapInReceive reg (.UnaryExpr .ARROW (.CallExpr (.mk (.Ident ident) NoPos args ellipsis))) =
            .UnaryExpr .ARROW (.CallExpr (.mk (.Ident ident) NoPos args ellipsis)) ∧
          visitorExpr reg (.UnaryExpr .ARROW (.CallExpr (.mk (.Ident ident) NoPos args ellipsis))) =
            .UnaryExpr .ARROW (.CallExpr (.mk (.Ident ident) NoPos args ellipsis))) ∧
      ∃ out, walkFuncDecl reg fuel f = .ok out ∧
        out = rewriteFuncDecl reg f ∧
        everyFuncDecl (notRegistered reg) (fun _ => true) out = true ∧
        countFuncDecl (received reg) out =
          countFuncDecl (received reg) f + countFuncDecl (toWrap reg) f ∧
        countFuncDecl (toWrap reg) out = 0 ∧
        unwrapFuncDecl reg out = unwrapFuncDecl reg f ∧
        ∀ k, walkFuncDecl reg (costFuncDecl out + k) out = .ok out := by
  have hcov := (covered_all reg (costFuncDecl f)).funcDecl f (Nat.le_refl _)
  have hfix := (fixed_all reg (costFuncDecl (rewriteFuncDecl reg f))).funcDecl
    (rewriteFuncDecl reg f) (Nat.le_refl _) hcov
  have hbod := (bodied_all reg (costFuncDecl f)).funcDecl f (Nat.le_refl _) hbody
  have hcnt := (counted_all reg (costFuncDecl f)).funcDecl f (Nat.le_refl _)
  have hcnt2 := (counted_all reg (costFuncDecl (rewriteFuncDecl reg f))).funcDecl
    (rewriteFuncDecl reg f) (Nat.le_refl _)
  refine ⟨by cases call; rfl, ?_, fun ident lparen args ellipsis hr hl => ?_,
    rewriteFuncDecl reg f, (walkSpec_all reg fuel).funcDecl f hfuel hbody, rfl, hcov, hcnt, ?_,
    (erased_all reg (costFuncDecl f)).funcDecl f (Nat.le_refl _), fun k => ?_⟩
  · cases call with
    | mk fn l a e =>
      simp only [callToReceiveCall, CallExpr.setLparen, visitorExpr, wrapInReceive_noPos]
  · exact ⟨wrapInReceive_of_registered hl hr, wrapInReceive_noPos _ _ _ _, rfl, by
      simp only [visitorExpr, wrapInReceive_noPos]⟩
  · rw [hfix] at hcnt2
    omega
  · have h2 := (walkSpec_all reg (costFuncDecl (rewriteFuncDecl reg f) + k)).funcDecl
      (rewriteFuncDecl reg f) (Nat.le_add_right _ _) hbod
    rw [h2, hfix]

/-- C16 (witness): the theorem at `func use() \x7b Add(2, 3) \x7d` with `Add`
registered; the first pass yields `func use() \x7b <-Add(2, 3) \x7d`, with one receive
for the one call to wrap. -/
theorem C16_rewrite_idempotent_witness :
    walkFuncDecl addRegistry 10 addCaller = .ok useFaster ∧
      countFuncDecl (toWrap addRegistry) addCaller = 1 ∧
      countFuncDecl (received addRegistry) useFaster = 1 ∧
      ((callAdd23.setLparen NoPos).Lparen = NoPos ∧
        visitorExpr addRegistry (callToReceiveCall (callAdd23.setLparen NoPos)) =
          callToReceiveCall (callAdd23.setLparen NoPos) ∧
        (∀ (ident : Ident) (lparen : Pos) (args : List Expr) (ellipsis : Pos),
          addRegistry ident.Name = true → lparen ≠ NoPos →
          wrapInReceive addRegistry (.CallExpr (.mk (.Ident ident) lparen args ellipsis)) =
              .UnaryExpr .ARROW (.CallExpr (.mk (.Ident ident) NoPos args ellipsis)) ∧
            wrapInReceive addRegistry (.CallExpr (.mk (.Ident ident) NoPos args ellipsis)) =
              .CallExpr (.mk (.Ident ident) NoPos args ellipsis) ∧
            wrapInReceive addRegistry
                (.UnaryExpr .ARROW (.CallExpr (.mk (.Ident ident) NoPos args ellipsis))) =
              .UnaryExpr .ARROW (.CallExpr (.mk (.Ident ident) NoPos args ellipsis)) ∧
            visitorExpr addRegistry
                (.UnaryExpr .ARROW (.CallExpr (.mk (.Ident ident) NoPos args ellipsis))) =
              .UnaryExpr .ARROW (.CallExpr (.mk (.Ident ident) NoPos args ellipsis))) ∧
        ∃ out, walkFuncDecl addRegistry 10 addCaller = .ok out ∧
          out = rewriteFuncDecl addRegistry addCaller ∧
          everyFuncDecl (notRegistered addRegistry) (fun _ => true) out = true ∧
          countFuncDecl (received addRegistry) out =
            countFuncDecl (received addRegistry) addCaller +
              countFuncDecl (toWrap addRegistry) addCaller ∧
          countFuncDecl (toWrap addRegistry) out = 0 ∧
          unwrapFuncDecl addRegistry out = unwrapFuncDecl addRegistry addCaller ∧
          ∀ k, walkFuncDecl addRegistry (costFuncDecl out + k) out = .ok out) :=
  ⟨rfl, by decide, by decide,
    C16_rewrite_idempotent addRegistry addCaller callAdd23 10 (by decide) (by decide)⟩

/-! ## C17: one result field with several names -/

/-- C17. A function declaration without receiver whose result list is one field that
declares two or more names, and so two or more results, is registered by the scan
phase and replaced by `increaseSpeed` of it, and the result list of the replacement
is the one unnamed result of type `chan T`, where `T` is the type the names of the
field share. -/
theorem C17_fields_not_values (reg : Registry) (f : FuncDecl) (field : Field)
    (hrecv : f.Recv = none) (hres : f.Type_.Results = some (.mk [field]))
    (hnames : 2 ≤ field.Names.length) :
    2 ≤ NumFields f.Type_.Results ∧
      ∃ res, increaseSpeed f = .ok res ∧
        scanStep reg (.FuncDecl f) = .ok (reg.setTrue f.Name.Name, .FuncDecl res) ∧
        res.Type_.Results =
          some (.mk [.mk none [] (.ChanType (SEND ||| RECV) field.Type_) none none]) := by
  have he : eligible f = true := (eligible_iff f).2 ⟨hrecv, _, hres, rfl⟩
  refine ⟨?_, _, increaseSpeed_eq f field [] hres, ?_, rfl⟩
  · rw [hres]
    simp only [NumFields, List.map, List.sum_cons, List.sum_nil]
    split <;> omega
  · rw [scanStep_funcDecl, he, increaseSpeed_eq f field [] hres]
    rfl

/-- C17 (witness): the theorem at `func f() (a, b int) \x7b return 1, 2 \x7d`; the
result type becomes `chan int`. -/
theorem C17_fields_not_values_witness :
    2 ≤ NumFields twoNamedResults.Type_.Results ∧
      ∃ res, increaseSpeed twoNamedResults = .ok res ∧
        scanStep Registry.empty (.FuncDecl twoNamedResults) =
          .ok (Registry.empty.setTrue twoNamedResults.Name.Name, .FuncDecl res) ∧
        res.Type_.Results =
          some (.mk [.mk none [] (.ChanType (SEND ||| RECV)
            (Field.mk none [NewIdent "a", NewIdent "b"] intType none none).Type_) none none]) :=
  C17_fields_not_values Registry.empty twoNamedResults
    (.mk none [NewIdent "a", NewIdent "b"] intType none none) rfl rfl (by decide)

/-! ## C18: the operand of `go` and `defer` -/

/-- C18. The visitor leaves a `go` and a `defer` statement as they are, and the walk
of such a statement (with fuel that covers it, all function literals having bodies)
yields the same kind of statement over a call node with the same `Lparen`: the
operand is not replaced by a receive, whatever the registry says about its callee;
only its callee and its arguments are rewritten. -/
theorem C18_go_defer_operand (reg : Registry) (call : CallExpr) (fuel : Nat)
    (hfuel : costCallExpr call + 1 ≤ fuel)
    (hbody : everyCallExpr hasBody (fun _ => true) call = true) :
    visitorStmt reg (.GoStmt call) = .GoStmt call ∧
      visitorStmt reg (.DeferStmt call) = .DeferStmt call ∧
      walkStmt reg fuel (.GoStmt call) =
        .ok (.GoStmt (.mk (wrapInReceive reg (rewriteExpr reg call.Fun)) call.Lparen
          (rewriteExprs reg call.Args) call.Ellipsis)) ∧
      walkStmt reg fuel (.DeferStmt call) =
        .ok (.DeferStmt (.mk (wrapInReceive reg (rewriteExpr reg call.Fun)) call.Lparen
          (rewriteExprs reg call.Args) call.Ellipsis)) := by
  refine ⟨rfl, rfl, ?_, ?_⟩
  · rw [(walkSpec_all reg fuel).stmt (.GoStmt call)
      (by simp only [costStmt]; omega) (by simp [everyStmt, hbody])]
    cases call
    simp only [rewriteStmt, rewriteCallExpr, receiveOver_eq, CallExpr.Fun, CallExpr.Lparen,
      CallExpr.Args, CallExpr.Ellipsis]
  · rw [(walkSpec_all reg fuel).stmt (.DeferStmt call)
      (by simp only [costStmt]; omega) (by simp [everyStmt, hbody])]
    cases call
    simp only [rewriteStmt, rewriteCallExpr, receiveOver_eq, CallExpr.Fun, CallExpr.Lparen,
      CallExpr.Args, CallExpr.Ellipsis]

/-- C18 (witness): the theorem at `go F(1)` and `defer F(1)` with `F` registered; the
statements come out unchanged. -/
theorem C18_go_defer_operand_witness :
    (walkStmt fRegistry 10 (.GoStmt callF1) = .ok (.GoStmt callF1) ∧
        walkStmt fRegistry 10 (.DeferStmt callF1) = .ok (.DeferStmt callF1)) ∧
      (visitorStmt fRegistry (.GoStmt callF1) = .GoStmt callF1 ∧
        visitorStmt fRegistry (.DeferStmt callF1) = .DeferStmt callF1 ∧
        walkStmt fRegistry 10 (.GoStmt callF1) =
          .ok (.GoStmt (.mk (wrapInReceive fRegistry (rewriteExpr fRegistry callF1.Fun))
            callF1.Lparen (rewriteExprs fRegistry callF1.Args) callF1.Ellipsis)) ∧
        walkStmt fRegistry 10 (.DeferStmt callF1) =
          .ok (.DeferStmt (.mk (wrapInReceive fRegistry (rewriteExpr fRegistry callF1.Fun))
            callF1.Lparen (rewriteExprs fRegistry callF1.Args) callF1.Ellipsis))) :=
  ⟨⟨rfl, rfl⟩, C18_go_defer_operand fRegistry callF1 10 (by decide) (by decide)⟩

/-! ## C19: the calls that `increaseSpeed` builds -/

/-- C19 (counterexample). In the file `func F(x int) int \x7b return x \x7d` followed by
`func table() [F(1)]int \x7b return zero \x7d`, the first statement that `increaseSpeed`
generates for `table` is `result := make(chan [F(1)]int)`; after the rewrite pass it
is `result := make(chan [<-F(1)]int)`. The statement lies outside the embedded
original body and is not the same after the pass as before it. -/
theorem C19_counterexample_result_type_rewritten :
    ∃ res out0 out1,
      increaseSpeed arrayResultDecl = .ok res ∧
      main 60 arrayResultFile = .ok { Decls := [out0, .FuncDecl out1] } ∧
      firstStmt res = some (.AssignStmt [.Ident resultIdent] .DEFINE
        [.CallExpr (.mk (.Ident (NewIdent "make")) NoPos
          [.ChanType (SEND ||| RECV) (.ArrayType (some (.CallExpr callF1)) intType)] NoPos)]) ∧
      firstStmt out1 = some (.AssignStmt [.Ident resultIdent] .DEFINE
        [.CallExpr (.mk (.Ident (NewIdent "make")) NoPos
          [.ChanType (SEND ||| RECV) (.ArrayType (some (.UnaryExpr .ARROW
            (.CallExpr (.mk (.Ident (NewIdent "F")) NoPos [.BasicLit ⟨.INT, "1"⟩] NoPos))))
            intType)] NoPos)]) ∧
      firstStmt out1 ≠ firstStmt res :=
  ⟨_, _, _, rfl, rfl, rfl, rfl, by
    intro h
    simp [firstStmt, FuncDecl.Body, callF1, typeToChanType, Field.Type_, arrayOfF1] at h⟩

/-- C19 (amended). Let `f` be an eligible declaration with the single result field
`field` and the body `B`, every function literal in `f` having a body and the result
type not being itself a call that `wrapInReceive` wraps. Whatever the registry
contains, the rewrite pass on `increaseSpeed f` yields what `increaseSpeed` builds
from the declaration whose parameter list, result field and body are the rewritten
ones of `f`: the call of `make`, the call of the outer function literal by the `go`
statement and the invocation of the inner function literal are not wrapped, and
outside the embedded parameter list, result type and original body the generated
declaration is the same after the pass as before it. -/
theorem C19_generated_calls_not_wrapped (reg : Registry) (f : FuncDecl) (field : Field)
    (B : BlockStmt)
    (hrecv : f.Recv = none) (hres : f.Type_.Results = some (.mk [field]))
    (hB : f.Body = some B) (htype : isRegisteredCall reg field.Type_ = false)
    (hlit : bodiedFuncDecl f = true) :
    ∃ res res2, increaseSpeed f = .ok res ∧
      increaseSpeed (.mk f.Doc none f.Name
        (.mk (rewriteOptFieldList reg f.Type_.Params) (some (.mk [rewriteField reg field])))
        (some (rewriteBlockStmt reg B))) = .ok res2 ∧
      ∀ k, walkFuncDecl reg (costFuncDecl res + k) res = .ok res2 := by
  obtain ⟨res, hinc, hwalk⟩ := walk_increaseSpeed reg f field B hrecv hres hB htype hlit
  have htype2 : isRegisteredCall reg (rewriteExpr reg field.Type_) = false := by
    rw [isRegisteredCall_rewriteExpr, htype]
  refine ⟨res, _, hinc, increaseSpeed_eq _ (rewriteField reg field) [] rfl, fun k => ?_⟩
  rw [hwalk k]
  cases field with
  | mk fdoc fnames ftype ftag fcomment =>
    simp only [Field.Type_] at htype2
    simp only [rewriteField, receiveOver_eq, Field.Type_, typeToChanType, FuncDecl.Doc, FuncDecl.Recv,
      FuncDecl.Name, FuncDecl.Type_, FuncDecl.Body, FuncType.Params, FuncType.Results,
      wrapInReceive_of_not_registered htype2]

/-- C19 (witness): the theorem at the eligible declaration `func make() int
\x7b return 1 \x7d` with `make` registered; the first statement after the pass is still
`result := make(chan int)`. -/
theorem C19_generated_calls_not_wrapped_witness :
    isRegisteredIdent makeRegistry (.Ident (NewIdent "make")) = true ∧
      ∃ res res2, increaseSpeed makeDecl = .ok res ∧
        increaseSpeed (.mk makeDecl.Doc none makeDecl.Name
          (.mk (rewriteOptFieldList makeRegistry makeDecl.Type_.Params)
            (some (.mk [rewriteField makeRegistry (.mk none [] intType none none)])))
          (some (rewriteBlockStmt makeRegistry returnOneBody))) = .ok res2 ∧
        ∀ k, walkFuncDecl makeRegistry (costFuncDecl res + k) res = .ok res2 :=
  ⟨by decide, C19_generated_calls_not_wrapped makeRegistry makeDecl
    (.mk none [] intType none none) returnOneBody rfl rfl rfl (by decide) (by decide)⟩

/-! ## C20: the name of the holder -/

/-- C20. Whatever the parameters and the body of an eligible declaration `f` with
result type `T` and body `B` are, the first statement of the body of `increaseSpeed f`
is the definition `result := make(chan T)`, over the identifier `resultIdent` whose
name is `result`, and the body of the inner function literal is `B` itself, with all
its identifiers as they were. -/
theorem C20_holder_named_result (f : FuncDecl) (field : Field) (B : BlockStmt)
    (hrecv : f.Recv = none) (hres : f.Type_.Results = some (.mk [field]))
    (hB : f.Body = some B) :
    resultIdent.Name = "result" ∧
      ∃ res, increaseSpeed f = .ok res ∧
        firstStmt res = some (.AssignStmt [.Ident resultIdent] .DEFINE
          [.CallExpr (.mk (.Ident (NewIdent "make")) NoPos
            [.ChanType (SEND ||| RECV) field.Type_] NoPos)]) ∧
        embeddedBody res = some B := by
  have _ := hrecv
  refine ⟨rfl, _, increaseSpeed_eq f field [] hres, rfl, ?_⟩
  simp only [embeddedBody, FuncDecl.Body, hB]
  rw [← hB]
  rfl

/-- C20 (witness): the theorem at `func id(result int) int \x7b return result \x7d`. -/
theorem C20_holder_named_result_witness :
    resultIdent.Name = "result" ∧
      ∃ res, increaseSpeed resultParamDecl = .ok res ∧
        firstStmt res = some (.AssignStmt [.Ident resultIdent] .DEFINE
          [.CallExpr (.mk (.Ident (NewIdent "make")) NoPos
            [.ChanType (SEND ||| RECV) (Field.mk none [] intType none none).Type_] NoPos)]) ∧
        embeddedBody res = some returnResultBody :=
  C20_holder_named_result resultParamDecl (.mk none [] intType none none) returnResultBody
    rfl rfl rfl

end GoFaster
